import Mathlib

/-!
# FieldOpt: worker pool, trust-region search, deck parser and net present value

A shallow embedding of `FieldOpt/Runner/runners/overseer.cpp`, of
`FieldOpt/Optimization/optimizers/trust_region_search.cpp`, of
`FieldOpt/Settings/deck_parser.cpp` and of
`FieldOpt/Optimization/objective/carbondioxidenpv.cpp`.

Conventions of the embedding:

* `int` ranks and counters are `Nat` where the code only ever produces
  non-negative values, and `Int` where the code compares against `-1` or
  subtracts.
* `double` fields are rationals; the operations the search uses on them are
  the comparison `<` and the product in `scaleRadius`. The one place where
  rounding decides the control flow follows the `double`: the counter of the
  pump search, `temp_n_pump += 1`, stops advancing at 2^53.
* A `for (int i = 1; i < size; ++i)` loop is a recursive function over the
  current index and the number of iterations still to run, `size - 1` at entry.
* The wall clock read by `WorkerStatus::start` / `working_seconds` is an
  explicit argument `now` (seconds).
* Undefined behaviour (dereferencing the null pointer that `QHash::operator[]`
  yields for a missing key, reading an uninitialised local, running off the end
  of a non-void function) is the `undefined` / `none` outcome.
* What the overseer does with its runner, and what the search does with its
  model, its case store and its base class, is recorded in a list of events,
  most recent first.
* The methods of `PolyModel` and `Optimizer` that the search calls are not among
  the sources; they are parameters (`Collaborators`), with one instance that
  follows the spec (`Spec.collaborators`).
-/

/-! # Part 1: the embedding -/

namespace Optimization

/-- Modelled from the spec: `Optimization::Case` (case.h is not among the
sources). A unique id, the integer and the real variable maps, and the
objective value once there is one. -/
structure Case where
  id : Nat
  integer_variables : List (Nat × Int) := []
  real_variables : List (Nat × ℚ) := []
  objective_function_value : Option ℚ := none
deriving DecidableEq

/-- Modelled from the spec: the default-constructed `Case()` that
`TerminateWorkers` sends as the TERMINATE sentinel: no variables, no
objective value. -/
def Case.default : Case := { id := 0 }

/-- Modelled from the spec: `Case::GetRealVarVector()`, the values of the real
variables in the order of the map. -/
def Case.GetRealVarVector (c : Case) : List ℚ := c.real_variables.map Prod.snd

end Optimization

namespace Runner

open Optimization

/-- The message tags `MPIRunner::MsgTag` that overseer.cpp uses. -/
inductive MsgTag where
  | CASE_UNEVAL
  | CASE_EVAL
  | TERMINATE
deriving DecidableEq

/-- One observable action of the `MPIRunner` the overseer drives. -/
inductive Event where
  | BroadcastModel
  | SendCase (c : Case) (dest : Nat) (tag : MsgTag)
  | RecvCase (c : Case) (source : Nat) (tag : MsgTag)
  | printMessage (text : String)
deriving DecidableEq

/-- Modelled from the spec: the part of `MPIRunner` the overseer touches
(mpi_runner.h is not among the sources): the size of the communicator
`world_` and the actions performed so far, most recent first. -/
structure MPIRunner where
  world_size : Nat
  trace : List Event := []
deriving DecidableEq

def MPIRunner.BroadcastModel (r : MPIRunner) : MPIRunner :=
  { r with trace := Event.BroadcastModel :: r.trace }

def MPIRunner.SendCase (r : MPIRunner) (c : Case) (dest : Nat) (tag : MsgTag) : MPIRunner :=
  { r with trace := Event.SendCase c dest tag :: r.trace }

/-- The blocking receive: the message that arrives, case `c` from rank
`source`, is supplied by the environment. -/
def MPIRunner.RecvCase (r : MPIRunner) (c : Case) (source : Nat) (tag : MsgTag) : MPIRunner :=
  { r with trace := Event.RecvCase c source tag :: r.trace }

def MPIRunner.printMessage (r : MPIRunner) (text : String) : MPIRunner :=
  { r with trace := Event.printMessage text :: r.trace }

/-- Modelled from the spec: `Overseer::WorkerStatus` (overseer.h is not among
the sources): the rank, the busy flag, and the start timestamp that is set
when a case is assigned and cleared when the worker is reclaimed. -/
structure WorkerStatus where
  rank : Nat
  working : Bool := false
  working_since : Option Nat := none
deriving DecidableEq

/-- Modelled from the spec: `WorkerStatus(i)`: a new handle is idle. -/
def WorkerStatus.new (r : Nat) : WorkerStatus := { rank := r }

/-- Modelled from the spec: `start()` marks the worker busy with a fresh
start timestamp. -/
def WorkerStatus.start (w : WorkerStatus) (now : Nat) : WorkerStatus :=
  { w with working := true, working_since := some now }

/-- Modelled from the spec: `stop()` clears the busy flag and the timer. -/
def WorkerStatus.stop (w : WorkerStatus) : WorkerStatus :=
  { w with working := false, working_since := none }

/-- Modelled from the spec: `working_seconds()`, the time elapsed since the
start timestamp. The spec gives it a meaning only while the worker is busy; a
cleared timer reads as zero elapsed seconds here (what Qt's `secsTo` yields for
a null `QDateTime`). -/
def WorkerStatus.working_seconds (w : WorkerStatus) (now : Nat) : Int :=
  match w.working_since with
  | some t => (now : Int) - (t : Int)
  | none => 0

/-- The table `workers_`, a `QHash<int, WorkerStatus*>`: keys with the object
each one points to. -/
abbrev WorkerTable := List (Nat × WorkerStatus)

/-- Reading `workers_[i]`: the object stored under key `i`, `none` for the
null pointer a missing key yields. -/
def WorkerTable.lookup : WorkerTable → Nat → Option WorkerStatus
  | [], _ => none
  | (k, w) :: rest, i => if k = i then some w else WorkerTable.lookup rest i

/-- The call `workers_.insert(i, w)`: replaces the value of an existing key,
adds the key otherwise. -/
def WorkerTable.insert : WorkerTable → Nat → WorkerStatus → WorkerTable
  | [], i, w => [(i, w)]
  | (k, v) :: rest, i, w =>
    if k = i then (k, w) :: rest else (k, v) :: WorkerTable.insert rest i w

/-- Mutating, through the pointer `workers_[i]`, the object stored under
key `i`. -/
def WorkerTable.modify : WorkerTable → Nat → (WorkerStatus → WorkerStatus) → WorkerTable
  | [], _, _ => []
  | (k, w) :: rest, i, f =>
    if k = i then (k, f w) :: rest else (k, w) :: WorkerTable.modify rest i f

/-- The overseer: the runner it drives and the worker table. -/
structure Overseer where
  runner_ : MPIRunner
  workers_ : WorkerTable
deriving DecidableEq

/-- How a call that may change the overseer ends: it returns, it throws
`std::runtime_error(what)`, or its behaviour is undefined. The first two carry
the state the overseer is left in. -/
inductive Outcome (α : Type) where
  | returned (value : α) (o : Overseer)
  | thrown (what : String) (o : Overseer)
  | undefined
deriving DecidableEq

/-- How a call that only reads the overseer ends. -/
inductive Result (α : Type) where
  | ok (value : α)
  | thrown (what : String)
  | undefined
deriving DecidableEq

/-- The constructor loop `for (i = 1; i < size; ++i) workers_.insert(i, new WorkerStatus(i))`,
at index `i` with `n` iterations to go. -/
def Overseer.insertWorkers : Nat → Nat → WorkerTable → WorkerTable
  | _, 0, ws => ws
  | i, n + 1, ws => Overseer.insertWorkers (i + 1) n (ws.insert i (WorkerStatus.new i))

/-- The constructor `Overseer::Overseer(runner)`. -/
def Overseer.new (runner : MPIRunner) : Overseer :=
  let r := runner.BroadcastModel
  { runner_ := r.printMessage "Initialized overseer."
    workers_ := Overseer.insertWorkers 1 (r.world_size - 1) [] }

/-- The loop of `NumberOfFreeWorkers`, at index `i` with `n` iterations to go
and running count `f`. -/
def Overseer.countFree (ws : WorkerTable) : Nat → Nat → Nat → Option Nat
  | _, 0, f => some f
  | i, n + 1, f =>
    match ws.lookup i with
    | none => none
    | some w => Overseer.countFree ws (i + 1) n (if w.working = false then f + 1 else f)

/-- The method `Overseer::NumberOfFreeWorkers`. -/
def Overseer.NumberOfFreeWorkers (o : Overseer) : Option Nat :=
  Overseer.countFree o.workers_ 1 (o.runner_.world_size - 1) 0

/-- The method `Overseer::NumberOfBusyWorkers`:
`workers_.count() - NumberOfFreeWorkers()`. -/
def Overseer.NumberOfBusyWorkers (o : Overseer) : Option Int :=
  match o.NumberOfFreeWorkers with
  | none => none
  | some f => some ((o.workers_.length : Int) - (f : Int))

/-- The loop of `getFreeWorker`, at index `i` with `n` iterations to go; it
returns the key of the entry it stops at together with the object. Leaving the
loop runs off the end of the function. -/
def Overseer.findFree (ws : WorkerTable) : Nat → Nat → Result (Nat × WorkerStatus)
  | _, 0 => Result.undefined
  | i, n + 1 =>
    match ws.lookup i with
    | none => Result.undefined
    | some w => if w.working = false then Result.ok (i, w) else Overseer.findFree ws (i + 1) n

/-- The method `Overseer::getFreeWorker`. -/
def Overseer.getFreeWorker (o : Overseer) : Result (Nat × WorkerStatus) :=
  match o.NumberOfFreeWorkers with
  | none => Result.undefined
  | some f =>
    if f = 0 then Result.thrown "No free workers in network."
    else Overseer.findFree o.workers_ 1 (o.runner_.world_size - 1)

/-- The method `Overseer::AssignCase`, called when the clock reads `now`. -/
def Overseer.AssignCase (o : Overseer) (c : Case) (now : Nat) : Outcome Unit :=
  match o.NumberOfFreeWorkers with
  | none => Outcome.undefined
  | some f =>
    if f = 0 then Outcome.thrown "Cannot assign Case. No free workers found." o
    else
      match o.getFreeWorker with
      | Result.undefined => Outcome.undefined
      | Result.thrown what => Outcome.thrown what o
      | Result.ok (k, worker) =>
        let r := o.runner_.SendCase c worker.rank MsgTag.CASE_UNEVAL
        let ws := o.workers_.modify k (fun w => w.start now)
        Outcome.returned ()
          { runner_ := r.printMessage ("Assigned case to worker " ++ toString worker.rank)
            workers_ := ws }

/-- The method `Overseer::RecvEvaluatedCase`, when the message that arrives is
`evaluated_case` from rank `worker_rank`. -/
def Overseer.RecvEvaluatedCase (o : Overseer) (evaluated_case : Case) (worker_rank : Nat) :
    Outcome Case :=
  let r := o.runner_.RecvCase evaluated_case worker_rank MsgTag.CASE_EVAL
  match o.workers_.lookup worker_rank with
  | none => Outcome.undefined
  | some _ =>
    let ws := o.workers_.modify worker_rank (fun w => w.stop)
    Outcome.returned evaluated_case
      { runner_ := r.printMessage ("Received case from worker " ++ toString worker_rank)
        workers_ := ws }

/-- The loop of `GetLongestRunningWorker`, at index `i` with `n` iterations to
go; `t` is `longest_running_time` and `r` is `longest_running_worker`, `none`
while it is uninitialised. -/
def Overseer.longestLoop (ws : WorkerTable) (now : Nat) :
    Nat → Nat → Int → Option Nat → Option (Int × Option Nat)
  | _, 0, t, r => some (t, r)
  | i, n + 1, t, r =>
    match ws.lookup i with
    | none => none
    | some w =>
      if w.working_seconds now > t then
        Overseer.longestLoop ws now (i + 1) n (w.working_seconds now) (some w.rank)
      else Overseer.longestLoop ws now (i + 1) n t r

/-- The method `Overseer::GetLongestRunningWorker`, called when the clock reads
`now`: `some none` is the null pointer, `some (some w)` a pointer to `w`, and
`none` undefined behaviour. -/
def Overseer.GetLongestRunningWorker (o : Overseer) (now : Nat) :
    Option (Option WorkerStatus) :=
  match o.NumberOfFreeWorkers with
  | none => none
  | some f =>
    if (f : Int) = (o.runner_.world_size : Int) - 1 then some none
    else
      match Overseer.longestLoop o.workers_ now 1 (o.runner_.world_size - 1) (-1) none with
      | none => none
      | some (_, none) => none
      | some (_, some k) => some (o.workers_.lookup k)

/-- The loop of `TerminateWorkers`, at index `i` with `n` iterations to go. -/
def Overseer.terminateLoop : Nat → Nat → MPIRunner → MPIRunner
  | _, 0, r => r
  | i, n + 1, r => Overseer.terminateLoop (i + 1) n (r.SendCase Case.default i MsgTag.TERMINATE)

/-- The method `Overseer::TerminateWorkers`. -/
def Overseer.TerminateWorkers (o : Overseer) : Overseer :=
  { o with runner_ := Overseer.terminateLoop 1 (o.runner_.world_size - 1) o.runner_ }

/-- The worker table holds exactly the ranks `1 .. size - 1`, in the order the
constructor inserted them, each object carrying the rank it is stored under,
and the communicator contains the master. -/
def Overseer.WF (o : Overseer) : Prop :=
  1 ≤ o.runner_.world_size ∧
  o.workers_.map Prod.fst = List.range' 1 (o.runner_.world_size - 1) ∧
  ∀ p ∈ o.workers_, p.2.rank = p.1

instance (o : Overseer) : Decidable o.WF := by
  unfold Overseer.WF; infer_instance

/-- The number of keys `j` with `i ≤ j < i + n` that hold an idle worker. -/
def WorkerTable.idleIn (ws : WorkerTable) : Nat → Nat → Nat
  | _, 0 => 0
  | i, n + 1 =>
    (match WorkerTable.lookup ws i with
      | some w => if w.working = false then 1 else 0
      | none => 0) + WorkerTable.idleIn ws (i + 1) n

/-- The states the overseer can be in: constructed over a communicator that
holds at least the master and has done nothing yet, then driven by calls of
`AssignCase` and `RecvEvaluatedCase` that return, and of `TerminateWorkers`. -/
inductive Overseer.Reachable : Overseer → Prop where
  | init (size : Nat) (h : 1 ≤ size) : Overseer.Reachable (Overseer.new { world_size := size })
  | assign (o : Overseer) (c : Case) (now : Nat) (o' : Overseer) :
      Overseer.Reachable o → o.AssignCase c now = Outcome.returned () o' →
      Overseer.Reachable o'
  | recv (o : Overseer) (c : Case) (r : Nat) (v : Case) (o' : Overseer) :
      Overseer.Reachable o → o.RecvEvaluatedCase c r = Outcome.returned v o' →
      Overseer.Reachable o'
  | terminate (o : Overseer) : Overseer.Reachable o → Overseer.Reachable o.TerminateWorkers

/-! ## Example pools

A communicator of size 3 (master and workers 1, 2), driven through
construction, two assignments at clock reading 10, one receive, and a third
assignment at clock reading 12. -/

/-- The pool right after construction. -/
def Examples.pool3 : Overseer := Overseer.new { world_size := 3 }

/-- The pool after `AssignCase` of case 7 at clock reading 10. -/
def Examples.pool3_one : Overseer :=
  { runner_ :=
      { world_size := 3
        trace := [Event.printMessage "Assigned case to worker 1",
                  Event.SendCase { id := 7 } 1 MsgTag.CASE_UNEVAL,
                  Event.printMessage "Initialized overseer.",
                  Event.BroadcastModel] }
    workers_ := [(1, { rank := 1, working := true, working_since := some 10 }),
                 (2, { rank := 2 })] }

/-- The pool after a second `AssignCase`, of case 8, at clock reading 10. -/
def Examples.pool3_full : Overseer :=
  { runner_ :=
      { world_size := 3
        trace := [Event.printMessage "Assigned case to worker 2",
                  Event.SendCase { id := 8 } 2 MsgTag.CASE_UNEVAL,
                  Event.printMessage "Assigned case to worker 1",
                  Event.SendCase { id := 7 } 1 MsgTag.CASE_UNEVAL,
                  Event.printMessage "Initialized overseer.",
                  Event.BroadcastModel] }
    workers_ := [(1, { rank := 1, working := true, working_since := some 10 }),
                 (2, { rank := 2, working := true, working_since := some 10 })] }

/-- The pool after worker 1 has handed back case 7. -/
def Examples.pool3_second : Overseer :=
  { runner_ :=
      { world_size := 3
        trace := [Event.printMessage "Received case from worker 1",
                  Event.RecvCase { id := 7 } 1 MsgTag.CASE_EVAL,
                  Event.printMessage "Assigned case to worker 2",
                  Event.SendCase { id := 8 } 2 MsgTag.CASE_UNEVAL,
                  Event.printMessage "Assigned case to worker 1",
                  Event.SendCase { id := 7 } 1 MsgTag.CASE_UNEVAL,
                  Event.printMessage "Initialized overseer.",
                  Event.BroadcastModel] }
    workers_ := [(1, { rank := 1 }),
                 (2, { rank := 2, working := true, working_since := some 10 })] }

/-- Whether worker `r` holds a case according to the trace (most recent event
first): the latest event that concerns `r` is a CASE_UNEVAL sent to it, not a
CASE_EVAL received from it. -/
def Trace.outstanding (r : Nat) : List Event → Bool
  | [] => false
  | e :: rest =>
    match e with
    | Event.SendCase _ d tag =>
      if d = r ∧ tag = MsgTag.CASE_UNEVAL then true else Trace.outstanding r rest
    | Event.RecvCase _ s tag =>
      if s = r ∧ tag = MsgTag.CASE_EVAL then false else Trace.outstanding r rest
    | _ => Trace.outstanding r rest

/-- Every CASE_UNEVAL in the trace was sent to a worker that held no case at
that moment. -/
def Trace.ordered : List Event → Prop
  | [] => True
  | e :: rest =>
    (∀ c d, e = Event.SendCase c d MsgTag.CASE_UNEVAL → Trace.outstanding d rest = false) ∧
      Trace.ordered rest

/-- The pool after a third `AssignCase`, of case 9 at clock reading 12, which
goes to worker 1 again. -/
def Examples.pool3_again : Overseer :=
  { runner_ :=
      { world_size := 3
        trace := [Event.printMessage "Assigned case to worker 1",
                  Event.SendCase { id := 9 } 1 MsgTag.CASE_UNEVAL,
                  Event.printMessage "Received case from worker 1",
                  Event.RecvCase { id := 7 } 1 MsgTag.CASE_EVAL,
                  Event.printMessage "Assigned case to worker 2",
                  Event.SendCase { id := 8 } 2 MsgTag.CASE_UNEVAL,
                  Event.printMessage "Assigned case to worker 1",
                  Event.SendCase { id := 7 } 1 MsgTag.CASE_UNEVAL,
                  Event.printMessage "Initialized overseer.",
                  Event.BroadcastModel] }
    workers_ := [(1, { rank := 1, working := true, working_since := some 12 }),
                 (2, { rank := 2, working := true, working_since := some 10 })] }

/-- The bookkeeping agrees with the trace: a worker that holds a case
according to the trace is flagged busy, and the trace is ordered. -/
def Overseer.Inv (o : Overseer) : Prop :=
  (∀ r, Trace.outstanding r o.runner_.trace = true →
    ∃ w, WorkerTable.lookup o.workers_ r = some w ∧ w.working = true) ∧
  Trace.ordered o.runner_.trace

/-- One `AssignCase` call per job, in order, each job a case and the clock
reading at its call; the first call that does not return ends the run. -/
def Overseer.assignAll (o : Overseer) : List (Case × Nat) → Outcome Unit
  | [] => Outcome.returned () o
  | (c, now) :: rest =>
    match o.AssignCase c now with
    | Outcome.returned _ o' => Overseer.assignAll o' rest
    | Outcome.thrown what o' => Outcome.thrown what o'
    | Outcome.undefined => Outcome.undefined

end Runner

namespace Optimization

namespace Optimizers

/-- The enumeration `Optimizer::TerminationCondition`; `NOT_FINISHED` is the
value 0. -/
inductive TerminationCondition where
  | NOT_FINISHED
  | MAX_EVALS_REACHED
  | MINIMUM_STEP_LENGTH_REACHED
deriving DecidableEq

/-- Modelled from the spec: the case store `CaseHandler` (case_handler.h is
not among the sources): the queued cases, the evaluated cases, and those
evaluated since the last checkpoint. -/
structure CaseHandler where
  queued_cases : List Case := []
  evaluated_cases : List Case := []
  recently_evaluated_cases : List Case := []
deriving DecidableEq

/-- Modelled from the spec: `EvaluatedCases()` returns all cases that have
been evaluated. -/
def CaseHandler.EvaluatedCases (h : CaseHandler) : List Case := h.evaluated_cases

/-- Modelled from the spec: `AddNewCases` for one case: the case is appended to
the queue, and a case whose id the store already knows is rejected (no-op). -/
def CaseHandler.AddNewCase (h : CaseHandler) (c : Case) : CaseHandler :=
  if (h.queued_cases ++ h.evaluated_cases).any (fun d => d.id = c.id) then h
  else { h with queued_cases := h.queued_cases ++ [c] }

/-- Modelled from the spec: `AddNewCases(list of Case)` appends the cases in
order. -/
def CaseHandler.AddNewCases (h : CaseHandler) (cs : List Case) : CaseHandler :=
  cs.foldl CaseHandler.AddNewCase h

/-- Modelled from the spec: `RecentlyEvaluatedCases()` returns the cases
evaluated since the last checkpoint. -/
def CaseHandler.RecentlyEvaluatedCases (h : CaseHandler) : List Case :=
  h.recently_evaluated_cases

/-- Modelled from the spec: `ClearRecentlyEvaluatedCases()` resets the
checkpoint. -/
def CaseHandler.ClearRecentlyEvaluatedCases (h : CaseHandler) : CaseHandler :=
  { h with recently_evaluated_cases := [] }

/-- Modelled from the spec: the data of the surrogate model `PolyModel`
(poly_model.h is not among the sources): the centre, the trust radius, the
sample set, the sample points not yet handed over for evaluation, whether the
model has been told that the evaluations are complete, and the fitted
coefficients once there are any. -/
structure PolyModel where
  center_ : Case := Case.default
  radius_ : ℚ := 0
  cases_ : List Case := []
  cases_not_eval_ : List Case := []
  evaluations_complete_ : Bool := false
  model_coeffs_ : Option (List ℚ) := none
deriving DecidableEq

/-- A call `TrustRegionSearch` makes on one of its collaborators (the surrogate
model, the case store, its base class `Optimizer`), or a line it prints. -/
inductive Call where
  | print (text : String)
  | PolyModel_new (center : Case) (radius : ℚ)
  | complete_points
  | get_cases_not_eval
  | ClearCasesNotEval
  | set_evaluations_complete
  | isModelReady
  | calculate_model_coeffs
  | addCenterPoint (c : Case)
  | CaseFromPoint (point : List ℚ) (prototype : Case)
  | applyNewTentativeBestCase
  | AddNewCases (cs : List Case)
  | ClearRecentlyEvaluatedCases
deriving DecidableEq

/-- The methods of `PolyModel` and of the base class `Optimizer` that
trust_region_search.cpp calls and whose code is not among the sources, taken
as parameters: the constructor `PolyModel(center, radius)`, the methods of the
model, and `applyNewTentativeBestCase`, which yields the new incumbent from the
current one and the case store. -/
structure Collaborators where
  PolyModel_new : Case → ℚ → PolyModel
  complete_points : PolyModel → PolyModel
  get_cases_not_eval : PolyModel → List Case
  ClearCasesNotEval : PolyModel → PolyModel
  set_evaluations_complete : PolyModel → PolyModel
  isModelReady : PolyModel → Bool
  calculate_model_coeffs : PolyModel → PolyModel
  addCenterPoint : PolyModel → Case → PolyModel
  applyNewTentativeBestCase : Case → CaseHandler → Case

/-- The fields of `TrustRegionSearch`, with those of its base class
`Optimizer`: the budget `max_evaluations_`, the case store, the incumbent, the
iteration counter, the radius and its floor, the surrogate model, and the
calls made so far, most recent first. -/
structure TrustRegionSearch where
  max_evaluations_ : Int
  case_handler_ : CaseHandler := {}
  tentative_best_case_ : Case := Case.default
  iteration_ : Nat := 0
  radius_ : ℚ
  minimum_radius_ : ℚ
  polymodel_ : PolyModel := {}
  calls_ : List Call := []
deriving DecidableEq

/-- The method `TrustRegionSearch::IsFinished`. -/
def TrustRegionSearch.IsFinished (s : TrustRegionSearch) : TerminationCondition :=
  if (s.case_handler_.EvaluatedCases.length : Int) ≥ s.max_evaluations_ then
    TerminationCondition.MAX_EVALS_REACHED
  else if s.radius_ < s.minimum_radius_ then
    TerminationCondition.MINIMUM_STEP_LENGTH_REACHED
  else TerminationCondition.NOT_FINISHED

/-- The getter `Optimizer::GetTentativeBestCase`. -/
def TrustRegionSearch.GetTentativeBestCase (s : TrustRegionSearch) : Case :=
  s.tentative_best_case_

/-- The method `TrustRegionSearch::scaleRadius`. -/
def TrustRegionSearch.scaleRadius (s : TrustRegionSearch) (k : ℚ) : TrustRegionSearch :=
  { s with radius_ := k * s.radius_ }

/-- The method `TrustRegionSearch::completeModel`. -/
def TrustRegionSearch.completeModel (x : Collaborators) (s : TrustRegionSearch) :
    TrustRegionSearch :=
  let s1 := { s with polymodel_ := x.complete_points s.polymodel_
                     calls_ := Call.complete_points :: s.calls_ }
  let cs := x.get_cases_not_eval s1.polymodel_
  let s2 := { s1 with case_handler_ := s1.case_handler_.AddNewCases cs
                      calls_ := Call.AddNewCases cs :: Call.get_cases_not_eval :: s1.calls_ }
  let s3 := { s2 with polymodel_ := x.ClearCasesNotEval s2.polymodel_
                      calls_ := Call.ClearCasesNotEval :: s2.calls_ }
  { s3 with polymodel_ := x.set_evaluations_complete s3.polymodel_
            calls_ := Call.set_evaluations_complete :: s3.calls_ }

/-- The method `TrustRegionSearch::initializeModel`. -/
def TrustRegionSearch.initializeModel (x : Collaborators) (s : TrustRegionSearch) :
    TrustRegionSearch :=
  TrustRegionSearch.completeModel x
    { s with polymodel_ := x.PolyModel_new s.GetTentativeBestCase s.radius_
             calls_ := Call.PolyModel_new s.GetTentativeBestCase s.radius_ :: s.calls_ }

/-- The method `TrustRegionSearch::step`. The case that `CaseFromPoint`
returns is dropped by the code. -/
def TrustRegionSearch.step (x : Collaborators) (s : TrustRegionSearch) : TrustRegionSearch :=
  let s1 := { s with calls_ :=
                Call.CaseFromPoint s.tentative_best_case_.GetRealVarVector s.tentative_best_case_
                  :: s.calls_ }
  let s2 := { s1 with
                tentative_best_case_ :=
                  x.applyNewTentativeBestCase s1.tentative_best_case_ s1.case_handler_
                calls_ := Call.applyNewTentativeBestCase :: s1.calls_ }
  { s2 with polymodel_ := x.addCenterPoint s2.polymodel_ s2.GetTentativeBestCase
            calls_ := Call.addCenterPoint s2.GetTentativeBestCase :: s2.calls_ }

/-- The three branches of `TrustRegionSearch::iterate`, after its first
print. -/
def TrustRegionSearch.iterateBranch (x : Collaborators) (s : TrustRegionSearch) :
    TrustRegionSearch :=
  if s.iteration_ = 0 then TrustRegionSearch.initializeModel x s
  else
    let s1 := { s with calls_ := Call.isModelReady :: s.calls_ }
    if x.isModelReady s.polymodel_ = false then TrustRegionSearch.completeModel x s1
    else
      let s2 := { s1 with calls_ :=
                    Call.print "Model should be ready, we make some opt step " :: s1.calls_ }
      let s3 := { s2 with polymodel_ := x.calculate_model_coeffs s2.polymodel_
                          calls_ := Call.calculate_model_coeffs :: s2.calls_ }
      let s4 := TrustRegionSearch.step x s3
      { s4 with calls_ := Call.print "end of opt step part" :: s4.calls_ }

/-- The method `TrustRegionSearch::iterate`. -/
def TrustRegionSearch.iterate (x : Collaborators) (s : TrustRegionSearch) : TrustRegionSearch :=
  let s0 := { s with calls_ :=
                Call.print ("this is iteration number " ++ toString s.iteration_) :: s.calls_ }
  let s1 := TrustRegionSearch.iterateBranch x s0
  { s1 with case_handler_ := s1.case_handler_.ClearRecentlyEvaluatedCases
            calls_ := Call.ClearRecentlyEvaluatedCases :: s1.calls_ }

/-- The state after `n` shrinks `scaleRadius(0.5)`. -/
def TrustRegionSearch.shrinks : Nat → TrustRegionSearch → TrustRegionSearch
  | 0, s => s
  | n + 1, s => TrustRegionSearch.shrinks n (s.scaleRadius (1 / 2))

/-! ## The surrogate model as the spec describes it -/

/-- Modelled from the spec: the dimensionality of the model, the number of
real variables of the centre. -/
def PolyModel.dimension (pm : PolyModel) : Nat := pm.center_.real_variables.length

/-- Modelled from the spec: a sample point generated as a perturbation of the
centre by the radius along coordinate `k`, as a new case with id `id` and no
objective value yet. -/
def PolyModel.perturbed (pm : PolyModel) (k id : Nat) : Case :=
  { id := id
    integer_variables := pm.center_.integer_variables
    real_variables := pm.center_.real_variables.enum.map
      (fun p => (p.2.1, if p.1 = k then p.2.2 + pm.radius_ else p.2.2)) }

/-- Modelled from the spec: an id that no case of the sample set carries
(ids are never reused). -/
def PolyModel.freshId (pm : PolyModel) : Nat :=
  (pm.cases_.map Case.id).foldr max pm.center_.id + 1

/-- Modelled from the spec: construction from a centre and a radius
initialises a partial sample set, the centre alone. -/
def Spec.PolyModel_new (c : Case) (r : ℚ) : PolyModel :=
  { center_ := c, radius_ := r, cases_ := [c] }

/-- Modelled from the spec: `CompletePoints()` computes the sample points
still required to reach the minimum count of a linear model, dimensionality
plus one with the centre included, as perturbations of the centre along the
coordinate directions, and records them as new cases not yet evaluated. -/
def Spec.complete_points (pm : PolyModel) : PolyModel :=
  let added := (List.range (pm.dimension + 1 - pm.cases_.length)).map
    (fun j => pm.perturbed (pm.cases_.length - 1 + j) (pm.freshId + j))
  { pm with cases_ := pm.cases_ ++ added, cases_not_eval_ := pm.cases_not_eval_ ++ added }

/-- Modelled from the spec: the sample points still needed, as cases. -/
def Spec.get_cases_not_eval (pm : PolyModel) : List Case := pm.cases_not_eval_

/-- Modelled from the spec: `ClearCasesNotEval()` empties the list of cases
not yet handed over. -/
def Spec.ClearCasesNotEval (pm : PolyModel) : PolyModel := { pm with cases_not_eval_ := [] }

/-- Modelled from the spec: the model is told that evaluation is complete. -/
def Spec.set_evaluations_complete (pm : PolyModel) : PolyModel :=
  { pm with evaluations_complete_ := true }

/-- Modelled from the spec: `IsModelReady()` is true iff every sample-set case
is evaluated, which is what the model has been told, and the sample set has
reached the minimum count. -/
def Spec.isModelReady (pm : PolyModel) : Bool :=
  pm.evaluations_complete_ && decide (pm.dimension + 1 ≤ pm.cases_.length)

/-- Modelled from the spec: `CalculateModelCoefficients()`, valid only when the
model is ready, fits the interpolating linear polynomial to the objective
values of the sample cases: the value at the centre and one difference
quotient per sample point. -/
def Spec.calculate_model_coeffs (pm : PolyModel) : PolyModel :=
  if Spec.isModelReady pm then
    { pm with
      model_coeffs_ := some (pm.center_.objective_function_value.getD 0 ::
        (pm.cases_.drop 1).map (fun c =>
          (c.objective_function_value.getD 0
            - pm.center_.objective_function_value.getD 0) / pm.radius_)) }
  else pm

/-- Modelled from the spec: the surrogate model of the spec, over the two
methods the spec does not describe, `PolyModel::addCenterPoint` and
`Optimizer::applyNewTentativeBestCase`, which stay parameters. -/
def Spec.collaborators (addCenterPoint : PolyModel → Case → PolyModel)
    (applyNewTentativeBestCase : Case → CaseHandler → Case) : Collaborators :=
  { PolyModel_new := Spec.PolyModel_new
    complete_points := Spec.complete_points
    get_cases_not_eval := Spec.get_cases_not_eval
    ClearCasesNotEval := Spec.ClearCasesNotEval
    set_evaluations_complete := Spec.set_evaluations_complete
    isModelReady := Spec.isModelReady
    calculate_model_coeffs := Spec.calculate_model_coeffs
    addCenterPoint := addCenterPoint
    applyNewTentativeBestCase := applyNewTentativeBestCase }

/-! ## Example searches -/

/-- A base case with two real variables and objective value 3. -/
def Examples.base_case : Case :=
  { id := 1, real_variables := [(0, 5), (1, 7)], objective_function_value := some 3 }

/-- An implementation of `addCenterPoint` for the examples: the case becomes
the centre and joins the sample set. -/
def Examples.addCenterPoint (pm : PolyModel) (c : Case) : PolyModel :=
  { pm with center_ := c, cases_ := pm.cases_ ++ [c] }

/-- An implementation of `applyNewTentativeBestCase` for the examples: the
incumbent stays unless a case evaluated since the last checkpoint is there, in
which case the first of them is taken. -/
def Examples.applyNewTentativeBestCase (best : Case) (h : CaseHandler) : Case :=
  h.RecentlyEvaluatedCases.headD best

/-- The collaborators used in the examples. -/
def Examples.collaborators : Collaborators :=
  Spec.collaborators Examples.addCenterPoint Examples.applyNewTentativeBestCase

/-- A search before its first iteration whose radius, 1/1000, is already
below the floor 1/100; the base case is evaluated. -/
def Examples.below_floor : TrustRegionSearch :=
  { max_evaluations_ := 10
    case_handler_ := { evaluated_cases := [Examples.base_case] }
    tentative_best_case_ := Examples.base_case
    radius_ := 1 / 1000
    minimum_radius_ := 1 / 100 }

/-- A search before its first iteration with budget 10, radius 1 and floor
1/100; the base case is evaluated. -/
def Examples.start : TrustRegionSearch :=
  { max_evaluations_ := 10
    case_handler_ := { evaluated_cases := [Examples.base_case] }
    tentative_best_case_ := Examples.base_case
    radius_ := 1
    minimum_radius_ := 1 / 100 }

/-- A search after its first iteration: the iteration counter is 1, the model
around the base case holds three sample points and has been told that the
evaluations are complete, and the three cases are evaluated. -/
def Examples.ready : TrustRegionSearch :=
  { max_evaluations_ := 10
    case_handler_ :=
      { evaluated_cases :=
          (Spec.complete_points (Spec.PolyModel_new Examples.base_case 1)).cases_ }
    tentative_best_case_ := Examples.base_case
    iteration_ := 1
    radius_ := 1
    minimum_radius_ := 1 / 100
    polymodel_ :=
      Spec.set_evaluations_complete
        (Spec.ClearCasesNotEval (Spec.complete_points (Spec.PolyModel_new Examples.base_case 1))) }

/-- A search with iteration counter 1 whose model, with the centre as its only
sample point, is not ready. -/
def Examples.not_ready : TrustRegionSearch :=
  { max_evaluations_ := 10
    case_handler_ := { evaluated_cases := [Examples.base_case] }
    tentative_best_case_ := Examples.base_case
    iteration_ := 1
    radius_ := 1
    minimum_radius_ := 1 / 100
    polymodel_ := Spec.PolyModel_new Examples.base_case 1 }

/-- A search whose budget of 2 evaluations is used up and whose radius is
below the floor as well. -/
def Examples.spent : TrustRegionSearch :=
  { max_evaluations_ := 2
    case_handler_ := { evaluated_cases := [{ id := 1 }, { id := 2 }] }
    radius_ := 1 / 1000
    minimum_radius_ := 1 / 100 }

/-- A search within budget whose radius is exactly the floor. -/
def Examples.at_floor : TrustRegionSearch :=
  { max_evaluations_ := 2
    case_handler_ := { evaluated_cases := [{ id := 1 }] }
    radius_ := 1 / 100
    minimum_radius_ := 1 / 100 }

/-- The state after `n` calls of `iterate()` in a row. -/
def TrustRegionSearch.iterates (x : Collaborators) : Nat → TrustRegionSearch → TrustRegionSearch
  | 0, s => s
  | n + 1, s => TrustRegionSearch.iterates x n (s.iterate x)

end Optimizers

end Optimization

namespace Opm

/-! ## The OPM parser as deck_parser.cpp sees it

The types of the OPM library that deck_parser.cpp reads, with the members it
reads. They belong to an external library; a well is given by the answers its
methods give. -/

/-- The enumeration `Opm::WellCommon::StatusEnum`. -/
inductive StatusEnum where
  | OPEN
  | STOP
  | SHUT
  | AUTO
deriving DecidableEq

/-- The enumeration `Opm::WellProducer::ControlModeEnum`. -/
inductive ProducerControlMode where
  | ORAT
  | WRAT
  | GRAT
  | LRAT
  | CRAT
  | RESV
  | BHP
  | THP
  | GRUP
  | CMODE_UNDEFINED
deriving DecidableEq

/-- The enumeration `Opm::WellInjector::ControlModeEnum`. -/
inductive InjectorControlMode where
  | RATE
  | RESV
  | BHP
  | THP
  | GRUP
  | CMODE_UNDEFINED
deriving DecidableEq

/-- The enumeration `Opm::WellInjector::TypeEnum`. -/
inductive InjectorType where
  | WATER
  | GAS
  | OIL
  | MULTI
deriving DecidableEq

/-- The members of `Opm::WellProductionProperties` that are read. -/
structure WellProductionProperties where
  OilRate : ℚ := 0
  LiquidRate : ℚ := 0
  ResVRate : ℚ := 0
  BHPLimit : ℚ := 0
  THPLimit : ℚ := 0
  controlMode : ProducerControlMode := ProducerControlMode.CMODE_UNDEFINED
deriving DecidableEq

/-- The members of `Opm::WellInjectionProperties` that are read. -/
structure WellInjectionProperties where
  surfaceInjectionRate : ℚ := 0
  reservoirInjectionRate : ℚ := 0
  BHPLimit : ℚ := 0
  THPLimit : ℚ := 0
  controlMode : InjectorControlMode := InjectorControlMode.CMODE_UNDEFINED
  injectorType : InjectorType := InjectorType.WATER
deriving DecidableEq

/-- One `Opm::Completion`: the grid indices, the diameter, and the connection
transmissibility factor, `none` when its value object has no value. -/
structure Completion where
  getI : Int
  getJ : Int
  getK : Int
  getDiameter : ℚ := 0
  getConnectionTransmissibilityFactor : Option ℚ := none
deriving DecidableEq

/-- One `Opm::Well`: what its methods answer, per timestep where they take
one. -/
structure Well where
  firstTimeStep : Nat
  getStatus : Nat → StatusEnum
  isInjector : Nat → Bool
  isProducer : Nat → Bool
  getProductionProperties : Nat → WellProductionProperties := fun _ => {}
  getInjectionProperties : Nat → WellInjectionProperties := fun _ => {}
  getCompletions : List Completion := []
  getHeadI : Nat → Int := fun _ => 0
  getHeadJ : Nat → Int := fun _ => 0

/-- The unit constants `Opm::Metric::...` that deck_parser.cpp converts to,
each the size of the unit in SI. -/
structure Metric where
  Pressure : ℚ
  LiquidSurfaceVolume : ℚ
  ReservoirVolume : ℚ
  Transmissibility : ℚ

/-- The conversion `Opm::unit::convert::to(siValue, toUnit)`, a division by
the size of the unit. -/
def unit.convert.to (siValue toUnit : ℚ) : ℚ := siValue / toUnit

end Opm

namespace Settings

/-! ## The deck parser -/

/-- The enumeration `Model::WellType`, as far as deck_parser.cpp uses it. -/
inductive Model.WellType where
  | Injector
  | Producer
  | UNKNOWN_TYPE
deriving DecidableEq

/-- The enumeration `Model::ControlMode`, as far as deck_parser.cpp uses it. -/
inductive Model.ControlMode where
  | BHPControl
  | RateControl
  | UNKNOWN_CONTROL
deriving DecidableEq

/-- The enumeration `Model::InjectionType`, as far as deck_parser.cpp uses
it. -/
inductive Model.InjectionType where
  | WaterInjection
  | GasInjection
deriving DecidableEq

/-- The enumeration `Model::WellState`. -/
inductive Model.WellState where
  | WellOpen
  | WellShut
deriving DecidableEq

/-- The fields of `Model::Well::Completion` that deck_parser.cpp sets (model.h
is not among the sources); the type is always a perforation. -/
structure Model.Well.Completion where
  transmissibility_factor : ℚ
  name : String
deriving DecidableEq

/-- The fields of `Model::Well::WellBlock` that deck_parser.cpp sets. -/
structure Model.Well.WellBlock where
  completion : Model.Well.Completion
  has_completion : Bool
  i : Int
  j : Int
  k : Int
  name : String
  is_variable : Bool
deriving DecidableEq

/-- The fields of `Model::Well::ControlEntry` that deck_parser.cpp sets. -/
structure Model.Well.ControlEntry where
  state : Model.WellState
  control_mode : Model.ControlMode
  rate : ℚ
  bhp : ℚ
  injection_type : Model.InjectionType
  time_step : Int
  name : String
deriving DecidableEq

/-- The members of `DeckParser` that its private methods read: the number of
timesteps, the day of each timestep (a vector of that length), and the name
and first timestep of the well being parsed. -/
structure DeckParser where
  num_timesteps_ : Nat
  time_days_ : List Int
  current_well_name_ : String
  current_well_first_time_step_ : Nat

/-- The first `if` in the loop body of `determineWellType`: `none` when the
loop is left with the well set to producer, otherwise the new value of
`is_injector`. -/
def DeckParser.injectorStep (is_injector is_producer isInjector : Bool) : Option Bool :=
  if !is_injector && isInjector then
    if is_producer then none else some true
  else some is_injector

/-- The warning `determineWellType` prints when a well switches type; `kept`
is the type it keeps. -/
def DeckParser.alternatingWarning (p : DeckParser) (kept : String) : String :=
  "Well " ++ p.current_well_name_ ++ " detected as alternating producer/injector well. " ++
    "This is not currently supported. Using first defined state (" ++ kept ++ ")."

/-- The loop of `determineWellType`, at timestep `t` with `n` iterations to
go: the final `is_injector` and `is_producer` and the warnings printed, most
recent first. -/
def DeckParser.wellTypeLoop (p : DeckParser) (w : Opm.Well) :
    Nat → Nat → Bool → Bool → List String → Bool × Bool × List String
  | _, 0, is_injector, is_producer, warns => (is_injector, is_producer, warns)
  | t, n + 1, is_injector, is_producer, warns =>
    if w.getStatus t ≠ Opm.StatusEnum.OPEN then
      DeckParser.wellTypeLoop p w (t + 1) n is_injector is_producer warns
    else
      match DeckParser.injectorStep is_injector is_producer (w.isInjector t) with
      | none =>
        (false, true, p.alternatingWarning "Producer" :: warns)
      | some inj =>
        if !is_producer && w.isProducer t then
          if inj then
            (true, false, p.alternatingWarning "Injector" :: warns)
          else DeckParser.wellTypeLoop p w (t + 1) n inj true warns
        else DeckParser.wellTypeLoop p w (t + 1) n inj is_producer warns

/-- The default of `determineWellType` when the loop found no type: the flags
and the warnings after it. -/
def DeckParser.wellTypeDefault (p : DeckParser) (w : Opm.Well) :
    Bool × Bool × List String → Bool × Bool × List String
  | (is_injector, is_producer, warns) =>
    if !is_injector && !is_producer then
      if w.isInjector w.firstTimeStep then
        (true, is_producer,
          ("Unable to determine well type for " ++ p.current_well_name_ ++
            ". Defaulting to type at first control (injector)") :: warns)
      else
        (is_injector, true,
          ("Unable to determine well type for " ++ p.current_well_name_ ++
            ". Defaulting to type at first control (producer)") :: warns)
    else (is_injector, is_producer, warns)

/-- The final `if` chain of `determineWellType`. -/
def DeckParser.wellTypeSelect (p : DeckParser) :
    Bool × Bool × List String → Model.WellType × List String
  | (is_injector, is_producer, warns) =>
    if is_injector && !is_producer then (Model.WellType.Injector, warns)
    else if !is_injector && is_producer then (Model.WellType.Producer, warns)
    else
      (Model.WellType.UNKNOWN_TYPE,
        ("Deck parser was unable to determine well type for " ++ p.current_well_name_)
          :: warns)

/-- The flags `is_injector` and `is_producer` of `determineWellType`, with the
warnings printed so far, when its final `if` chain is reached. -/
def DeckParser.wellTypeFlags (p : DeckParser) (w : Opm.Well) : Bool × Bool × List String :=
  DeckParser.wellTypeDefault p w
    (DeckParser.wellTypeLoop p w w.firstTimeStep (p.num_timesteps_ - w.firstTimeStep)
      false false [])

/-- The method `DeckParser::determineWellType`: the type and the warnings
printed, most recent first. -/
def DeckParser.determineWellType (p : DeckParser) (w : Opm.Well) :
    Model.WellType × List String :=
  DeckParser.wellTypeSelect p (DeckParser.wellTypeFlags p w)

/-- The loop of `determineWellboreRadius` over the completions, with the
running `radii_sum`. -/
def DeckParser.radiiSum : List Opm.Completion → ℚ → ℚ
  | [], radii_sum => radii_sum
  | comp :: rest, radii_sum => DeckParser.radiiSum rest (radii_sum + comp.getDiameter / 2)

/-- The method `DeckParser::determineWellboreRadius`; without completions the
quotient is 0.0 / 0.0, which is not a number: `none`. -/
def DeckParser.determineWellboreRadius (w : Opm.Well) : Option ℚ :=
  if w.getCompletions.length = 0 then none
  else some (DeckParser.radiiSum w.getCompletions 0 / (w.getCompletions.length : ℚ))

/-- The loop of `opmToWellBlocks` over the completions, `i` being the index of
the next one: a completion without transmissibility factor is skipped. -/
def DeckParser.wellBlocksLoop (p : DeckParser) (units : Opm.Metric) :
    List Opm.Completion → Nat → List Model.Well.WellBlock → List Model.Well.WellBlock
  | [], _, well_blocks => well_blocks
  | c :: rest, i, well_blocks =>
    match c.getConnectionTransmissibilityFactor with
    | none => DeckParser.wellBlocksLoop p units rest (i + 1) well_blocks
    | some factor =>
      DeckParser.wellBlocksLoop p units rest (i + 1)
        (well_blocks ++
          [{ completion :=
               { transmissibility_factor := Opm.unit.convert.to factor units.Transmissibility
                 name := "Transmissibility#" ++ p.current_well_name_ ++ "#" ++ toString i }
             has_completion := true
             i := c.getI + 1
             j := c.getJ + 1
             k := c.getK + 1
             name := "WellBlock#" ++ p.current_well_name_ ++ "#" ++ toString i
             is_variable := false }])

/-- The method `DeckParser::opmToWellBlocks`: the well blocks and the warnings
printed. Reading `well_blocks[0]` of an empty list is undefined: `none`. The
head indices `headI` and `headJ` are read by the code and not used. -/
def DeckParser.opmToWellBlocks (p : DeckParser) (units : Opm.Metric) (w : Opm.Well) :
    Option (List Model.Well.WellBlock × List String) :=
  match DeckParser.wellBlocksLoop p units w.getCompletions 0 [] with
  | [] => none
  | first :: rest =>
    if first.i ≤ 0 ∨ |first.i| > 10000 then
      some (rest,
        ["Invalid i, j or k index detected for the first well block. Deleting it. " ++
          "(" ++ toString first.i ++ ", " ++ toString first.j ++ ", " ++ toString first.k ++
          ")"])
    else some (first :: rest, [])

/-- The method `DeckParser::determineWellControlMode`. -/
def DeckParser.determineWellControlMode (w : Opm.Well) (timestep : Nat) : Model.ControlMode :=
  if w.isProducer timestep then
    match (w.getProductionProperties timestep).controlMode with
    | Opm.ProducerControlMode.ORAT => Model.ControlMode.RateControl
    | Opm.ProducerControlMode.RESV => Model.ControlMode.RateControl
    | Opm.ProducerControlMode.LRAT => Model.ControlMode.RateControl
    | Opm.ProducerControlMode.BHP => Model.ControlMode.BHPControl
    | _ => Model.ControlMode.UNKNOWN_CONTROL
  else
    match (w.getInjectionProperties timestep).controlMode with
    | Opm.InjectorControlMode.RATE => Model.ControlMode.RateControl
    | Opm.InjectorControlMode.RESV => Model.ControlMode.RateControl
    | Opm.InjectorControlMode.BHP => Model.ControlMode.BHPControl
    | _ => Model.ControlMode.UNKNOWN_CONTROL

/-- The method `DeckParser::determineRate`. -/
def DeckParser.determineRate (units : Opm.Metric) (w : Opm.Well) (timestep : Nat) : ℚ :=
  if w.isInjector timestep then
    if (w.getInjectionProperties timestep).surfaceInjectionRate
        > (w.getInjectionProperties timestep).reservoirInjectionRate then
      Opm.unit.convert.to (w.getInjectionProperties timestep).surfaceInjectionRate
        units.LiquidSurfaceVolume
    else
      Opm.unit.convert.to (w.getInjectionProperties timestep).reservoirInjectionRate
        units.ReservoirVolume
  else
    if (w.getProductionProperties timestep).OilRate
          > (w.getProductionProperties timestep).LiquidRate ∧
        (w.getProductionProperties timestep).OilRate
          > (w.getProductionProperties timestep).ResVRate then
      Opm.unit.convert.to (w.getProductionProperties timestep).OilRate
        units.LiquidSurfaceVolume
    else if (w.getProductionProperties timestep).LiquidRate
          > (w.getProductionProperties timestep).OilRate ∧
        (w.getProductionProperties timestep).LiquidRate
          > (w.getProductionProperties timestep).ResVRate then
      Opm.unit.convert.to (w.getProductionProperties timestep).LiquidRate
        units.LiquidSurfaceVolume
    else
      Opm.unit.convert.to (w.getProductionProperties timestep).ResVRate units.ReservoirVolume

/-- The method `DeckParser::determineBhp`. -/
def DeckParser.determineBhp (units : Opm.Metric) (w : Opm.Well) (timestep : Nat) : ℚ :=
  if w.isInjector timestep then
    if (w.getInjectionProperties timestep).BHPLimit
        > (w.getInjectionProperties timestep).THPLimit then
      Opm.unit.convert.to (w.getInjectionProperties timestep).THPLimit units.Pressure
    else Opm.unit.convert.to (w.getInjectionProperties timestep).BHPLimit units.Pressure
  else
    if (w.getProductionProperties timestep).BHPLimit
        > (w.getProductionProperties timestep).THPLimit then
      Opm.unit.convert.to (w.getProductionProperties timestep).THPLimit units.Pressure
    else Opm.unit.convert.to (w.getProductionProperties timestep).BHPLimit units.Pressure

/-- The method `DeckParser::determineInjectorType`; the warning it prints for
a type that is neither water nor gas is left out. -/
def DeckParser.determineInjectorType (w : Opm.Well) (timestep : Nat) : Model.InjectionType :=
  if (w.getInjectionProperties timestep).injectorType = Opm.InjectorType.WATER then
    Model.InjectionType.WaterInjection
  else if (w.getInjectionProperties timestep).injectorType = Opm.InjectorType.GAS then
    Model.InjectionType.GasInjection
  else Model.InjectionType.WaterInjection

/-- The control entry `ce` that `opmToControlEntries` fills in for timestep
`t`, before its name is set; `ce0` is the default-constructed entry. The index
`t` is below the length of `time_days_`. -/
def DeckParser.controlEntryAt (p : DeckParser) (units : Opm.Metric)
    (ce0 : Model.Well.ControlEntry) (w : Opm.Well) (t : Nat) : Model.Well.ControlEntry :=
  { ce0 with
    state := Model.WellState.WellOpen
    control_mode := DeckParser.determineWellControlMode w t
    rate := DeckParser.determineRate units w t
    bhp := DeckParser.determineBhp units w t
    injection_type :=
      if w.isInjector t then DeckParser.determineInjectorType w t else ce0.injection_type
    time_step := p.time_days_.getD t 0 }

/-- The name `opmToControlEntries` gives the entry of timestep `t`. -/
def DeckParser.controlEntryName (p : DeckParser) (ce : Model.Well.ControlEntry) (t : Nat) :
    String :=
  if ce.control_mode = Model.ControlMode.RateControl then
    "Rate#" ++ p.current_well_name_ ++ "#" ++ toString t
  else "BHP#" ++ p.current_well_name_ ++ "#" ++ toString t

/-- The loop of `opmToControlEntries`, at timestep `t` with `n` iterations to
go. `isDifferent` is `ControlEntry::isDifferent` (model.h is not among the
sources), a parameter. -/
def DeckParser.controlEntriesLoop (p : DeckParser) (units : Opm.Metric)
    (isDifferent : Model.Well.ControlEntry → Model.Well.ControlEntry → Bool)
    (ce0 : Model.Well.ControlEntry) (w : Opm.Well) :
    Nat → Nat → List Model.Well.ControlEntry → List Model.Well.ControlEntry
  | _, 0, control_entries => control_entries
  | t, n + 1, control_entries =>
    if DeckParser.determineWellControlMode w t ≠ Model.ControlMode.UNKNOWN_CONTROL then
      if (match control_entries.getLast? with
          | none => true
          | some last => isDifferent last (DeckParser.controlEntryAt p units ce0 w t)) then
        DeckParser.controlEntriesLoop p units isDifferent ce0 w (t + 1) n
          (control_entries ++
            [{ DeckParser.controlEntryAt p units ce0 w t with
               name := p.controlEntryName (DeckParser.controlEntryAt p units ce0 w t) t }])
      else DeckParser.controlEntriesLoop p units isDifferent ce0 w (t + 1) n control_entries
    else DeckParser.controlEntriesLoop p units isDifferent ce0 w (t + 1) n control_entries

/-- The method `DeckParser::opmToControlEntries`; the warning it prints when
the list is empty is left out. -/
def DeckParser.opmToControlEntries (p : DeckParser) (units : Opm.Metric)
    (isDifferent : Model.Well.ControlEntry → Model.Well.ControlEntry → Bool)
    (ce0 : Model.Well.ControlEntry) (w : Opm.Well) : List Model.Well.ControlEntry :=
  DeckParser.controlEntriesLoop p units isDifferent ce0 w p.current_well_first_time_step_
    (p.num_timesteps_ - p.current_well_first_time_step_) []

/-- The sizes of the metric units in SI: bar for pressure, cubic metre for
volumes, and cP.m3/day/bar for transmissibility. -/
def Examples.metric : Opm.Metric :=
  { Pressure := 100000
    LiquidSurfaceVolume := 1
    ReservoirVolume := 1
    Transmissibility := 1 / 8640000000000 }

/-- A well with head (5, 6) and two completions, the first of which has been
parsed with the index -1. -/
def Examples.gibberish_well : Opm.Well :=
  { firstTimeStep := 1
    getStatus := fun _ => Opm.StatusEnum.OPEN
    isInjector := fun _ => false
    isProducer := fun _ => true
    getHeadI := fun _ => 5
    getHeadJ := fun _ => 6
    getCompletions :=
      [{ getI := -1, getJ := 3, getK := 9, getDiameter := 1 / 5,
         getConnectionTransmissibilityFactor := some 1 },
       { getI := 4, getJ := 5, getK := 1, getDiameter := 3 / 10,
         getConnectionTransmissibilityFactor := some 1 }] }

/-- An implementation of `ControlEntry::isDifferent` for the examples: two
entries differ when their state, control mode, rate, pressure or injection
type differ. -/
def Examples.isDifferent (a b : Model.Well.ControlEntry) : Bool :=
  decide (a.state ≠ b.state ∨ a.control_mode ≠ b.control_mode ∨ a.rate ≠ b.rate ∨
    a.bhp ≠ b.bhp ∨ a.injection_type ≠ b.injection_type)

/-- A default-constructed control entry for the examples. -/
def Examples.default_entry : Model.Well.ControlEntry :=
  { state := Model.WellState.WellShut
    control_mode := Model.ControlMode.UNKNOWN_CONTROL
    rate := 0
    bhp := 0
    injection_type := Model.InjectionType.WaterInjection
    time_step := 0
    name := "" }

/-- A producer on oil-rate control from timestep 1 on, with the oil and the
liquid rate both 100 and the reservoir-volume rate 40, a pressure limit of 200
bar and a tubing-head limit of 150 bar; at timestep 3 its control mode is
undefined. -/
def Examples.producer : Opm.Well :=
  { firstTimeStep := 1
    getStatus := fun _ => Opm.StatusEnum.OPEN
    isInjector := fun _ => false
    isProducer := fun _ => true
    getProductionProperties := fun t =>
      { OilRate := 100, LiquidRate := 100, ResVRate := 40
        BHPLimit := 20000000, THPLimit := 15000000
        controlMode :=
          if t = 3 then Opm.ProducerControlMode.CMODE_UNDEFINED
          else Opm.ProducerControlMode.ORAT } }

/-- A parser over five timesteps, parsing the well W1. -/
def Examples.parser : DeckParser :=
  { num_timesteps_ := 5
    time_days_ := [0, 30, 60, 90, 120]
    current_well_name_ := "W1"
    current_well_first_time_step_ := 1 }

/-- A well that is shut at timestep 1, an open producer at timesteps 2 and 3,
and an open injector at timestep 4. -/
def Examples.switching_well : Opm.Well :=
  { firstTimeStep := 1
    getStatus := fun t => if t = 1 then Opm.StatusEnum.SHUT else Opm.StatusEnum.OPEN
    isInjector := fun t => decide (t = 4)
    isProducer := fun t => !decide (t = 4) }

end Settings

namespace Optimization

namespace Objective

/-! ## The carbon-dioxide net present value -/

/-- The simulation results as `carbondioxidenpv` reads them (results.h is not
among the sources): the report times and the four overloads of `GetValue`, by
property key, well name and time step. -/
structure Results where
  Time : List ℚ
  GetValue : Nat → ℚ
  GetValueAt : Nat → Int → ℚ
  GetValueWell : Nat → String → ℚ
  GetValueWellAt : Nat → String → Int → ℚ

/-- The fields of `carbondioxidenpv::Component` that `value()` reads. -/
structure Component where
  is_json_component : Bool := false
  interval : String := "None"
  discount : ℚ := 0
  usediscountfactor : Bool := false
  coefficient : ℚ := 0
  property : Nat := 0
  is_well_property : Bool := false
  time_step : Int := -1
  well : String := ""

/-- The method `carbondioxidenpv::Component::resolveValue`. -/
def Component.resolveValue (c : Component) (results : Results) : ℚ :=
  if c.is_well_property then
    if c.time_step < 0 then c.coefficient * results.GetValueWell c.property c.well
    else c.coefficient * results.GetValueWellAt c.property c.well c.time_step
  else c.coefficient * results.GetValue c.property

/-- The method `carbondioxidenpv::Component::resolveValueDiscount`; the time
step arrives as a `double` holding an index and is cast back. -/
def Component.resolveValueDiscount (c : Component) (results : Results) (time_step : Nat) : ℚ :=
  results.GetValueAt c.property (time_step : Int)

/-- The test `std::fmod(x, m) == 0`: `x` is a whole multiple of `m`. -/
def fmodIsZero (x m : ℚ) : Bool := (x / m).isInt

/-- The loop over the report times for a component with interval "Yearly", at
index `i` with `n` iterations to go; `j` counts the periods, and the two lists
are `NPV_times` and `discount_factor_list`. -/
def carbondioxidenpv.yearlyLoop (report_times : List ℚ) (discount : ℚ) :
    Nat → Nat → Nat → List Nat × List ℚ → List Nat × List ℚ
  | _, 0, _, lists => lists
  | i, n + 1, j, (NPV_times, discount_factor_list) =>
    if i < report_times.length - 1 ∧
        report_times.getD (i + 1) 0 - report_times.getD i 0 > 365 then
      carbondioxidenpv.yearlyLoop report_times discount (i + 1) n j
        (NPV_times, discount_factor_list)
    else if fmodIsZero (report_times.getD i 0) 365 then
      carbondioxidenpv.yearlyLoop report_times discount (i + 1) n (j + 1)
        (NPV_times ++ [i], discount_factor_list ++ [1 / (1 * (1 + discount) ^ (j - 1))])
    else
      carbondioxidenpv.yearlyLoop report_times discount (i + 1) n j
        (NPV_times, discount_factor_list)

/-- The loop over the report times for a component with interval "Monthly";
`monthly_discount` is what `yearlyToMonthly` yields. -/
def carbondioxidenpv.monthlyLoop (report_times : List ℚ) (monthly_discount : ℚ) :
    Nat → Nat → Nat → List Nat × List ℚ → List Nat × List ℚ
  | _, 0, _, lists => lists
  | i, n + 1, j, (NPV_times, discount_factor_list) =>
    if fmodIsZero (report_times.getD i 0) 30 then
      carbondioxidenpv.monthlyLoop report_times monthly_discount (i + 1) n (j + 1)
        (NPV_times ++ [i],
          discount_factor_list ++ [1 / (1 * (1 + monthly_discount) ^ (j - 1))])
    else
      carbondioxidenpv.monthlyLoop report_times monthly_discount (i + 1) n j
        (NPV_times, discount_factor_list)

/-- The first loop of `carbondioxidenpv::value`, over the components: it fills
`NPV_times` and `discount_factor_list`, both shared by all components.
`yearlyToMonthly` raises to the power 0.083333 and is a parameter. -/
def carbondioxidenpv.discountFactors (yearlyToMonthly : ℚ → ℚ) (report_times : List ℚ) :
    List Component → List Nat × List ℚ → List Nat × List ℚ
  | [], lists => lists
  | c :: rest, lists =>
    if c.is_json_component then
      carbondioxidenpv.discountFactors yearlyToMonthly report_times rest lists
    else if c.interval = "Yearly" then
      carbondioxidenpv.discountFactors yearlyToMonthly report_times rest
        (carbondioxidenpv.yearlyLoop report_times c.discount 0 report_times.length 1 lists)
    else if c.interval = "Monthly" then
      carbondioxidenpv.discountFactors yearlyToMonthly report_times rest
        (carbondioxidenpv.monthlyLoop report_times (yearlyToMonthly c.discount) 0
          report_times.length 1 lists)
    else carbondioxidenpv.discountFactors yearlyToMonthly report_times rest lists

/-- The loop `for (j = 1; j < NPV_times->size(); ++j)` of `value()` for one
component, over the entries of `NPV_times` still ahead, with the running
`value`. The factor is `discount_factor_list->at(i)`, read in every pass, with
`i` the index of the component; `none` when that index is out of range. -/
def carbondioxidenpv.periodLoop (results : Results) (c : Component) (factor : Option ℚ) :
    List Nat → ℚ → Option ℚ
  | earlier :: later :: rest, value =>
    match factor with
    | none => none
    | some f =>
      carbondioxidenpv.periodLoop results c factor (later :: rest)
        (value + (c.resolveValueDiscount results later - c.resolveValueDiscount results earlier)
          * c.coefficient * f)
  | _, value => some value

/-- The second loop of `carbondioxidenpv::value`, over the components, `i`
being the index of the next one, with the running `value`. -/
def carbondioxidenpv.componentLoop (results : Results) (NPV_times : List Nat)
    (discount_factor_list : List ℚ) : List Component → Nat → ℚ → Option ℚ
  | [], _, value => some value
  | c :: rest, i, value =>
    if c.is_json_component then
      carbondioxidenpv.componentLoop results NPV_times discount_factor_list rest (i + 1) value
    else if c.usediscountfactor then
      match carbondioxidenpv.periodLoop results c (discount_factor_list.get? i) NPV_times
          value with
      | none => none
      | some v =>
        carbondioxidenpv.componentLoop results NPV_times discount_factor_list rest (i + 1) v
    else
      carbondioxidenpv.componentLoop results NPV_times discount_factor_list rest (i + 1)
        (value + c.resolveValue results)

/-- The first two loops of `carbondioxidenpv::value`: the value after the
components have been summed, before well costs, external components and the
carbon cost. -/
def carbondioxidenpv.valueOfComponents (yearlyToMonthly : ℚ → ℚ) (results : Results)
    (components_ : List Component) : Option ℚ :=
  carbondioxidenpv.componentLoop results
    (carbondioxidenpv.discountFactors yearlyToMonthly results.Time components_ ([], [])).1
    (carbondioxidenpv.discountFactors yearlyToMonthly results.Time components_ ([], [])).2
    components_ 0 0

/-! ## The number of injection pumps -/

/-- The constant `npump_wi_`, set to 1 by the constructor. -/
def carbondioxidenpv.npump_wi_ : ℚ := 1

/-- The method `carbondioxidenpv::calcEffHydraulic`; `pow(10.0, -12.0)` and the
like are exact powers of ten here. -/
def carbondioxidenpv.calcEffHydraulic (qwi_per_pump : ℚ) : ℚ :=
  (-3.98607 * (10 : ℚ) ^ (-12 : ℤ) * qwi_per_pump ^ 4
    + 2.62704 * (10 : ℚ) ^ (-8 : ℤ) * qwi_per_pump ^ 3
    - 7.18777 * (10 : ℚ) ^ (-5 : ℤ) * qwi_per_pump ^ 2
    + 1.08323 * (10 : ℚ) ^ (-1 : ℤ) * qwi_per_pump
    - 9.43801 * (10 : ℚ) ^ (-1 : ℤ)) / 100 + 0.2

/-- The first loop inside the pump search of `resolveCarbonDioxideCost`, at
report index `i` with `n` iterations to go, building `temp_qwi_per_pump` and
`temp_eff_hydraulic`. `FWIR[i]` past the end of the vector is `none`;
`temp_qwi_per_pump.value(i)` past the end of the list is 0. -/
def carbondioxidenpv.pumpRatesLoop (FWIR : List ℚ) (temp_n_pump : ℚ) :
    Nat → Nat → List ℚ × List ℚ → Option (List ℚ × List ℚ)
  | _, 0, lists => some lists
  | i, n + 1, (temp_qwi_per_pump, temp_eff_hydraulic) =>
    match FWIR.get? i with
    | none => none
    | some rate =>
      if rate > 0 then
        carbondioxidenpv.pumpRatesLoop FWIR temp_n_pump (i + 1) n
          (temp_qwi_per_pump ++ [rate / temp_n_pump],
            temp_eff_hydraulic ++
              [carbondioxidenpv.calcEffHydraulic
                ((temp_qwi_per_pump ++ [rate / temp_n_pump]).getD i 0)])
      else
        carbondioxidenpv.pumpRatesLoop FWIR temp_n_pump (i + 1) n
          (temp_qwi_per_pump, temp_eff_hydraulic)

/-- The second loop inside the pump search: `temp_feasable` after the
efficiencies still ahead have been looked at. -/
def carbondioxidenpv.feasableLoop : List ℚ → Bool → Bool
  | [], temp_feasable => temp_feasable
  | eff :: rest, temp_feasable =>
    if eff ≤ 0 then
      if temp_feasable then carbondioxidenpv.feasableLoop rest false
      else carbondioxidenpv.feasableLoop rest temp_feasable
    else carbondioxidenpv.feasableLoop rest temp_feasable

/-- The statement `temp_n_pump += 1` on the `double` counter. The counter
starts at `npump_wi_ = 1` and only ever holds whole numbers; below 2^53 the sum
is exact, and at 2^53 the sum 2^53 + 1 is not a `double` and rounds back to
2^53 (round to nearest, ties to even), so the counter stops advancing there. -/
def carbondioxidenpv.addOne (temp_n_pump : ℚ) : ℚ :=
  if temp_n_pump < 2 ^ 53 then temp_n_pump + 1 else temp_n_pump

/-- The loop `while (!feasable)` of `resolveCarbonDioxideCost`, for
`report_times_size` report times, entered with `temp_n_pump` and allowed `fuel`
passes: `some (some n)` when it leaves with the pump count `n`, `some none`
when it is still running after `fuel` passes, and `none` when `FWIR` is read
past its end. -/
def carbondioxidenpv.pumpSearch (FWIR : List ℚ) (report_times_size : Nat) :
    Nat → ℚ → Option (Option ℚ)
  | 0, _ => some none
  | fuel + 1, temp_n_pump =>
    match carbondioxidenpv.pumpRatesLoop FWIR temp_n_pump 0 report_times_size ([], []) with
    | none => none
    | some (_, temp_eff_hydraulic) =>
      if carbondioxidenpv.feasableLoop temp_eff_hydraulic true then some (some temp_n_pump)
      else
        carbondioxidenpv.pumpSearch FWIR report_times_size fuel
          (carbondioxidenpv.addOne temp_n_pump)

/-- Injection rates at three report times: the rate 12000 has a negative
efficiency with one, two and three pumps and a positive one with four. -/
def Examples.FWIR : List ℚ := [12000, 500, 0]

/-- One report time with an injection rate of 10^20. -/
def Examples.huge_rate : List ℚ := [10 ^ 20]

/-- Results over the report times 0, 365 and 730 days, with cumulative oil
(property 0) 0, 1000 and 1500 and cumulative water (property 1) 0, 100 and
400. -/
def Examples.results : Results :=
  { Time := [0, 365, 730]
    GetValue := fun k => if k = 0 then 1500 else 400
    GetValueAt := fun k t =>
      if k = 0 then (if t = 0 then 0 else if t = 1 then 1000 else 1500)
      else (if t = 0 then 0 else if t = 1 then 100 else 400)
    GetValueWell := fun _ _ => 0
    GetValueWellAt := fun _ _ _ => 0 }

end Objective

end Optimization

/-! # Part 2: lemmas and claims -/

namespace Runner

open Optimization

/-! ## The worker table -/

theorem WorkerTable.lookup_modify_same (ws : WorkerTable) (i : Nat)
    (f : WorkerStatus → WorkerStatus) (w : WorkerStatus)
    (h : WorkerTable.lookup ws i = some w) :
    WorkerTable.lookup (WorkerTable.modify ws i f) i = some (f w) := by
  induction ws with
  | nil => simp [WorkerTable.lookup] at h
  | cons p rest ih =>
    obtain ⟨k, v⟩ := p
    by_cases hk : k = i
    · simp [WorkerTable.lookup, WorkerTable.modify, hk] at h ⊢
      rw [h]
    · simp [WorkerTable.lookup, WorkerTable.modify, hk] at h ⊢
      exact ih h

theorem WorkerTable.lookup_modify_ne (ws : WorkerTable) (i j : Nat)
    (f : WorkerStatus → WorkerStatus) (h : j ≠ i) :
    WorkerTable.lookup (WorkerTable.modify ws i f) j = WorkerTable.lookup ws j := by
  induction ws with
  | nil => simp [WorkerTable.lookup, WorkerTable.modify]
  | cons p rest ih =>
    obtain ⟨k, v⟩ := p
    by_cases hk : k = i
    · have hij : ¬ i = j := fun e => h e.symm
      subst hk
      simp [WorkerTable.lookup, WorkerTable.modify, hij]
    · by_cases hkj : k = j
      · subst hkj
        simp [WorkerTable.lookup, WorkerTable.modify, hk]
      · simp [WorkerTable.lookup, WorkerTable.modify, hk, hkj, ih]

theorem WorkerTable.modify_keys (ws : WorkerTable) (i : Nat) (f : WorkerStatus → WorkerStatus) :
    (WorkerTable.modify ws i f).map Prod.fst = ws.map Prod.fst := by
  induction ws with
  | nil => simp [WorkerTable.modify]
  | cons p rest ih =>
    obtain ⟨k, v⟩ := p
    by_cases hk : k = i
    · simp [WorkerTable.modify, hk]
    · simp [WorkerTable.modify, hk, ih]

theorem WorkerTable.modify_length (ws : WorkerTable) (i : Nat) (f : WorkerStatus → WorkerStatus) :
    (WorkerTable.modify ws i f).length = ws.length := by
  have h := congrArg List.length (WorkerTable.modify_keys ws i f)
  simpa using h

theorem WorkerTable.modify_ranks (ws : WorkerTable) (i : Nat) (f : WorkerStatus → WorkerStatus)
    (hf : ∀ w, (f w).rank = w.rank) (h : ∀ p ∈ ws, p.2.rank = p.1) :
    ∀ p ∈ WorkerTable.modify ws i f, p.2.rank = p.1 := by
  induction ws with
  | nil => simp [WorkerTable.modify]
  | cons q rest ih =>
    obtain ⟨k, v⟩ := q
    have hv : v.rank = k := h (k, v) (List.mem_cons_self _ _)
    have hrest : ∀ p ∈ rest, p.2.rank = p.1 := fun p hp => h p (List.mem_cons_of_mem _ hp)
    by_cases hk : k = i
    · intro p hp
      simp [WorkerTable.modify, hk] at hp
      rcases hp with rfl | hp
      · simp [hf, hv, hk]
      · exact hrest p hp
    · intro p hp
      simp [WorkerTable.modify, hk] at hp
      rcases hp with rfl | hp
      · simpa using hv
      · exact ih hrest p hp

theorem WorkerTable.lookup_of_mem_keys (ws : WorkerTable) (j : Nat)
    (h : j ∈ ws.map Prod.fst) :
    ∃ w, WorkerTable.lookup ws j = some w ∧ (j, w) ∈ ws := by
  induction ws with
  | nil => simp at h
  | cons p rest ih =>
    obtain ⟨k, v⟩ := p
    by_cases hk : k = j
    · exact ⟨v, by simp [WorkerTable.lookup, hk], by simp [hk]⟩
    · have hj : j ∈ rest.map Prod.fst := by
        simp at h
        rcases h with h | h
        · exact absurd h.symm hk
        · simpa using h
      obtain ⟨w, hw, hmem⟩ := ih hj
      exact ⟨w, by simp [WorkerTable.lookup, hk, hw], List.mem_cons_of_mem _ hmem⟩

theorem WorkerTable.insert_fresh (ws : WorkerTable) (i : Nat) (w : WorkerStatus)
    (h : i ∉ ws.map Prod.fst) :
    WorkerTable.insert ws i w = ws ++ [(i, w)] := by
  induction ws with
  | nil => simp [WorkerTable.insert]
  | cons p rest ih =>
    obtain ⟨k, v⟩ := p
    have hk : ¬ k = i := by
      intro e
      apply h
      simp [e]
    have hrest : i ∉ rest.map Prod.fst := by
      intro e
      apply h
      simp at e ⊢
      exact Or.inr e
    simp [WorkerTable.insert, hk, ih hrest]

/-! ## Counting idle workers -/

theorem WorkerTable.idleIn_le (ws : WorkerTable) (i n : Nat) :
    WorkerTable.idleIn ws i n ≤ n := by
  induction n generalizing i with
  | zero => simp [WorkerTable.idleIn]
  | succ n ih =>
    have h := ih (i + 1)
    simp only [WorkerTable.idleIn]
    cases WorkerTable.lookup ws i with
    | none => simp; omega
    | some w => by_cases hw : w.working = false <;> simp [hw] <;> omega

theorem WorkerTable.idleIn_congr (ws ws' : WorkerTable) (i n : Nat)
    (h : ∀ j, i ≤ j → j < i + n → WorkerTable.lookup ws' j = WorkerTable.lookup ws j) :
    WorkerTable.idleIn ws' i n = WorkerTable.idleIn ws i n := by
  induction n generalizing i with
  | zero => simp [WorkerTable.idleIn]
  | succ n ih =>
    simp only [WorkerTable.idleIn]
    rw [h i (le_refl _) (by omega), ih (i + 1) (fun j h1 h2 => h j (by omega) (by omega))]

theorem WorkerTable.idleIn_modify (ws : WorkerTable) (r : Nat) (g : WorkerStatus → WorkerStatus)
    (w : WorkerStatus) (i n : Nat) (hr1 : i ≤ r) (hr2 : r < i + n)
    (hw : WorkerTable.lookup ws r = some w) :
    WorkerTable.idleIn (WorkerTable.modify ws r g) i n + (if w.working = false then 1 else 0)
      = WorkerTable.idleIn ws i n + (if (g w).working = false then 1 else 0) := by
  induction n generalizing i with
  | zero => omega
  | succ n ih =>
    simp only [WorkerTable.idleIn]
    by_cases hi : i = r
    · subst hi
      rw [WorkerTable.lookup_modify_same ws i g w hw, hw]
      rw [WorkerTable.idleIn_congr ws (WorkerTable.modify ws i g) (i + 1) n
        (fun j h1 _ => WorkerTable.lookup_modify_ne ws i j g (by omega))]
      simp only []
      omega
    · rw [WorkerTable.lookup_modify_ne ws r i g hi]
      have h := ih (i + 1) (by omega) (by omega)
      omega

theorem Overseer.countFree_eq (ws : WorkerTable) (i n f : Nat)
    (h : ∀ j, i ≤ j → j < i + n → ∃ w, WorkerTable.lookup ws j = some w) :
    Overseer.countFree ws i n f = some (f + WorkerTable.idleIn ws i n) := by
  induction n generalizing i f with
  | zero => simp [Overseer.countFree, WorkerTable.idleIn]
  | succ n ih =>
    obtain ⟨w, hw⟩ := h i (le_refl _) (by omega)
    simp only [Overseer.countFree, WorkerTable.idleIn, hw]
    rw [ih (i + 1) _ (fun j h1 h2 => h j (by omega) (by omega))]
    by_cases hb : w.working = false
    · simp [hb]; omega
    · simp [hb]

theorem WorkerTable.idleIn_all_idle (ws : WorkerTable) (i n : Nat)
    (h : ∀ j, i ≤ j → j < i + n → ∃ w, WorkerTable.lookup ws j = some w ∧ w.working = false) :
    WorkerTable.idleIn ws i n = n := by
  induction n generalizing i with
  | zero => simp [WorkerTable.idleIn]
  | succ n ih =>
    obtain ⟨w, hw, hb⟩ := h i (le_refl _) (by omega)
    simp only [WorkerTable.idleIn, hw]
    rw [ih (i + 1) (fun j h1 h2 => h j (by omega) (by omega))]
    simp [hb]
    omega

theorem WorkerTable.idleIn_zero (ws : WorkerTable) (i n : Nat)
    (h : WorkerTable.idleIn ws i n = 0) (j : Nat) (h1 : i ≤ j) (h2 : j < i + n)
    (w : WorkerStatus) (hw : WorkerTable.lookup ws j = some w) : w.working = true := by
  induction n generalizing i with
  | zero => omega
  | succ n ih =>
    simp only [WorkerTable.idleIn] at h
    by_cases hij : i = j
    · subst hij
      rw [hw] at h
      by_cases hb : w.working = false
      · simp [hb] at h
      · simpa using hb
    · exact ih (i + 1) (by omega) (by omega) (by omega)

theorem Overseer.findFree_spec (ws : WorkerTable) (i n : Nat)
    (hdef : ∀ j, i ≤ j → j < i + n → ∃ w, WorkerTable.lookup ws j = some w)
    (hpos : 0 < WorkerTable.idleIn ws i n) :
    ∃ r w, Overseer.findFree ws i n = Result.ok (r, w) ∧ i ≤ r ∧ r < i + n ∧
      WorkerTable.lookup ws r = some w ∧ w.working = false ∧
      ∀ j w', i ≤ j → j < r → WorkerTable.lookup ws j = some w' → w'.working = true := by
  induction n generalizing i with
  | zero => simp [WorkerTable.idleIn] at hpos
  | succ n ih =>
    obtain ⟨w, hw⟩ := hdef i (le_refl _) (by omega)
    by_cases hb : w.working = false
    · refine ⟨i, w, ?_, le_refl _, by omega, hw, hb, ?_⟩
      · simp [Overseer.findFree, hw, hb]
      · intro j w' h1 h2
        omega
    · have hpos' : 0 < WorkerTable.idleIn ws (i + 1) n := by
        simp only [WorkerTable.idleIn, hw] at hpos
        simpa [hb] using hpos
      obtain ⟨r, v, hf, hr1, hr2, hv, hvb, hlow⟩ :=
        ih (i + 1) (fun j h1 h2 => hdef j (by omega) (by omega)) hpos'
      refine ⟨r, v, ?_, by omega, by omega, hv, hvb, ?_⟩
      · simp [Overseer.findFree, hw, hb, hf]
      · intro j w' h1 h2 hj
        by_cases hij : j = i
        · subst hij
          rw [hw] at hj
          cases hj
          simpa using hb
        · exact hlow j w' (by omega) h2 hj

/-! ## Well-formed pools -/

theorem Overseer.WF.lookup_rank (o : Overseer) (h : o.WF) (j : Nat) (h1 : 1 ≤ j)
    (h2 : j < o.runner_.world_size) :
    ∃ w, WorkerTable.lookup o.workers_ j = some w ∧ w.rank = j := by
  obtain ⟨_, hkeys, hranks⟩ := h
  have hj : j ∈ o.workers_.map Prod.fst := by
    rw [hkeys, List.mem_range'_1]
    omega
  obtain ⟨w, hw, hmem⟩ := WorkerTable.lookup_of_mem_keys o.workers_ j hj
  exact ⟨w, hw, hranks (j, w) hmem⟩

theorem Overseer.WF.lookup_some (o : Overseer) (h : o.WF) (j : Nat) (h1 : 1 ≤ j)
    (h2 : j < 1 + (o.runner_.world_size - 1)) :
    ∃ w, WorkerTable.lookup o.workers_ j = some w := by
  obtain ⟨w, hw, _⟩ := Overseer.WF.lookup_rank o h j h1 (by omega)
  exact ⟨w, hw⟩

theorem Overseer.WF.length (o : Overseer) (h : o.WF) :
    o.workers_.length = o.runner_.world_size - 1 := by
  have hl := congrArg List.length h.2.1
  simpa using hl

theorem Overseer.WF.free (o : Overseer) (h : o.WF) :
    o.NumberOfFreeWorkers
      = some (WorkerTable.idleIn o.workers_ 1 (o.runner_.world_size - 1)) := by
  unfold Overseer.NumberOfFreeWorkers
  rw [Overseer.countFree_eq o.workers_ 1 _ 0 (Overseer.WF.lookup_some o h)]
  simp

theorem Overseer.WF.modify (o : Overseer) (h : o.WF) (r : MPIRunner)
    (hr : r.world_size = o.runner_.world_size) (i : Nat) (f : WorkerStatus → WorkerStatus)
    (hf : ∀ w, (f w).rank = w.rank) :
    Overseer.WF { runner_ := r, workers_ := WorkerTable.modify o.workers_ i f } := by
  obtain ⟨h1, hkeys, hranks⟩ := h
  refine ⟨?_, ?_, ?_⟩
  · simpa [hr] using h1
  · simp only [hr]
    rw [WorkerTable.modify_keys]
    exact hkeys
  · exact WorkerTable.modify_ranks o.workers_ i f hf hranks

theorem Overseer.insertWorkers_spec (i n : Nat) (ws : WorkerTable) (hi : 1 ≤ i)
    (hkeys : ws.map Prod.fst = List.range' 1 (i - 1))
    (hnew : ∀ p ∈ ws, p.2 = WorkerStatus.new p.1) :
    (Overseer.insertWorkers i n ws).map Prod.fst = List.range' 1 (i - 1 + n) ∧
      ∀ p ∈ Overseer.insertWorkers i n ws, p.2 = WorkerStatus.new p.1 := by
  induction n generalizing i ws with
  | zero => exact ⟨by simpa [Overseer.insertWorkers] using hkeys, by simpa [Overseer.insertWorkers] using hnew⟩
  | succ n ih =>
    have hfresh : i ∉ ws.map Prod.fst := by
      rw [hkeys, List.mem_range'_1]
      omega
    have hins := WorkerTable.insert_fresh ws i (WorkerStatus.new i) hfresh
    have hkeys' : (WorkerTable.insert ws i (WorkerStatus.new i)).map Prod.fst
        = List.range' 1 (i + 1 - 1) := by
      rw [hins, List.map_append, hkeys]
      have e : i + 1 - 1 = (i - 1) + 1 := by omega
      rw [e, List.range'_concat]
      simp
      omega
    have hnew' : ∀ p ∈ WorkerTable.insert ws i (WorkerStatus.new i),
        p.2 = WorkerStatus.new p.1 := by
      intro p hp
      rw [hins, List.mem_append] at hp
      rcases hp with hp | hp
      · exact hnew p hp
      · simp at hp
        subst hp
        rfl
    have h := ih (i + 1) _ (by omega) hkeys' hnew'
    have e : i + 1 - 1 + n = i - 1 + (n + 1) := by omega
    simp only [Overseer.insertWorkers]
    rw [← e]
    exact h

theorem Overseer.new_workers (runner : MPIRunner) :
    (Overseer.new runner).workers_.map Prod.fst = List.range' 1 (runner.world_size - 1) ∧
      ∀ p ∈ (Overseer.new runner).workers_, p.2 = WorkerStatus.new p.1 := by
  have h := Overseer.insertWorkers_spec 1 (runner.world_size - 1) [] (le_refl _)
    (by simp) (by simp)
  simpa [Overseer.new, MPIRunner.BroadcastModel] using h

theorem Overseer.new_WF (runner : MPIRunner) (h : 1 ≤ runner.world_size) :
    (Overseer.new runner).WF := by
  obtain ⟨hkeys, hnew⟩ := Overseer.new_workers runner
  refine ⟨by simpa [Overseer.new, MPIRunner.BroadcastModel, MPIRunner.printMessage] using h, ?_, ?_⟩
  · simpa [Overseer.new, MPIRunner.BroadcastModel, MPIRunner.printMessage] using hkeys
  · intro p hp
    rw [hnew p hp]
    rfl

/-! ## The two state-changing calls on a well-formed pool -/

theorem Overseer.AssignCase_thrown (o : Overseer) (c : Case) (now : Nat)
    (h : o.NumberOfFreeWorkers = some 0) :
    o.AssignCase c now = Outcome.thrown "Cannot assign Case. No free workers found." o := by
  simp [Overseer.AssignCase, h]

theorem Overseer.AssignCase_spec (o : Overseer) (c : Case) (now : Nat) (h : o.WF)
    (hpos : 0 < WorkerTable.idleIn o.workers_ 1 (o.runner_.world_size - 1)) :
    ∃ r w, 1 ≤ r ∧ r < o.runner_.world_size ∧
      WorkerTable.lookup o.workers_ r = some w ∧ w.rank = r ∧ w.working = false ∧
      (∀ j w', 1 ≤ j → j < r → WorkerTable.lookup o.workers_ j = some w' → w'.working = true) ∧
      o.AssignCase c now = Outcome.returned ()
        { runner_ := (o.runner_.SendCase c r MsgTag.CASE_UNEVAL).printMessage
            ("Assigned case to worker " ++ toString r)
          workers_ := WorkerTable.modify o.workers_ r (fun w => w.start now) } := by
  obtain ⟨r, w, hf, hr1, hr2, hw, hb, hlow⟩ :=
    Overseer.findFree_spec o.workers_ 1 (o.runner_.world_size - 1)
      (Overseer.WF.lookup_some o h) hpos
  obtain ⟨w2, hw2, hrank⟩ := Overseer.WF.lookup_rank o h r hr1 (by omega)
  rw [hw] at hw2
  cases hw2
  refine ⟨r, w, hr1, by omega, hw, hrank, hb, hlow, ?_⟩
  have hne : ¬ WorkerTable.idleIn o.workers_ 1 (o.runner_.world_size - 1) = 0 := by omega
  simp [Overseer.AssignCase, Overseer.getFreeWorker, Overseer.WF.free o h, hne, hf, hrank]

theorem Overseer.AssignCase_returned_pos (o : Overseer) (c : Case) (now : Nat) (h : o.WF)
    (o' : Overseer) (hret : o.AssignCase c now = Outcome.returned () o') :
    0 < WorkerTable.idleIn o.workers_ 1 (o.runner_.world_size - 1) := by
  by_contra hz
  have hz' : WorkerTable.idleIn o.workers_ 1 (o.runner_.world_size - 1) = 0 := by omega
  have hfree : o.NumberOfFreeWorkers = some 0 := by
    rw [Overseer.WF.free o h, hz']
  rw [Overseer.AssignCase_thrown o c now hfree] at hret
  cases hret

theorem Overseer.RecvEvaluatedCase_spec (o : Overseer) (c : Case) (r : Nat) (w : WorkerStatus)
    (hw : WorkerTable.lookup o.workers_ r = some w) :
    o.RecvEvaluatedCase c r = Outcome.returned c
      { runner_ := (o.runner_.RecvCase c r MsgTag.CASE_EVAL).printMessage
          ("Received case from worker " ++ toString r)
        workers_ := WorkerTable.modify o.workers_ r (fun w => w.stop) } := by
  simp [Overseer.RecvEvaluatedCase, hw]

theorem Overseer.RecvEvaluatedCase_returned (o : Overseer) (c : Case) (r : Nat) (v : Case)
    (o' : Overseer) (hret : o.RecvEvaluatedCase c r = Outcome.returned v o') :
    ∃ w, WorkerTable.lookup o.workers_ r = some w ∧ v = c ∧
      o' = { runner_ := (o.runner_.RecvCase c r MsgTag.CASE_EVAL).printMessage
               ("Received case from worker " ++ toString r)
             workers_ := WorkerTable.modify o.workers_ r (fun w => w.stop) } := by
  cases hl : WorkerTable.lookup o.workers_ r with
  | none => simp [Overseer.RecvEvaluatedCase, hl] at hret
  | some w =>
    rw [Overseer.RecvEvaluatedCase_spec o c r w hl] at hret
    cases hret
    exact ⟨w, rfl, rfl, rfl⟩

theorem Overseer.terminateLoop_world_size (i n : Nat) (r : MPIRunner) :
    (Overseer.terminateLoop i n r).world_size = r.world_size := by
  induction n generalizing i r with
  | zero => rfl
  | succ n ih => simp [Overseer.terminateLoop, ih, MPIRunner.SendCase]

theorem Overseer.Reachable.wf (o : Overseer) (h : Overseer.Reachable o) : o.WF := by
  induction h with
  | init size h => exact Overseer.new_WF _ h
  | assign o c now o' _ hret ih =>
    obtain ⟨r, w, _, _, _, _, _, _, heq⟩ :=
      Overseer.AssignCase_spec o c now ih (Overseer.AssignCase_returned_pos o c now ih o' hret)
    rw [heq] at hret
    cases hret
    exact Overseer.WF.modify o ih _ rfl r _ (fun _ => rfl)
  | recv o c r v o' _ hret ih =>
    obtain ⟨w, _, _, heq⟩ := Overseer.RecvEvaluatedCase_returned o c r v o' hret
    rw [heq]
    exact Overseer.WF.modify o ih _ rfl r _ (fun _ => rfl)
  | terminate o _ ih =>
    obtain ⟨h1, hkeys, hranks⟩ := ih
    refine ⟨?_, ?_, hranks⟩
    · simpa [Overseer.TerminateWorkers, Overseer.terminateLoop_world_size] using h1
    · simpa [Overseer.TerminateWorkers, Overseer.terminateLoop_world_size] using hkeys

/-! ## The example pools are reachable -/

theorem Examples.pool3_reachable : Overseer.Reachable Examples.pool3 :=
  Overseer.Reachable.init 3 (by decide)

theorem Examples.pool3_one_reachable : Overseer.Reachable Examples.pool3_one :=
  Overseer.Reachable.assign Examples.pool3 { id := 7 } 10 _ Examples.pool3_reachable
    (by decide)

theorem Examples.pool3_full_reachable : Overseer.Reachable Examples.pool3_full :=
  Overseer.Reachable.assign Examples.pool3_one { id := 8 } 10 _ Examples.pool3_one_reachable
    (by decide)

theorem Examples.pool3_second_reachable : Overseer.Reachable Examples.pool3_second :=
  Overseer.Reachable.recv Examples.pool3_full { id := 7 } 1 { id := 7 } _
    Examples.pool3_full_reachable (by decide)

/-! ## Claims about the worker pool -/

/-- C1: in every state reachable from construction by calls of `AssignCase` and
`RecvEvaluatedCase` that return (and of `TerminateWorkers`), both counters are
defined and `NumberOfFreeWorkers() + NumberOfBusyWorkers()` equals the world
size minus one, the number of workers. -/
theorem Overseer.free_plus_busy_eq_total (o : Overseer) (h : Overseer.Reachable o) :
    ∃ (f : Nat) (b : Int), o.NumberOfFreeWorkers = some f ∧ o.NumberOfBusyWorkers = some b ∧
      (f : Int) + b = (o.runner_.world_size : Int) - 1 := by
  have hwf := Overseer.Reachable.wf o h
  have hfree := Overseer.WF.free o hwf
  have hlen := Overseer.WF.length o hwf
  have h1 : 1 ≤ o.runner_.world_size := hwf.1
  have hbusy : o.NumberOfBusyWorkers
      = some ((o.workers_.length : Int)
          - (WorkerTable.idleIn o.workers_ 1 (o.runner_.world_size - 1) : Int)) := by
    simp [Overseer.NumberOfBusyWorkers, hfree]
  refine ⟨_, _, hfree, hbusy, ?_⟩
  rw [hlen]
  omega

/-- Witness for C1: the pool of two workers after one assignment, with one
free and one busy worker. -/
theorem Overseer.free_plus_busy_eq_total_witness :
    Examples.pool3_one.NumberOfFreeWorkers = some 1 ∧
    Examples.pool3_one.NumberOfBusyWorkers = some 1 ∧
    ∃ (f : Nat) (b : Int), Examples.pool3_one.NumberOfFreeWorkers = some f ∧
      Examples.pool3_one.NumberOfBusyWorkers = some b ∧
      (f : Int) + b = (Examples.pool3_one.runner_.world_size : Int) - 1 :=
  ⟨by decide, by decide,
    Overseer.free_plus_busy_eq_total Examples.pool3_one
      (Overseer.Reachable.assign Examples.pool3 { id := 7 } 10 _
        (Overseer.Reachable.init 3 (by decide)) (by decide))⟩

/-- C2: when `NumberOfFreeWorkers()` is 0, `AssignCase(c)` throws the
"no free workers" error and leaves the overseer exactly as it was: the worker
table (flags and timers) and the runner (nothing sent) are unchanged. -/
theorem Overseer.AssignCase_exhausted (o : Overseer) (c : Case) (now : Nat)
    (h : o.NumberOfFreeWorkers = some 0) :
    o.AssignCase c now = Outcome.thrown "Cannot assign Case. No free workers found." o := by
  simp [Overseer.AssignCase, h]

/-- Witness for C2: both workers of the pool are busy and a third assignment
is refused. -/
theorem Overseer.AssignCase_exhausted_witness :
    Examples.pool3_full.NumberOfFreeWorkers = some 0 ∧
    Examples.pool3_full.AssignCase { id := 9 } 11
      = Outcome.thrown "Cannot assign Case. No free workers found." Examples.pool3_full :=
  ⟨by decide, Overseer.AssignCase_exhausted Examples.pool3_full { id := 9 } 11 (by decide)⟩

/-- C3: on a well-formed pool with at least one free worker, `AssignCase(c)`
returns; the worker `r` it picks is idle and every worker of lower rank is
busy; the only message sent is `c` to `r` with tag CASE_UNEVAL; afterwards `r`
is busy (started at the current clock reading) and the entry of every other
rank is unchanged. -/
theorem Overseer.AssignCase_lowest_idle (o : Overseer) (c : Case) (now : Nat) (h : o.WF)
    (f : Nat) (hfree : o.NumberOfFreeWorkers = some f) (hpos : 0 < f) :
    ∃ (r : Nat) (w : WorkerStatus) (o' : Overseer),
      o.AssignCase c now = Outcome.returned () o' ∧
      1 ≤ r ∧ r < o.runner_.world_size ∧
      WorkerTable.lookup o.workers_ r = some w ∧ w.working = false ∧
      (∀ j w', 1 ≤ j → j < r → WorkerTable.lookup o.workers_ j = some w' → w'.working = true) ∧
      o'.runner_.trace =
        Event.printMessage ("Assigned case to worker " ++ toString r) ::
          Event.SendCase c r MsgTag.CASE_UNEVAL :: o.runner_.trace ∧
      WorkerTable.lookup o'.workers_ r = some (w.start now) ∧
      (w.start now).working = true ∧
      ∀ j, j ≠ r → WorkerTable.lookup o'.workers_ j = WorkerTable.lookup o.workers_ j := by
  have hidle : 0 < WorkerTable.idleIn o.workers_ 1 (o.runner_.world_size - 1) := by
    rw [Overseer.WF.free o h] at hfree
    cases hfree
    exact hpos
  obtain ⟨r, w, hr1, hr2, hw, _, hb, hlow, heq⟩ := Overseer.AssignCase_spec o c now h hidle
  refine ⟨r, w, _, heq, hr1, hr2, hw, hb, hlow, rfl, ?_, rfl, ?_⟩
  · exact WorkerTable.lookup_modify_same o.workers_ r _ w hw
  · intro j hj
    exact WorkerTable.lookup_modify_ne o.workers_ r j _ hj

/-- Witness for C3: with worker 1 busy and worker 2 idle, the case goes to
worker 2. -/
theorem Overseer.AssignCase_lowest_idle_witness :
    Examples.pool3_one.AssignCase { id := 8 } 10 = Outcome.returned () Examples.pool3_full ∧
    ∃ (r : Nat) (w : WorkerStatus) (o' : Overseer),
      Examples.pool3_one.AssignCase { id := 8 } 10 = Outcome.returned () o' ∧
      1 ≤ r ∧ r < Examples.pool3_one.runner_.world_size ∧
      WorkerTable.lookup Examples.pool3_one.workers_ r = some w ∧ w.working = false ∧
      (∀ j w', 1 ≤ j → j < r →
        WorkerTable.lookup Examples.pool3_one.workers_ j = some w' → w'.working = true) ∧
      o'.runner_.trace =
        Event.printMessage ("Assigned case to worker " ++ toString r) ::
          Event.SendCase { id := 8 } r MsgTag.CASE_UNEVAL :: Examples.pool3_one.runner_.trace ∧
      WorkerTable.lookup o'.workers_ r = some (w.start 10) ∧
      (w.start 10).working = true ∧
      ∀ j, j ≠ r →
        WorkerTable.lookup o'.workers_ j = WorkerTable.lookup Examples.pool3_one.workers_ j :=
  ⟨by decide,
    Overseer.AssignCase_lowest_idle Examples.pool3_one { id := 8 } 10 (by decide) 1
      (by decide) (by decide)⟩

/-! ## One outstanding case per worker -/

theorem Examples.pool3_again_reachable : Overseer.Reachable Examples.pool3_again :=
  Overseer.Reachable.assign Examples.pool3_second { id := 9 } 12 _
    Examples.pool3_second_reachable (by decide)

theorem Trace.ordered_suffix (post t : List Event) (h : Trace.ordered (post ++ t)) :
    Trace.ordered t := by
  induction post with
  | nil => simpa using h
  | cons e post ih => exact ih h.2

theorem Trace.recv_of_not_outstanding (r : Nat) (c1 : Case) (mid pre : List Event)
    (h : Trace.outstanding r (mid ++ Event.SendCase c1 r MsgTag.CASE_UNEVAL :: pre) = false) :
    ∃ c, Event.RecvCase c r MsgTag.CASE_EVAL ∈ mid := by
  induction mid with
  | nil => simp [Trace.outstanding] at h
  | cons e mid ih =>
    cases e with
    | BroadcastModel =>
      obtain ⟨c, hc⟩ := ih (by simpa [Trace.outstanding] using h)
      exact ⟨c, List.mem_cons_of_mem _ hc⟩
    | printMessage text =>
      obtain ⟨c, hc⟩ := ih (by simpa [Trace.outstanding] using h)
      exact ⟨c, List.mem_cons_of_mem _ hc⟩
    | SendCase c d tag =>
      by_cases hd : d = r ∧ tag = MsgTag.CASE_UNEVAL
      · simp [Trace.outstanding, hd] at h
      · have h' : Trace.outstanding r
            (mid ++ Event.SendCase c1 r MsgTag.CASE_UNEVAL :: pre) = false := by
          simpa [Trace.outstanding, hd] using h
        obtain ⟨c', hc⟩ := ih h'
        exact ⟨c', List.mem_cons_of_mem _ hc⟩
    | RecvCase c s tag =>
      by_cases hs : s = r ∧ tag = MsgTag.CASE_EVAL
      · obtain ⟨rfl, rfl⟩ := hs
        exact ⟨c, List.mem_cons_self _ _⟩
      · have h' : Trace.outstanding r
            (mid ++ Event.SendCase c1 r MsgTag.CASE_UNEVAL :: pre) = false := by
          simpa [Trace.outstanding, hs] using h
        obtain ⟨c', hc⟩ := ih h'
        exact ⟨c', List.mem_cons_of_mem _ hc⟩

theorem Overseer.terminateLoop_outstanding (r i n : Nat) (rn : MPIRunner) :
    Trace.outstanding r (Overseer.terminateLoop i n rn).trace = Trace.outstanding r rn.trace := by
  induction n generalizing i rn with
  | zero => rfl
  | succ n ih =>
    simp only [Overseer.terminateLoop]
    rw [ih]
    simp [MPIRunner.SendCase, Trace.outstanding]

theorem Overseer.terminateLoop_ordered (i n : Nat) (rn : MPIRunner)
    (h : Trace.ordered rn.trace) : Trace.ordered (Overseer.terminateLoop i n rn).trace := by
  induction n generalizing i rn with
  | zero => exact h
  | succ n ih =>
    simp only [Overseer.terminateLoop]
    apply ih
    refine ⟨?_, h⟩
    intro c d e
    simp at e

theorem Overseer.Reachable.inv (o : Overseer) (h : Overseer.Reachable o) : o.Inv := by
  induction h with
  | init size h =>
    refine ⟨?_, ?_⟩
    · intro r hr
      simp [Overseer.new, MPIRunner.BroadcastModel, MPIRunner.printMessage,
        Trace.outstanding] at hr
    · simp [Overseer.new, MPIRunner.BroadcastModel, MPIRunner.printMessage, Trace.ordered]
  | assign o c now o' hreach hret ih =>
    have hwf := Overseer.Reachable.wf o hreach
    obtain ⟨r, w, _, _, hw, _, hb, _, heq⟩ :=
      Overseer.AssignCase_spec o c now hwf (Overseer.AssignCase_returned_pos o c now hwf o' hret)
    rw [heq] at hret
    cases hret
    obtain ⟨hbusy, hord⟩ := ih
    refine ⟨?_, ?_⟩
    · intro r' hr'
      by_cases e : r' = r
      · subst e
        exact ⟨w.start now, WorkerTable.lookup_modify_same o.workers_ r' _ w hw, rfl⟩
      · have e' : ¬ r = r' := fun x => e x.symm
        have hout : Trace.outstanding r' o.runner_.trace = true := by
          simpa [MPIRunner.SendCase, MPIRunner.printMessage, Trace.outstanding, e'] using hr'
        obtain ⟨w', hw', hb'⟩ := hbusy r' hout
        exact ⟨w', by rw [WorkerTable.lookup_modify_ne o.workers_ r r' _ e]; exact hw', hb'⟩
    · refine ⟨by intro c' d e; simp [MPIRunner.printMessage] at e, ?_, hord⟩
      intro c' d e
      simp only [Event.SendCase.injEq] at e
      obtain ⟨_, rfl, _⟩ := e
      by_contra hout
      have hout' : Trace.outstanding r o.runner_.trace = true := by simpa using hout
      obtain ⟨w', hw', hb'⟩ := hbusy r hout'
      rw [hw] at hw'
      cases hw'
      rw [hb] at hb'
      cases hb'
  | recv o c r v o' hreach hret ih =>
    obtain ⟨w, hw, _, heq⟩ := Overseer.RecvEvaluatedCase_returned o c r v o' hret
    subst heq
    obtain ⟨hbusy, hord⟩ := ih
    refine ⟨?_, ?_⟩
    · intro r' hr'
      by_cases e : r' = r
      · subst e
        simp [MPIRunner.RecvCase, MPIRunner.printMessage, Trace.outstanding] at hr'
      · have e' : ¬ r = r' := fun x => e x.symm
        have hout : Trace.outstanding r' o.runner_.trace = true := by
          simpa [MPIRunner.RecvCase, MPIRunner.printMessage, Trace.outstanding, e'] using hr'
        obtain ⟨w', hw', hb'⟩ := hbusy r' hout
        exact ⟨w', by rw [WorkerTable.lookup_modify_ne o.workers_ r r' _ e]; exact hw', hb'⟩
    · refine ⟨by intro c' d e; simp [MPIRunner.printMessage] at e, ?_, hord⟩
      intro c' d e
      simp [MPIRunner.RecvCase] at e
  | terminate o _ ih =>
    obtain ⟨hbusy, hord⟩ := ih
    refine ⟨?_, ?_⟩
    · intro r hr
      simp only [Overseer.TerminateWorkers, Overseer.terminateLoop_outstanding] at hr
      exact hbusy r hr
    · exact Overseer.terminateLoop_ordered _ _ _ hord

/-- C4: in every reachable state, an `AssignCase` that returns has sent its
case to a worker whose busy flag was not set, and in the trace so far (most
recent event first) any two CASE_UNEVAL messages sent to the same rank `r` have
a CASE_EVAL received from `r` between them. -/
theorem Overseer.one_outstanding_case (o : Overseer) (h : Overseer.Reachable o) :
    (∀ c now o', o.AssignCase c now = Outcome.returned () o' →
      ∃ r w, WorkerTable.lookup o.workers_ r = some w ∧ w.working = false ∧
        o'.runner_.trace =
          Event.printMessage ("Assigned case to worker " ++ toString r) ::
            Event.SendCase c r MsgTag.CASE_UNEVAL :: o.runner_.trace) ∧
    (∀ post mid pre c1 c2 r,
      o.runner_.trace =
        post ++ Event.SendCase c2 r MsgTag.CASE_UNEVAL ::
          (mid ++ Event.SendCase c1 r MsgTag.CASE_UNEVAL :: pre) →
      ∃ c, Event.RecvCase c r MsgTag.CASE_EVAL ∈ mid) := by
  refine ⟨?_, ?_⟩
  · intro c now o' hret
    have hwf := Overseer.Reachable.wf o h
    obtain ⟨r, w, _, _, hw, _, hb, _, heq⟩ :=
      Overseer.AssignCase_spec o c now hwf (Overseer.AssignCase_returned_pos o c now hwf o' hret)
    rw [heq] at hret
    cases hret
    exact ⟨r, w, hw, hb, rfl⟩
  · intro post mid pre c1 c2 r htrace
    have hord := (Overseer.Reachable.inv o h).2
    rw [htrace] at hord
    have hsuf := Trace.ordered_suffix post _ hord
    exact Trace.recv_of_not_outstanding r c1 mid pre (hsuf.1 c2 r rfl)

/-- Witness for C4: worker 1 was sent case 7 and later case 9, with its
result for case 7 received in between. -/
theorem Overseer.one_outstanding_case_witness :
    (∀ c now o', Examples.pool3_again.AssignCase c now = Outcome.returned () o' →
      ∃ r w, WorkerTable.lookup Examples.pool3_again.workers_ r = some w ∧ w.working = false ∧
        o'.runner_.trace =
          Event.printMessage ("Assigned case to worker " ++ toString r) ::
            Event.SendCase c r MsgTag.CASE_UNEVAL :: Examples.pool3_again.runner_.trace) ∧
    (∀ post mid pre c1 c2 r,
      Examples.pool3_again.runner_.trace =
        post ++ Event.SendCase c2 r MsgTag.CASE_UNEVAL ::
          (mid ++ Event.SendCase c1 r MsgTag.CASE_UNEVAL :: pre) →
      ∃ c, Event.RecvCase c r MsgTag.CASE_EVAL ∈ mid) :=
  Overseer.one_outstanding_case Examples.pool3_again
    (Overseer.Reachable.assign Examples.pool3_second { id := 9 } 12 _
      (Overseer.Reachable.recv Examples.pool3_full { id := 7 } 1 { id := 7 } _
        (Overseer.Reachable.assign Examples.pool3_one { id := 8 } 10 _
          (Overseer.Reachable.assign Examples.pool3 { id := 7 } 10 _
            (Overseer.Reachable.init 3 (by decide)) (by decide))
          (by decide))
        (by decide))
      (by decide))

/-! ## Filling and draining a fresh pool -/

theorem Overseer.AssignCase_free (o : Overseer) (c : Case) (now : Nat) (h : o.WF)
    (o' : Overseer) (hret : o.AssignCase c now = Outcome.returned () o') :
    o'.WF ∧ o'.runner_.world_size = o.runner_.world_size ∧
      WorkerTable.idleIn o'.workers_ 1 (o.runner_.world_size - 1) + 1
        = WorkerTable.idleIn o.workers_ 1 (o.runner_.world_size - 1) := by
  obtain ⟨r, w, hr1, hr2, hw, _, hb, _, heq⟩ :=
    Overseer.AssignCase_spec o c now h (Overseer.AssignCase_returned_pos o c now h o' hret)
  rw [heq] at hret
  cases hret
  refine ⟨Overseer.WF.modify o h _ rfl r _ (fun _ => rfl), rfl, ?_⟩
  have hm := WorkerTable.idleIn_modify o.workers_ r (fun w => w.start now) w 1
    (o.runner_.world_size - 1) hr1 (by omega) hw
  simpa [hb, WorkerStatus.start] using hm

theorem Overseer.RecvEvaluatedCase_free (o : Overseer) (c : Case) (r : Nat) (h : o.WF)
    (w : WorkerStatus) (hr1 : 1 ≤ r) (hr2 : r < o.runner_.world_size)
    (hw : WorkerTable.lookup o.workers_ r = some w) (hb : w.working = true) :
    ∃ o', o.RecvEvaluatedCase c r = Outcome.returned c o' ∧ o'.WF ∧
      o'.runner_.world_size = o.runner_.world_size ∧
      WorkerTable.idleIn o'.workers_ 1 (o.runner_.world_size - 1)
        = WorkerTable.idleIn o.workers_ 1 (o.runner_.world_size - 1) + 1 := by
  refine ⟨_, Overseer.RecvEvaluatedCase_spec o c r w hw,
    Overseer.WF.modify o h _ rfl r _ (fun _ => rfl), rfl, ?_⟩
  have hm := WorkerTable.idleIn_modify o.workers_ r (fun w => w.stop) w 1
    (o.runner_.world_size - 1) hr1 (by omega) hw
  simpa [hb, WorkerStatus.stop] using hm

theorem Overseer.assignAll_free (o : Overseer) (jobs : List (Case × Nat)) (h : o.WF)
    (hk : jobs.length ≤ WorkerTable.idleIn o.workers_ 1 (o.runner_.world_size - 1)) :
    ∃ o', o.assignAll jobs = Outcome.returned () o' ∧ o'.WF ∧
      o'.runner_.world_size = o.runner_.world_size ∧
      WorkerTable.idleIn o'.workers_ 1 (o.runner_.world_size - 1) + jobs.length
        = WorkerTable.idleIn o.workers_ 1 (o.runner_.world_size - 1) := by
  induction jobs generalizing o with
  | nil => exact ⟨o, rfl, h, rfl, rfl⟩
  | cons job rest ih =>
    obtain ⟨c, now⟩ := job
    simp only [List.length_cons] at hk
    obtain ⟨r, w, _, _, _, _, _, _, heq⟩ := Overseer.AssignCase_spec o c now h (by omega)
    obtain ⟨hwf1, hsize1, hidle1⟩ := Overseer.AssignCase_free o c now h _ heq
    have hk1 : rest.length ≤ WorkerTable.idleIn
        (WorkerTable.modify o.workers_ r (fun w => w.start now)) 1
        (o.runner_.world_size - 1) := by
      have := hidle1
      simp only [] at this
      omega
    obtain ⟨o2, hrun, hwf2, hsize2, hidle2⟩ := ih _ hwf1 hk1
    refine ⟨o2, ?_, hwf2, ?_, ?_⟩
    · simp only [Overseer.assignAll, heq]
      exact hrun
    · rw [hsize2]
      rfl
    · simp only [List.length_cons]
      have h1 := hidle1
      have h2 := hidle2
      simp only [] at h1 h2
      have e : ({ runner_ := (o.runner_.SendCase c r MsgTag.CASE_UNEVAL).printMessage
                    ("Assigned case to worker " ++ toString r),
                  workers_ := WorkerTable.modify o.workers_ r (fun w => w.start now) }
                : Overseer).runner_.world_size = o.runner_.world_size := rfl
      rw [e] at h2
      omega

theorem Overseer.new_idle (runner : MPIRunner) :
    WorkerTable.idleIn (Overseer.new runner).workers_ 1 (runner.world_size - 1)
      = runner.world_size - 1 := by
  obtain ⟨hkeys, hnew⟩ := Overseer.new_workers runner
  apply WorkerTable.idleIn_all_idle
  intro j h1 h2
  have hj : j ∈ (Overseer.new runner).workers_.map Prod.fst := by
    rw [hkeys, List.mem_range'_1]
    omega
  obtain ⟨w, hw, hmem⟩ := WorkerTable.lookup_of_mem_keys _ j hj
  refine ⟨w, hw, ?_⟩
  have e : w = WorkerStatus.new j := hnew (j, w) hmem
  rw [e]
  rfl

/-- C5: on a freshly constructed pool of `N` workers, `k ≤ N` successive
`AssignCase` calls all return and leave `N - k` free workers; when `k = N` a
further `AssignCase` throws and leaves the pool as it is, and a
`RecvEvaluatedCase` from any worker rank then returns and leaves exactly one
free worker. -/
theorem Overseer.assign_then_receive_counts (N : Nat) (jobs : List (Case × Nat))
    (hk : jobs.length ≤ N) :
    ∃ o', (Overseer.new { world_size := N + 1 }).assignAll jobs = Outcome.returned () o' ∧
      o'.NumberOfFreeWorkers = some (N - jobs.length) ∧
      (jobs.length = N →
        (∀ c now, o'.AssignCase c now
          = Outcome.thrown "Cannot assign Case. No free workers found." o') ∧
        ∀ c r, 1 ≤ r → r ≤ N →
          ∃ o'', o'.RecvEvaluatedCase c r = Outcome.returned c o'' ∧
            o''.NumberOfFreeWorkers = some 1) := by
  have hwf0 := Overseer.new_WF { world_size := N + 1 } (by simp)
  have hidle0 := Overseer.new_idle { world_size := N + 1 }
  have hs0 : (Overseer.new { world_size := N + 1 }).runner_.world_size = N + 1 := rfl
  simp only [Nat.add_sub_cancel] at hidle0
  obtain ⟨o', hrun, hwf, hsize, hidle⟩ :=
    Overseer.assignAll_free (Overseer.new { world_size := N + 1 }) jobs hwf0
      (by rw [hs0]; simpa [hidle0] using hk)
  rw [hs0] at hsize hidle
  simp only [Nat.add_sub_cancel, hidle0] at hidle
  have hfree : o'.NumberOfFreeWorkers = some (N - jobs.length) := by
    rw [Overseer.WF.free o' hwf, hsize]
    simp only [Nat.add_sub_cancel]
    congr 1
    omega
  refine ⟨o', hrun, hfree, ?_⟩
  intro hN
  have hzero : WorkerTable.idleIn o'.workers_ 1 (o'.runner_.world_size - 1) = 0 := by
    rw [hsize]
    simp only [Nat.add_sub_cancel]
    omega
  refine ⟨?_, ?_⟩
  · intro c now
    apply Overseer.AssignCase_thrown
    rw [hfree, hN]
    simp
  · intro c r hr1 hr2
    obtain ⟨w, hw, _⟩ := Overseer.WF.lookup_rank o' hwf r hr1 (by omega)
    have hb := WorkerTable.idleIn_zero o'.workers_ 1 (o'.runner_.world_size - 1) hzero r hr1
      (by omega) w hw
    obtain ⟨o'', hret, hwf2, hsize2, hidle2⟩ :=
      Overseer.RecvEvaluatedCase_free o' c r hwf w hr1 (by omega) hw hb
    refine ⟨o'', hret, ?_⟩
    rw [Overseer.WF.free o'' hwf2, hsize2, hidle2, hzero]

/-- Witness for C5: a pool of 4 workers and 4 assignments. -/
theorem Overseer.assign_then_receive_counts_witness :
    ∃ o', (Overseer.new { world_size := 4 + 1 }).assignAll
        [({ id := 1 }, 10), ({ id := 2 }, 11), ({ id := 3 }, 12), ({ id := 4 }, 13)]
          = Outcome.returned () o' ∧
      o'.NumberOfFreeWorkers = some (4 - 4) ∧
      (4 = 4 →
        (∀ c now, o'.AssignCase c now
          = Outcome.thrown "Cannot assign Case. No free workers found." o') ∧
        ∀ c r, 1 ≤ r → r ≤ 4 →
          ∃ o'', o'.RecvEvaluatedCase c r = Outcome.returned c o'' ∧
            o''.NumberOfFreeWorkers = some 1) :=
  Overseer.assign_then_receive_counts 4
    [({ id := 1 }, 10), ({ id := 2 }, 11), ({ id := 3 }, 12), ({ id := 4 }, 13)] (by decide)

/-! ## The longest running worker -/

theorem Overseer.longestLoop_key (ws : WorkerTable) (now i n : Nat) (t : Int) (r : Option Nat)
    (hdef : ∀ j, i ≤ j → j < i + n → ∃ w, WorkerTable.lookup ws j = some w ∧ w.rank = j) :
    ∃ t' r', Overseer.longestLoop ws now i n t r = some (t', r') ∧
      (r' = r ∨ ∃ j, i ≤ j ∧ j < i + n ∧ r' = some j) := by
  induction n generalizing i t r with
  | zero => exact ⟨t, r, rfl, Or.inl rfl⟩
  | succ n ih =>
    obtain ⟨w, hw, hrank⟩ := hdef i (le_refl _) (by omega)
    have hdef' : ∀ j, i + 1 ≤ j → j < i + 1 + n →
        ∃ w, WorkerTable.lookup ws j = some w ∧ w.rank = j :=
      fun j h1 h2 => hdef j (by omega) (by omega)
    by_cases hgt : w.working_seconds now > t
    · obtain ⟨t', r', hloop, hr'⟩ := ih (i + 1) (w.working_seconds now) (some w.rank) hdef'
      refine ⟨t', r', by simp [Overseer.longestLoop, hw, hgt, hloop], Or.inr ?_⟩
      rcases hr' with hr' | ⟨j, h1, h2, hj⟩
      · exact ⟨i, le_refl _, by omega, by rw [hr', hrank]⟩
      · exact ⟨j, by omega, by omega, hj⟩
    · obtain ⟨t', r', hloop, hr'⟩ := ih (i + 1) t r hdef'
      refine ⟨t', r', by simp [Overseer.longestLoop, hw, hgt, hloop], ?_⟩
      rcases hr' with hr' | ⟨j, h1, h2, hj⟩
      · exact Or.inl hr'
      · exact Or.inr ⟨j, by omega, by omega, hj⟩

/-- On a well-formed pool in which some worker is busy and no timer reads a
negative time, the loop of `GetLongestRunningWorker` picks a rank of the pool
and the worker stored under it is returned. -/
theorem Overseer.GetLongestRunningWorker_picks (o : Overseer) (now : Nat) (h : o.WF)
    (hclock : ∀ p ∈ o.workers_, 0 ≤ p.2.working_seconds now)
    (hf : ¬ (WorkerTable.idleIn o.workers_ 1 (o.runner_.world_size - 1) : Int)
      = (o.runner_.world_size : Int) - 1) :
    ∃ w, o.GetLongestRunningWorker now = some (some w) ∧ 1 ≤ w.rank ∧
      w.rank < o.runner_.world_size ∧ WorkerTable.lookup o.workers_ w.rank = some w := by
  have hfree := Overseer.WF.free o h
  have h1 : 1 ≤ o.runner_.world_size := h.1
  obtain ⟨m, hm⟩ : ∃ m, o.runner_.world_size - 1 = m + 1 := by
    cases hsz : o.runner_.world_size - 1 with
    | zero =>
      exfalso
      apply hf
      rw [hsz]
      simp only [WorkerTable.idleIn]
      omega
    | succ m => exact ⟨m, rfl⟩
  obtain ⟨w1, hw1, hmem1⟩ := WorkerTable.lookup_of_mem_keys o.workers_ 1 (by
    rw [h.2.1, List.mem_range'_1]
    omega)
  have hrank1 : w1.rank = 1 := h.2.2 (1, w1) hmem1
  have hpos : w1.working_seconds now > -1 := by
    have := hclock (1, w1) hmem1
    simp only at this
    omega
  obtain ⟨t2, r2, hloop, hr2⟩ :=
    Overseer.longestLoop_key o.workers_ now 2 m (w1.working_seconds now) (some w1.rank)
      (fun j hj1 hj2 => Overseer.WF.lookup_rank o h j (by omega) (by omega))
  have hstart : Overseer.longestLoop o.workers_ now 1 (o.runner_.world_size - 1) (-1) none
      = some (t2, r2) := by
    rw [hm, Overseer.longestLoop, hw1]
    simp only [hpos, if_true]
    exact hloop
  have hpick : ∃ j, 1 ≤ j ∧ j < o.runner_.world_size ∧ r2 = some j := by
    rcases hr2 with hr2 | ⟨j, hj1, hj2, hj⟩
    · exact ⟨1, le_refl 1, by omega, by rw [hr2, hrank1]⟩
    · exact ⟨j, by omega, by omega, hj⟩
  obtain ⟨j, hj1, hj2, rfl⟩ := hpick
  obtain ⟨w, hw, hrank⟩ := Overseer.WF.lookup_rank o h j hj1 hj2
  refine ⟨w, ?_, by omega, by omega, by rw [hrank]; exact hw⟩
  simp [Overseer.GetLongestRunningWorker, hfree, hf, hstart, hw]

/-- C6: on a well-formed pool, at any clock reading, `GetLongestRunningWorker()`
returns the null pointer if and only if `NumberOfBusyWorkers()` is 0. When no
timer reads a negative time (the clock is not behind a start timestamp) the
call is defined: it returns the null pointer when nobody is busy and otherwise
a worker of the pool, stored under its own rank between 1 and size - 1. -/
theorem Overseer.GetLongestRunningWorker_null_iff (o : Overseer) (now : Nat) (h : o.WF) :
    (o.GetLongestRunningWorker now = some none ↔ o.NumberOfBusyWorkers = some 0) ∧
    ((∀ p ∈ o.workers_, 0 ≤ p.2.working_seconds now) →
      (o.NumberOfBusyWorkers = some 0 ∧ o.GetLongestRunningWorker now = some none) ∨
      (o.NumberOfBusyWorkers ≠ some 0 ∧
        ∃ w, o.GetLongestRunningWorker now = some (some w) ∧ 1 ≤ w.rank ∧
          w.rank < o.runner_.world_size ∧
          WorkerTable.lookup o.workers_ w.rank = some w)) := by
  have hfree := Overseer.WF.free o h
  have hlen := Overseer.WF.length o h
  have h1 : 1 ≤ o.runner_.world_size := h.1
  have hbusy : o.NumberOfBusyWorkers
      = some ((o.workers_.length : Int)
          - (WorkerTable.idleIn o.workers_ 1 (o.runner_.world_size - 1) : Int)) := by
    simp [Overseer.NumberOfBusyWorkers, hfree]
  rw [hbusy, hlen]
  by_cases hf : (WorkerTable.idleIn o.workers_ 1 (o.runner_.world_size - 1) : Int)
      = (o.runner_.world_size : Int) - 1
  · have hnull : o.GetLongestRunningWorker now = some none := by
      simp [Overseer.GetLongestRunningWorker, hfree, hf]
    have hzero : (some (((o.runner_.world_size - 1 : Nat) : Int)
        - (WorkerTable.idleIn o.workers_ 1 (o.runner_.world_size - 1) : Int)) : Option Int)
        = some 0 := by
      congr 1
      omega
    exact ⟨⟨fun _ => hzero, fun _ => hnull⟩, fun _ => Or.inl ⟨hzero, hnull⟩⟩
  · have hnz : (some (((o.runner_.world_size - 1 : Nat) : Int)
        - (WorkerTable.idleIn o.workers_ 1 (o.runner_.world_size - 1) : Int)) : Option Int)
        ≠ some 0 := by
      intro hzero
      apply hf
      have hz := Option.some.inj hzero
      omega
    refine ⟨⟨?_, fun hzero => absurd hzero hnz⟩, ?_⟩
    · intro hnull
      exfalso
      obtain ⟨t', r', hloop, hr'⟩ :=
        Overseer.longestLoop_key o.workers_ now 1 (o.runner_.world_size - 1) (-1) none
          (fun j h1 h2 => Overseer.WF.lookup_rank o h j h1 (by omega))
      rcases hr' with hr' | ⟨j, hj1, hj2, hj⟩
      · subst hr'
        simp [Overseer.GetLongestRunningWorker, hfree, hf, hloop] at hnull
      · subst hj
        obtain ⟨w, hw, _⟩ := Overseer.WF.lookup_rank o h j hj1 (by omega)
        simp [Overseer.GetLongestRunningWorker, hfree, hf, hloop, hw] at hnull
    · intro hclock
      exact Or.inr ⟨hnz, Overseer.GetLongestRunningWorker_picks o now h hclock hf⟩

/-- Witness for C6: in the fresh pool nobody is busy and the null pointer is
returned; with both workers busy since clock reading 10 the call at clock
reading 12 returns worker 1. -/
theorem Overseer.GetLongestRunningWorker_null_iff_witness :
    Examples.pool3.GetLongestRunningWorker 10 = some none ∧
    (Examples.pool3.GetLongestRunningWorker 10 = some none ↔
      Examples.pool3.NumberOfBusyWorkers = some 0) ∧
    Examples.pool3_full.NumberOfBusyWorkers = some 2 ∧
    Examples.pool3_full.GetLongestRunningWorker 12
      = some (some { rank := 1, working := true, working_since := some 10 }) ∧
    ((Examples.pool3_full.NumberOfBusyWorkers = some 0 ∧
        Examples.pool3_full.GetLongestRunningWorker 12 = some none) ∨
      (Examples.pool3_full.NumberOfBusyWorkers ≠ some 0 ∧
        ∃ w, Examples.pool3_full.GetLongestRunningWorker 12 = some (some w) ∧ 1 ≤ w.rank ∧
          w.rank < Examples.pool3_full.runner_.world_size ∧
          WorkerTable.lookup Examples.pool3_full.workers_ w.rank = some w)) :=
  ⟨by decide,
    (Overseer.GetLongestRunningWorker_null_iff Examples.pool3 10 (by decide)).1,
    by decide, by decide,
    (Overseer.GetLongestRunningWorker_null_iff Examples.pool3_full 12 (by decide)).2
      (by decide)⟩

/-- C7, evaluated on the code: in the reachable pool where worker 1 is idle
again and worker 2 was started at clock reading 10, `GetLongestRunningWorker()`
called at clock reading 10 returns worker 1, whose busy flag is not set, although
worker 2 is busy. -/
theorem Overseer.GetLongestRunningWorker_returns_idle :
    Overseer.Reachable Examples.pool3_second ∧
    Examples.pool3_second.NumberOfBusyWorkers = some 1 ∧
    WorkerTable.lookup Examples.pool3_second.workers_ 2
      = some { rank := 2, working := true, working_since := some 10 } ∧
    Examples.pool3_second.GetLongestRunningWorker 10
      = some (some { rank := 1, working := false, working_since := none }) :=
  ⟨Examples.pool3_second_reachable, by decide, by decide, by decide⟩

/-! ## Receiving and terminating -/

/-- C8 as stated fails: the value `RecvEvaluatedCase` returns is the same when
the same case arrives from worker 1 and from worker 2, so no worker identity
can be read off it. -/
theorem Overseer.RecvEvaluatedCase_identity_not_returned :
    ¬ ∃ identity : Case → Nat, ∀ r, r = 1 ∨ r = 2 → ∀ v o',
        Examples.pool3_full.RecvEvaluatedCase { id := 7 } r = Outcome.returned v o' →
        identity v = r := by
  rintro ⟨identity, hid⟩
  have h1 := hid 1 (Or.inl rfl) { id := 7 } _
    (Overseer.RecvEvaluatedCase_spec Examples.pool3_full { id := 7 } 1
      { rank := 1, working := true, working_since := some 10 } (by decide))
  have h2 := hid 2 (Or.inr rfl) { id := 7 } _
    (Overseer.RecvEvaluatedCase_spec Examples.pool3_full { id := 7 } 2
      { rank := 2, working := true, working_since := some 10 } (by decide))
  omega

/-- C8, amended: when the message that arrives comes from a worker `r` of the
table (busy in particular), `RecvEvaluatedCase()` returns exactly the received
case and nothing else; it marks `r` idle with its timer cleared, leaves the
entry of every other rank unchanged, and the rank only appears in the printed
message. -/
theorem Overseer.RecvEvaluatedCase_marks_idle (o : Overseer) (c : Case) (r : Nat)
    (w : WorkerStatus) (hw : WorkerTable.lookup o.workers_ r = some w) :
    ∃ o', o.RecvEvaluatedCase c r = Outcome.returned c o' ∧
      WorkerTable.lookup o'.workers_ r = some { w with working := false, working_since := none } ∧
      (∀ j, j ≠ r → WorkerTable.lookup o'.workers_ j = WorkerTable.lookup o.workers_ j) ∧
      o'.runner_.trace =
        Event.printMessage ("Received case from worker " ++ toString r) ::
          Event.RecvCase c r MsgTag.CASE_EVAL :: o.runner_.trace := by
  refine ⟨_, Overseer.RecvEvaluatedCase_spec o c r w hw, ?_, ?_, rfl⟩
  · exact WorkerTable.lookup_modify_same o.workers_ r _ w hw
  · intro j hj
    exact WorkerTable.lookup_modify_ne o.workers_ r j _ hj

/-- Witness for C8, amended: worker 1 of the full pool hands back case 7. -/
theorem Overseer.RecvEvaluatedCase_marks_idle_witness :
    Examples.pool3_full.RecvEvaluatedCase { id := 7 } 1
      = Outcome.returned { id := 7 } Examples.pool3_second ∧
    ∃ o', Examples.pool3_full.RecvEvaluatedCase { id := 7 } 1 = Outcome.returned { id := 7 } o' ∧
      WorkerTable.lookup o'.workers_ 1 = some { rank := 1, working := false, working_since := none } ∧
      (∀ j, j ≠ 1 →
        WorkerTable.lookup o'.workers_ j = WorkerTable.lookup Examples.pool3_full.workers_ j) ∧
      o'.runner_.trace =
        Event.printMessage ("Received case from worker " ++ toString 1) ::
          Event.RecvCase { id := 7 } 1 MsgTag.CASE_EVAL :: Examples.pool3_full.runner_.trace :=
  ⟨by decide,
    Overseer.RecvEvaluatedCase_marks_idle Examples.pool3_full { id := 7 } 1
      { rank := 1, working := true, working_since := some 10 } (by decide)⟩

theorem Overseer.terminateLoop_trace (i n : Nat) (r : MPIRunner) :
    (Overseer.terminateLoop i n r).trace
      = (List.range' i n).reverse.map (fun j => Event.SendCase Case.default j MsgTag.TERMINATE)
          ++ r.trace := by
  induction n generalizing i r with
  | zero => simp [Overseer.terminateLoop]
  | succ n ih =>
    simp only [Overseer.terminateLoop]
    rw [ih, List.range'_succ]
    simp [MPIRunner.SendCase]

/-- C9: in any pool state `TerminateWorkers()` leaves the worker table as it is
and adds to the trace (most recent first) exactly one TERMINATE message for
each rank `1 .. size - 1`, in increasing order of rank, and nothing else. -/
theorem Overseer.TerminateWorkers_sends_each_once (o : Overseer) :
    o.TerminateWorkers.workers_ = o.workers_ ∧
    o.TerminateWorkers.runner_.world_size = o.runner_.world_size ∧
    o.TerminateWorkers.runner_.trace
      = (List.range' 1 (o.runner_.world_size - 1)).reverse.map
          (fun j => Event.SendCase Case.default j MsgTag.TERMINATE) ++ o.runner_.trace := by
  refine ⟨rfl, ?_, ?_⟩
  · simp [Overseer.TerminateWorkers, Overseer.terminateLoop_world_size]
  · simp only [Overseer.TerminateWorkers]
    exact Overseer.terminateLoop_trace 1 _ o.runner_

/-! ## Construction -/

theorem Overseer.Reachable.broadcast_first (o : Overseer) (h : Overseer.Reachable o) :
    ∃ evs, o.runner_.trace = evs ++ [Event.BroadcastModel] := by
  induction h with
  | init size h =>
    exact ⟨[Event.printMessage "Initialized overseer."], rfl⟩
  | assign o c now o' hreach hret ih =>
    have hwf := Overseer.Reachable.wf o hreach
    obtain ⟨r, w, _, _, _, _, _, _, heq⟩ :=
      Overseer.AssignCase_spec o c now hwf (Overseer.AssignCase_returned_pos o c now hwf o' hret)
    rw [heq] at hret
    cases hret
    obtain ⟨evs, hevs⟩ := ih
    refine ⟨Event.printMessage ("Assigned case to worker " ++ toString r) ::
      Event.SendCase c r MsgTag.CASE_UNEVAL :: evs, ?_⟩
    simp [MPIRunner.printMessage, MPIRunner.SendCase, hevs]
  | recv o c r v o' hreach hret ih =>
    obtain ⟨w, _, _, heq⟩ := Overseer.RecvEvaluatedCase_returned o c r v o' hret
    subst heq
    obtain ⟨evs, hevs⟩ := ih
    refine ⟨Event.printMessage ("Received case from worker " ++ toString r) ::
      Event.RecvCase c r MsgTag.CASE_EVAL :: evs, ?_⟩
    simp [MPIRunner.printMessage, MPIRunner.RecvCase, hevs]
  | terminate o _ ih =>
    obtain ⟨evs, hevs⟩ := ih
    refine ⟨(List.range' 1 (o.runner_.world_size - 1)).reverse.map
      (fun j => Event.SendCase Case.default j MsgTag.TERMINATE) ++ evs, ?_⟩
    simp only [Overseer.TerminateWorkers]
    rw [Overseer.terminateLoop_trace, hevs, List.append_assoc]

/-- C20: constructing an overseer on a runner whose communicator has size
`s ≥ 1` adds to the runner's trace the model broadcast and then the
"initialized" line, and no case message; the worker table holds exactly the
ranks `1 .. s - 1`, each a new idle handle carrying its rank, so
`NumberOfFreeWorkers()` is `s - 1` and `NumberOfBusyWorkers()` is 0. In every
state reachable from a construction on a runner that has done nothing yet, the
broadcast is the oldest event of the trace, so every case message comes after
it. -/
theorem Overseer.new_registers_workers (runner : MPIRunner) (h : 1 ≤ runner.world_size) :
    (Overseer.new runner).runner_.trace
      = Event.printMessage "Initialized overseer." :: Event.BroadcastModel :: runner.trace ∧
    (Overseer.new runner).runner_.world_size = runner.world_size ∧
    (Overseer.new runner).workers_.map Prod.fst = List.range' 1 (runner.world_size - 1) ∧
    (∀ p ∈ (Overseer.new runner).workers_,
      p.2 = { rank := p.1, working := false, working_since := none }) ∧
    (Overseer.new runner).NumberOfFreeWorkers = some (runner.world_size - 1) ∧
    (Overseer.new runner).NumberOfBusyWorkers = some 0 ∧
    (∀ o, Overseer.Reachable o → ∃ evs, o.runner_.trace = evs ++ [Event.BroadcastModel]) := by
  obtain ⟨hkeys, hnew⟩ := Overseer.new_workers runner
  have hwf := Overseer.new_WF runner h
  have hfree : (Overseer.new runner).NumberOfFreeWorkers = some (runner.world_size - 1) := by
    rw [Overseer.WF.free _ hwf]
    exact congrArg some (Overseer.new_idle runner)
  have hlen := Overseer.WF.length _ hwf
  have hsize : (Overseer.new runner).runner_.world_size = runner.world_size := rfl
  refine ⟨rfl, rfl, hkeys, hnew, hfree, ?_, Overseer.Reachable.broadcast_first⟩
  simp only [Overseer.NumberOfBusyWorkers, hfree, hlen, hsize]
  simp

/-- Witness for C20: a communicator of size 3. -/
theorem Overseer.new_registers_workers_witness :
    (Overseer.new { world_size := 3 }).workers_
      = [(1, { rank := 1, working := false, working_since := none }),
         (2, { rank := 2, working := false, working_since := none })] ∧
    (Overseer.new { world_size := 3 }).NumberOfFreeWorkers = some 2 ∧
    (Overseer.new { world_size := 3 }).NumberOfBusyWorkers = some 0 ∧
    (Overseer.new { world_size := 3 }).runner_.trace
      = [Event.printMessage "Initialized overseer.", Event.BroadcastModel] :=
  ⟨by decide,
    (Overseer.new_registers_workers { world_size := 3 } (by decide)).2.2.2.2.1,
    (Overseer.new_registers_workers { world_size := 3 } (by decide)).2.2.2.2.2.1,
    (Overseer.new_registers_workers { world_size := 3 } (by decide)).1⟩

end Runner

namespace Optimization

namespace Optimizers

/-- C10: `IsFinished()` returns MAX_EVALS_REACHED when the number of evaluated
cases is at least the budget; otherwise MINIMUM_STEP_LENGTH_REACHED when the
radius is below the minimum radius; otherwise NOT_FINISHED. So the budget takes
priority when both conditions hold, and a radius equal to the minimum radius
is not terminal. -/
theorem TrustRegionSearch.IsFinished_cases (s : TrustRegionSearch) :
    (s.max_evaluations_ ≤ (s.case_handler_.EvaluatedCases.length : Int) →
      s.IsFinished = TerminationCondition.MAX_EVALS_REACHED) ∧
    ((s.case_handler_.EvaluatedCases.length : Int) < s.max_evaluations_ →
      s.radius_ < s.minimum_radius_ →
      s.IsFinished = TerminationCondition.MINIMUM_STEP_LENGTH_REACHED) ∧
    ((s.case_handler_.EvaluatedCases.length : Int) < s.max_evaluations_ →
      ¬ s.radius_ < s.minimum_radius_ →
      s.IsFinished = TerminationCondition.NOT_FINISHED) ∧
    (s.max_evaluations_ ≤ (s.case_handler_.EvaluatedCases.length : Int) →
      s.radius_ < s.minimum_radius_ →
      s.IsFinished = TerminationCondition.MAX_EVALS_REACHED) ∧
    ((s.case_handler_.EvaluatedCases.length : Int) < s.max_evaluations_ →
      s.radius_ = s.minimum_radius_ →
      s.IsFinished = TerminationCondition.NOT_FINISHED) := by
  refine ⟨?_, ?_, ?_, ?_, ?_⟩
  · intro hn
    simp [TrustRegionSearch.IsFinished, hn]
  · intro hn hr
    have hn' : ¬ s.max_evaluations_ ≤ (s.case_handler_.EvaluatedCases.length : Int) := by omega
    simp [TrustRegionSearch.IsFinished, hn', hr]
  · intro hn hr
    have hn' : ¬ s.max_evaluations_ ≤ (s.case_handler_.EvaluatedCases.length : Int) := by omega
    simp [TrustRegionSearch.IsFinished, hn', hr]
  · intro hn _
    simp [TrustRegionSearch.IsFinished, hn]
  · intro hn hr
    have hn' : ¬ s.max_evaluations_ ≤ (s.case_handler_.EvaluatedCases.length : Int) := by omega
    have hr' : ¬ s.radius_ < s.minimum_radius_ := by
      rw [hr]
      exact lt_irrefl _
    simp [TrustRegionSearch.IsFinished, hn', hr']

/-- Witness for C10: with the budget spent and the radius below the floor the
answer is MAX_EVALS_REACHED; within budget and with the radius at the floor it
is NOT_FINISHED. -/
theorem TrustRegionSearch.IsFinished_cases_witness :
    Examples.spent.IsFinished = TerminationCondition.MAX_EVALS_REACHED ∧
    Examples.at_floor.IsFinished = TerminationCondition.NOT_FINISHED :=
  ⟨(TrustRegionSearch.IsFinished_cases Examples.spent).2.2.2.1
      (by simp [Examples.spent, CaseHandler.EvaluatedCases])
      (by norm_num [Examples.spent]),
    (TrustRegionSearch.IsFinished_cases Examples.at_floor).2.2.2.2
      (by simp [Examples.at_floor, CaseHandler.EvaluatedCases])
      (by simp [Examples.at_floor])⟩

/-! ## The radius -/

/-- C11: `scaleRadius(k)` sets the radius to `k` times its previous value, for
every `k` (positive or not), and changes no other field of the search: the
minimum radius, the incumbent, the iteration counter, the case store, the
model, the budget and the calls made so far. -/
theorem TrustRegionSearch.scaleRadius_exact (s : TrustRegionSearch) (k : ℚ) :
    (s.scaleRadius k).radius_ = k * s.radius_ ∧
    (s.scaleRadius k).minimum_radius_ = s.minimum_radius_ ∧
    (s.scaleRadius k).tentative_best_case_ = s.tentative_best_case_ ∧
    (s.scaleRadius k).iteration_ = s.iteration_ ∧
    (s.scaleRadius k).case_handler_ = s.case_handler_ ∧
    (s.scaleRadius k).polymodel_ = s.polymodel_ ∧
    (s.scaleRadius k).max_evaluations_ = s.max_evaluations_ ∧
    (s.scaleRadius k).calls_ = s.calls_ :=
  ⟨rfl, rfl, rfl, rfl, rfl, rfl, rfl, rfl⟩

theorem TrustRegionSearch.shrinks_fields (n : Nat) (s : TrustRegionSearch) :
    (s.shrinks n).radius_ = (1 / 2) ^ n * s.radius_ ∧
    (s.shrinks n).minimum_radius_ = s.minimum_radius_ ∧
    (s.shrinks n).max_evaluations_ = s.max_evaluations_ ∧
    (s.shrinks n).case_handler_ = s.case_handler_ := by
  induction n generalizing s with
  | zero => simp [TrustRegionSearch.shrinks]
  | succ n ih =>
    obtain ⟨h1, h2, h3, h4⟩ := ih (s.scaleRadius (1 / 2))
    have e : s.shrinks (n + 1) = (s.scaleRadius (1 / 2)).shrinks n := rfl
    rw [e]
    refine ⟨?_, h2, h3, h4⟩
    rw [h1]
    simp only [TrustRegionSearch.scaleRadius]
    ring

theorem TrustRegionSearch.half_pow_ge (n : Nat) (h : n ≤ 6) :
    ¬ ((1 / 2 : ℚ) ^ n * 1 < 1 / 100) := by
  have h6 : (1 / 2 : ℚ) ^ 6 ≤ (1 / 2 : ℚ) ^ n :=
    pow_le_pow_of_le_one (by norm_num) (by norm_num) h
  have e : (1 / 2 : ℚ) ^ 6 = 1 / 64 := by norm_num
  rw [e] at h6
  intro hlt
  have : (1 / 64 : ℚ) < 1 / 100 := by linarith
  norm_num at this

theorem TrustRegionSearch.half_pow_lt (n : Nat) (h : 7 ≤ n) :
    (1 / 2 : ℚ) ^ n * 1 < 1 / 100 := by
  have h7 : (1 / 2 : ℚ) ^ n ≤ (1 / 2 : ℚ) ^ 7 :=
    pow_le_pow_of_le_one (by norm_num) (by norm_num) h
  have e : (1 / 2 : ℚ) ^ 7 = 1 / 128 := by norm_num
  rw [e] at h7
  have : (1 / 128 : ℚ) < 1 / 100 := by norm_num
  linarith

/-- C12: take a search with budget 10, minimum radius 0.01 and radius 1, and
apply `scaleRadius(0.5)` `n` times. Whatever the case store holds then, as long
as fewer than 10 cases are evaluated `IsFinished()` is NOT_FINISHED for every
`n ≤ 6` and MINIMUM_STEP_LENGTH_REACHED for every `n ≥ 7`; once 10 cases are
evaluated it is MAX_EVALS_REACHED. -/
theorem TrustRegionSearch.shrinks_reach_minimum (s : TrustRegionSearch) (n : Nat)
    (hmax : s.max_evaluations_ = 10) (hmin : s.minimum_radius_ = 1 / 100)
    (hr : s.radius_ = 1) (h : CaseHandler) :
    ((h.EvaluatedCases.length : Int) < 10 → n ≤ 6 →
      ({ s.shrinks n with case_handler_ := h }).IsFinished
        = TerminationCondition.NOT_FINISHED) ∧
    ((h.EvaluatedCases.length : Int) < 10 → 7 ≤ n →
      ({ s.shrinks n with case_handler_ := h }).IsFinished
        = TerminationCondition.MINIMUM_STEP_LENGTH_REACHED) ∧
    (10 ≤ (h.EvaluatedCases.length : Int) →
      ({ s.shrinks n with case_handler_ := h }).IsFinished
        = TerminationCondition.MAX_EVALS_REACHED) := by
  obtain ⟨h1, h2, h3, _⟩ := TrustRegionSearch.shrinks_fields n s
  rw [hr] at h1
  rw [hmin] at h2
  rw [hmax] at h3
  refine ⟨?_, ?_, ?_⟩
  · intro hlt hn
    have hb : ¬ (10 : Int) ≤ (h.EvaluatedCases.length : Int) := by omega
    have hrad := TrustRegionSearch.half_pow_ge n hn
    simp only [TrustRegionSearch.IsFinished, h1, h2, h3, ge_iff_le, hb, hrad, if_false]
  · intro hlt hn
    have hb : ¬ (10 : Int) ≤ (h.EvaluatedCases.length : Int) := by omega
    have hrad := TrustRegionSearch.half_pow_lt n hn
    simp only [TrustRegionSearch.IsFinished, h1, h2, h3, ge_iff_le, hb, hrad, if_false, if_true]
  · intro hge
    simp only [TrustRegionSearch.IsFinished, h3, ge_iff_le, hge, if_true]

/-- Witness for C12: six shrinks of the example search leave it running,
seven end it. -/
theorem TrustRegionSearch.shrinks_reach_minimum_witness :
    (Examples.start.shrinks 6).IsFinished = TerminationCondition.NOT_FINISHED ∧
    (Examples.start.shrinks 7).IsFinished
      = TerminationCondition.MINIMUM_STEP_LENGTH_REACHED :=
  ⟨(TrustRegionSearch.shrinks_reach_minimum Examples.start 6 rfl rfl rfl
      (Examples.start.shrinks 6).case_handler_).1 (by decide) (by decide),
    (TrustRegionSearch.shrinks_reach_minimum Examples.start 7 rfl rfl rfl
      (Examples.start.shrinks 7).case_handler_).2.1 (by decide) (by decide)⟩

/-! ## The case store -/

theorem CaseHandler.AddNewCase_evaluated (h : CaseHandler) (c : Case) :
    (h.AddNewCase c).evaluated_cases = h.evaluated_cases ∧
    (h.AddNewCase c).recently_evaluated_cases = h.recently_evaluated_cases := by
  unfold CaseHandler.AddNewCase
  split <;> exact ⟨rfl, rfl⟩

theorem CaseHandler.AddNewCases_evaluated (h : CaseHandler) (cs : List Case) :
    (h.AddNewCases cs).evaluated_cases = h.evaluated_cases ∧
    (h.AddNewCases cs).recently_evaluated_cases = h.recently_evaluated_cases := by
  induction cs generalizing h with
  | nil => exact ⟨rfl, rfl⟩
  | cons c cs ih =>
    have h1 := ih (h.AddNewCase c)
    have h2 := CaseHandler.AddNewCase_evaluated h c
    simp only [CaseHandler.AddNewCases, List.foldl_cons] at h1 ⊢
    exact ⟨h1.1.trans h2.1, h1.2.trans h2.2⟩

/-! ## The calls of one iteration, branch by branch -/

theorem TrustRegionSearch.completeModel_calls (x : Collaborators) (s : TrustRegionSearch) :
    (TrustRegionSearch.completeModel x s).calls_
      = Call.set_evaluations_complete :: Call.ClearCasesNotEval ::
          Call.AddNewCases (x.get_cases_not_eval (x.complete_points s.polymodel_)) ::
          Call.get_cases_not_eval :: Call.complete_points :: s.calls_ := rfl

theorem TrustRegionSearch.iterate_initialise (x : Collaborators) (s : TrustRegionSearch)
    (h : s.iteration_ = 0) :
    s.iterate x =
      { s with
        polymodel_ := x.set_evaluations_complete (x.ClearCasesNotEval
          (x.complete_points (x.PolyModel_new s.tentative_best_case_ s.radius_)))
        case_handler_ := (s.case_handler_.AddNewCases (x.get_cases_not_eval
          (x.complete_points (x.PolyModel_new s.tentative_best_case_ s.radius_)))
          ).ClearRecentlyEvaluatedCases
        calls_ :=
          [Call.ClearRecentlyEvaluatedCases, Call.set_evaluations_complete,
            Call.ClearCasesNotEval,
            Call.AddNewCases (x.get_cases_not_eval
              (x.complete_points (x.PolyModel_new s.tentative_best_case_ s.radius_))),
            Call.get_cases_not_eval, Call.complete_points,
            Call.PolyModel_new s.tentative_best_case_ s.radius_,
            Call.print ("this is iteration number " ++ toString s.iteration_)] ++ s.calls_ } := by
  simp [TrustRegionSearch.iterate, TrustRegionSearch.iterateBranch, h,
    TrustRegionSearch.initializeModel, TrustRegionSearch.completeModel,
    TrustRegionSearch.GetTentativeBestCase]

theorem TrustRegionSearch.iterate_complete (x : Collaborators) (s : TrustRegionSearch)
    (h : s.iteration_ ≠ 0) (hr : x.isModelReady s.polymodel_ = false) :
    s.iterate x =
      { s with
        polymodel_ := x.set_evaluations_complete (x.ClearCasesNotEval
          (x.complete_points s.polymodel_))
        case_handler_ := (s.case_handler_.AddNewCases (x.get_cases_not_eval
          (x.complete_points s.polymodel_))).ClearRecentlyEvaluatedCases
        calls_ :=
          [Call.ClearRecentlyEvaluatedCases, Call.set_evaluations_complete,
            Call.ClearCasesNotEval,
            Call.AddNewCases (x.get_cases_not_eval (x.complete_points s.polymodel_)),
            Call.get_cases_not_eval, Call.complete_points,
            Call.isModelReady,
            Call.print ("this is iteration number " ++ toString s.iteration_)] ++ s.calls_ } := by
  simp [TrustRegionSearch.iterate, TrustRegionSearch.iterateBranch, h, hr,
    TrustRegionSearch.completeModel]

theorem TrustRegionSearch.iterate_step (x : Collaborators) (s : TrustRegionSearch)
    (h : s.iteration_ ≠ 0) (hr : x.isModelReady s.polymodel_ = true) :
    s.iterate x =
      { s with
        polymodel_ := x.addCenterPoint (x.calculate_model_coeffs s.polymodel_)
          (x.applyNewTentativeBestCase s.tentative_best_case_ s.case_handler_)
        tentative_best_case_ :=
          x.applyNewTentativeBestCase s.tentative_best_case_ s.case_handler_
        case_handler_ := s.case_handler_.ClearRecentlyEvaluatedCases
        calls_ :=
          [Call.ClearRecentlyEvaluatedCases, Call.print "end of opt step part",
            Call.addCenterPoint
              (x.applyNewTentativeBestCase s.tentative_best_case_ s.case_handler_),
            Call.applyNewTentativeBestCase,
            Call.CaseFromPoint s.tentative_best_case_.GetRealVarVector s.tentative_best_case_,
            Call.calculate_model_coeffs,
            Call.print "Model should be ready, we make some opt step ",
            Call.isModelReady,
            Call.print ("this is iteration number " ++ toString s.iteration_)] ++ s.calls_ } := by
  simp [TrustRegionSearch.iterate, TrustRegionSearch.iterateBranch, h, hr,
    TrustRegionSearch.step, TrustRegionSearch.GetTentativeBestCase]

/-! ## Claims about one iteration -/

theorem Examples.below_floor_finished :
    Examples.below_floor.IsFinished = TerminationCondition.MINIMUM_STEP_LENGTH_REACHED := by
  simp only [TrustRegionSearch.IsFinished, Examples.below_floor, CaseHandler.EvaluatedCases]
  norm_num

/-- C13 as stated fails: the example search is terminal before its first
iteration (its radius is below the floor), and `iterate()` puts the two sample
points its new model is missing on the case queue, whatever `addCenterPoint`
and `applyNewTentativeBestCase` do. -/
theorem TrustRegionSearch.iterate_enqueues_when_finished :
    ¬ ∃ (acp : PolyModel → Case → PolyModel) (ap : Case → CaseHandler → Case),
      ∀ s : TrustRegionSearch, s.IsFinished ≠ TerminationCondition.NOT_FINISHED →
        (s.iterate (Spec.collaborators acp ap)).case_handler_.queued_cases
          = s.case_handler_.queued_cases := by
  rintro ⟨acp, ap, h⟩
  have hq := h Examples.below_floor (by rw [Examples.below_floor_finished]; decide)
  have hlen := congrArg List.length hq
  have hafter : (Examples.below_floor.iterate
      (Spec.collaborators acp ap)).case_handler_.queued_cases.length = 2 := rfl
  have hbefore : Examples.below_floor.case_handler_.queued_cases.length = 0 := rfl
  rw [hafter, hbefore] at hlen
  exact absurd hlen (by decide)

/-- C13, amended: `iterate()` never consults `IsFinished()`. In every search
state, terminal or not: with a non-zero iteration counter and a model that
reports ready (the step branch) the case queue is unchanged; with iteration
counter 0, and with a non-zero counter and a model that does not report ready,
the queue is what `AddNewCases` makes of the cases the model reports as
missing after `complete_points()`. -/
theorem TrustRegionSearch.iterate_queue_by_branch (x : Collaborators) (s : TrustRegionSearch) :
    (s.iteration_ ≠ 0 → x.isModelReady s.polymodel_ = true →
      (s.iterate x).case_handler_.queued_cases = s.case_handler_.queued_cases) ∧
    (s.iteration_ = 0 →
      (s.iterate x).case_handler_.queued_cases
        = (s.case_handler_.AddNewCases (x.get_cases_not_eval
            (x.complete_points (x.PolyModel_new s.tentative_best_case_ s.radius_)))
          ).queued_cases) ∧
    (s.iteration_ ≠ 0 → x.isModelReady s.polymodel_ = false →
      (s.iterate x).case_handler_.queued_cases
        = (s.case_handler_.AddNewCases (x.get_cases_not_eval
            (x.complete_points s.polymodel_))).queued_cases) := by
  refine ⟨?_, ?_, ?_⟩
  · intro h hr
    rw [TrustRegionSearch.iterate_step x s h hr]
    rfl
  · intro h
    rw [TrustRegionSearch.iterate_initialise x s h]
    rfl
  · intro h hr
    rw [TrustRegionSearch.iterate_complete x s h hr]
    rfl

/-- Witness for C13, amended: the ready example search keeps its queue, and
the terminal example search gets two cases on its queue. -/
theorem TrustRegionSearch.iterate_queue_by_branch_witness :
    (Examples.ready.iterate Examples.collaborators).case_handler_.queued_cases
      = Examples.ready.case_handler_.queued_cases ∧
    Examples.below_floor.case_handler_.queued_cases.length = 0 ∧
    (Examples.below_floor.iterate Examples.collaborators).case_handler_.queued_cases.length
      = 2 :=
  ⟨(TrustRegionSearch.iterate_queue_by_branch Examples.collaborators Examples.ready).1
      (by decide) (by decide),
    by decide,
    by rw [(TrustRegionSearch.iterate_queue_by_branch Examples.collaborators
          Examples.below_floor).2.1 (by decide)]
       decide⟩

/-- C14: in every search state `iterate()` ends with
`ClearRecentlyEvaluatedCases()`: it is the most recent call, it is made once,
and the recently-evaluated delta of the case store is empty afterwards, in
each of the three branches. -/
theorem TrustRegionSearch.iterate_clears_recent (x : Collaborators) (s : TrustRegionSearch) :
    (s.iterate x).case_handler_.RecentlyEvaluatedCases = [] ∧
    ∃ calls, (s.iterate x).calls_ = Call.ClearRecentlyEvaluatedCases :: calls ++ s.calls_ ∧
      Call.ClearRecentlyEvaluatedCases ∉ calls := by
  by_cases h : s.iteration_ = 0
  · rw [TrustRegionSearch.iterate_initialise x s h]
    refine ⟨rfl, _, rfl, ?_⟩
    simp
  · by_cases hr : x.isModelReady s.polymodel_ = true
    · rw [TrustRegionSearch.iterate_step x s h hr]
      refine ⟨rfl, _, rfl, ?_⟩
      simp
    · have hr' : x.isModelReady s.polymodel_ = false := by simpa using hr
      rw [TrustRegionSearch.iterate_complete x s h hr']
      refine ⟨rfl, _, rfl, ?_⟩
      simp

/-- C15: with iteration counter 0 `iterate()` constructs a new model from the
tentative best case and the current radius and completes it (complete_points,
AddNewCases of the cases the model reports missing, ClearCasesNotEval,
set_evaluations_complete) without calling `isModelReady`; with a non-zero
iteration counter `iterate()` makes no constructor call. -/
theorem TrustRegionSearch.iterate_builds_model_first (x : Collaborators)
    (s : TrustRegionSearch) :
    (s.iteration_ = 0 →
      (s.iterate x).calls_ =
        [Call.ClearRecentlyEvaluatedCases, Call.set_evaluations_complete,
          Call.ClearCasesNotEval,
          Call.AddNewCases (x.get_cases_not_eval
            (x.complete_points (x.PolyModel_new s.tentative_best_case_ s.radius_))),
          Call.get_cases_not_eval, Call.complete_points,
          Call.PolyModel_new s.tentative_best_case_ s.radius_,
          Call.print ("this is iteration number " ++ toString s.iteration_)] ++ s.calls_ ∧
      (s.iterate x).polymodel_ =
        x.set_evaluations_complete (x.ClearCasesNotEval
          (x.complete_points (x.PolyModel_new s.tentative_best_case_ s.radius_))) ∧
      (s.iterate x).case_handler_ =
        (s.case_handler_.AddNewCases (x.get_cases_not_eval
          (x.complete_points (x.PolyModel_new s.tentative_best_case_ s.radius_)))
        ).ClearRecentlyEvaluatedCases) ∧
    (s.iteration_ ≠ 0 →
      ∃ calls, (s.iterate x).calls_ = calls ++ s.calls_ ∧
        ∀ c r, Call.PolyModel_new c r ∉ calls) := by
  refine ⟨?_, ?_⟩
  · intro h
    rw [TrustRegionSearch.iterate_initialise x s h]
    exact ⟨rfl, rfl, rfl⟩
  · intro h
    by_cases hr : x.isModelReady s.polymodel_ = true
    · rw [TrustRegionSearch.iterate_step x s h hr]
      refine ⟨_, rfl, ?_⟩
      intro c r
      simp
    · have hr' : x.isModelReady s.polymodel_ = false := by simpa using hr
      rw [TrustRegionSearch.iterate_complete x s h hr']
      refine ⟨_, rfl, ?_⟩
      intro c r
      simp

/-- Witness for C15: the example search before its first iteration builds
its model around the base case with radius 1; the ready example search, with
iteration counter 1, builds none. -/
theorem TrustRegionSearch.iterate_builds_model_first_witness :
    (Examples.start.iterate Examples.collaborators).polymodel_ =
      Spec.set_evaluations_complete (Spec.ClearCasesNotEval
        (Spec.complete_points (Spec.PolyModel_new Examples.base_case 1))) ∧
    ∃ calls, (Examples.ready.iterate Examples.collaborators).calls_
        = calls ++ Examples.ready.calls_ ∧
      ∀ c r, Call.PolyModel_new c r ∉ calls :=
  ⟨((TrustRegionSearch.iterate_builds_model_first Examples.collaborators Examples.start).1
      (by decide)).2.1,
    (TrustRegionSearch.iterate_builds_model_first Examples.collaborators Examples.ready).2
      (by decide)⟩

theorem Spec.complete_points_twice (pm : PolyModel) :
    Spec.get_cases_not_eval (Spec.complete_points (Spec.set_evaluations_complete
      (Spec.ClearCasesNotEval (Spec.complete_points pm)))) = [] := by
  have e : pm.center_.real_variables.length + 1
      - (pm.cases_.length + (pm.center_.real_variables.length + 1 - pm.cases_.length)) = 0 := by
    omega
  simp [Spec.get_cases_not_eval, Spec.complete_points, Spec.set_evaluations_complete,
    Spec.ClearCasesNotEval, PolyModel.dimension, e]

/-- C16: `completeModel()` calls complete_points, then passes to `AddNewCases`
exactly the list `get_cases_not_eval` yields at that point, then clears that
list and marks the evaluations complete. With the surrogate model as the spec
describes it the list is empty afterwards, and an immediately repeated
`completeModel()` passes the empty list to `AddNewCases` and leaves the case
store as it is. -/
theorem TrustRegionSearch.completeModel_enqueues_missing (x : Collaborators)
    (s : TrustRegionSearch) (acp : PolyModel → Case → PolyModel)
    (ap : Case → CaseHandler → Case) :
    (s.completeModel x).calls_ =
      Call.set_evaluations_complete :: Call.ClearCasesNotEval ::
        Call.AddNewCases (x.get_cases_not_eval (x.complete_points s.polymodel_)) ::
        Call.get_cases_not_eval :: Call.complete_points :: s.calls_ ∧
    (s.completeModel x).case_handler_ =
      s.case_handler_.AddNewCases (x.get_cases_not_eval (x.complete_points s.polymodel_)) ∧
    Spec.get_cases_not_eval (s.completeModel (Spec.collaborators acp ap)).polymodel_ = [] ∧
    ((s.completeModel (Spec.collaborators acp ap)).completeModel
        (Spec.collaborators acp ap)).calls_ =
      Call.set_evaluations_complete :: Call.ClearCasesNotEval :: Call.AddNewCases [] ::
        Call.get_cases_not_eval :: Call.complete_points ::
        (s.completeModel (Spec.collaborators acp ap)).calls_ ∧
    ((s.completeModel (Spec.collaborators acp ap)).completeModel
        (Spec.collaborators acp ap)).case_handler_ =
      (s.completeModel (Spec.collaborators acp ap)).case_handler_ := by
  have htwice := Spec.complete_points_twice s.polymodel_
  refine ⟨rfl, rfl, rfl, ?_, ?_⟩
  · rw [TrustRegionSearch.completeModel_calls]
    have e : (Spec.collaborators acp ap).get_cases_not_eval
        ((Spec.collaborators acp ap).complete_points
          (s.completeModel (Spec.collaborators acp ap)).polymodel_) = [] := htwice
    rw [e]
  · have e : ((s.completeModel (Spec.collaborators acp ap)).completeModel
        (Spec.collaborators acp ap)).case_handler_ =
        (s.completeModel (Spec.collaborators acp ap)).case_handler_.AddNewCases
          (Spec.get_cases_not_eval (Spec.complete_points (Spec.set_evaluations_complete
            (Spec.ClearCasesNotEval (Spec.complete_points s.polymodel_))))) := rfl
    rw [e, htwice]
    rfl

/-- The first sample point the model around the example base case with radius
1 asks for. -/
theorem Examples.first_missing :
    Spec.get_cases_not_eval (Spec.complete_points (Spec.PolyModel_new Examples.base_case 1))
      = [PolyModel.perturbed (Spec.PolyModel_new Examples.base_case 1) 0 2,
         PolyModel.perturbed (Spec.PolyModel_new Examples.base_case 1) 1 3] := rfl

/-- C17 as stated fails: in its first iteration the example search hands two
new cases to the case queue and marks the evaluations of its model complete,
while the only evaluated case is the base case. -/
theorem TrustRegionSearch.marked_complete_before_evaluated :
    ¬ ∃ (acp : PolyModel → Case → PolyModel) (ap : Case → CaseHandler → Case),
      ∀ (s : TrustRegionSearch) (cs : List Case), s.calls_ = [] →
        Call.set_evaluations_complete ∈ (s.iterate (Spec.collaborators acp ap)).calls_ →
        Call.AddNewCases cs ∈ (s.iterate (Spec.collaborators acp ap)).calls_ →
        ∀ c ∈ cs, c ∈ (s.iterate (Spec.collaborators acp ap)).case_handler_.EvaluatedCases := by
  rintro ⟨acp, ap, h⟩
  have hcalls : (Examples.start.iterate (Spec.collaborators acp ap)).calls_ =
      [Call.ClearRecentlyEvaluatedCases, Call.set_evaluations_complete,
        Call.ClearCasesNotEval,
        Call.AddNewCases
          [PolyModel.perturbed (Spec.PolyModel_new Examples.base_case 1) 0 2,
           PolyModel.perturbed (Spec.PolyModel_new Examples.base_case 1) 1 3],
        Call.get_cases_not_eval, Call.complete_points,
        Call.PolyModel_new Examples.base_case 1,
        Call.print ("this is iteration number " ++ toString 0)] := rfl
  have heval : (Examples.start.iterate (Spec.collaborators acp ap)).case_handler_.EvaluatedCases
      = [Examples.base_case] := rfl
  have hmem := h Examples.start
    [PolyModel.perturbed (Spec.PolyModel_new Examples.base_case 1) 0 2,
     PolyModel.perturbed (Spec.PolyModel_new Examples.base_case 1) 1 3] rfl
    (by rw [hcalls]; simp) (by rw [hcalls]; simp)
    (PolyModel.perturbed (Spec.PolyModel_new Examples.base_case 1) 0 2)
    (List.mem_cons_self _ _)
  rw [heval, List.mem_singleton] at hmem
  have hid := congrArg Case.id hmem
  exact absurd hid (by decide)

/-- C17, amended: `completeModel()` marks the evaluations of the model
complete unconditionally, as its last call, right after handing the cases the
model reports missing to `AddNewCases` and clearing that list; it does not look
at the evaluated cases, which are the same before and after. So `iterate()`
makes the call whenever the iteration counter is 0 or the model does not report
ready, with the evaluated cases unchanged. -/
theorem TrustRegionSearch.completeModel_marks_unconditionally (x : Collaborators)
    (s : TrustRegionSearch) :
    (s.completeModel x).calls_ =
      Call.set_evaluations_complete :: Call.ClearCasesNotEval ::
        Call.AddNewCases (x.get_cases_not_eval (x.complete_points s.polymodel_)) ::
        Call.get_cases_not_eval :: Call.complete_points :: s.calls_ ∧
    (s.completeModel x).polymodel_ =
      x.set_evaluations_complete (x.ClearCasesNotEval (x.complete_points s.polymodel_)) ∧
    (s.completeModel x).case_handler_.EvaluatedCases = s.case_handler_.EvaluatedCases ∧
    ((s.iteration_ = 0 ∨ x.isModelReady s.polymodel_ = false) →
      Call.set_evaluations_complete ∈ ((s.iterate x).calls_.take 2) ∧
      (s.iterate x).case_handler_.EvaluatedCases = s.case_handler_.EvaluatedCases) := by
  refine ⟨rfl, rfl, ?_, ?_⟩
  · exact (CaseHandler.AddNewCases_evaluated s.case_handler_ _).1
  · intro hbranch
    by_cases h : s.iteration_ = 0
    · rw [TrustRegionSearch.iterate_initialise x s h]
      refine ⟨by simp, ?_⟩
      exact (CaseHandler.AddNewCases_evaluated s.case_handler_ _).1
    · have hr : x.isModelReady s.polymodel_ = false := by
        rcases hbranch with h0 | hr
        · exact absurd h0 h
        · exact hr
      rw [TrustRegionSearch.iterate_complete x s h hr]
      refine ⟨by simp, ?_⟩
      exact (CaseHandler.AddNewCases_evaluated s.case_handler_ _).1

/-- Witness for C17, amended: the first iteration of the example search. -/
theorem TrustRegionSearch.completeModel_marks_unconditionally_witness :
    Call.set_evaluations_complete
      ∈ ((Examples.start.iterate Examples.collaborators).calls_.take 2) ∧
    (Examples.start.iterate Examples.collaborators).case_handler_.EvaluatedCases
      = Examples.start.case_handler_.EvaluatedCases ∧
    (Examples.start.iterate Examples.collaborators).case_handler_.queued_cases.length = 2 :=
  ⟨((TrustRegionSearch.completeModel_marks_unconditionally Examples.collaborators
        Examples.start).2.2.2 (Or.inl (by decide))).1,
    ((TrustRegionSearch.completeModel_marks_unconditionally Examples.collaborators
        Examples.start).2.2.2 (Or.inl (by decide))).2,
    by decide⟩

/-- C18: with a non-zero iteration counter and a model that reports ready,
`iterate()` calls `calculate_model_coeffs` and after it the three calls of
`step()` (CaseFromPoint, applyNewTentativeBestCase, addCenterPoint), so the
model after the iteration is the fitted model with the new incumbent added as
centre point. With iteration counter 0, or with a model that does not report
ready, `iterate()` makes neither the fit nor any call of `step()`. -/
theorem TrustRegionSearch.iterate_fits_only_when_ready (x : Collaborators)
    (s : TrustRegionSearch) :
    (s.iteration_ ≠ 0 → x.isModelReady s.polymodel_ = true →
      (s.iterate x).calls_ =
        [Call.ClearRecentlyEvaluatedCases, Call.print "end of opt step part",
          Call.addCenterPoint
            (x.applyNewTentativeBestCase s.tentative_best_case_ s.case_handler_),
          Call.applyNewTentativeBestCase,
          Call.CaseFromPoint s.tentative_best_case_.GetRealVarVector s.tentative_best_case_,
          Call.calculate_model_coeffs,
          Call.print "Model should be ready, we make some opt step ",
          Call.isModelReady,
          Call.print ("this is iteration number " ++ toString s.iteration_)] ++ s.calls_ ∧
      (s.iterate x).polymodel_ =
        x.addCenterPoint (x.calculate_model_coeffs s.polymodel_)
          (x.applyNewTentativeBestCase s.tentative_best_case_ s.case_handler_)) ∧
    ((s.iteration_ = 0 ∨ x.isModelReady s.polymodel_ = false) →
      ∃ calls, (s.iterate x).calls_ = calls ++ s.calls_ ∧
        Call.calculate_model_coeffs ∉ calls ∧
        Call.applyNewTentativeBestCase ∉ calls ∧
        (∀ c, Call.addCenterPoint c ∉ calls) ∧
        (∀ v c, Call.CaseFromPoint v c ∉ calls)) := by
  refine ⟨?_, ?_⟩
  · intro h hr
    rw [TrustRegionSearch.iterate_step x s h hr]
    exact ⟨rfl, rfl⟩
  · intro hbranch
    by_cases h : s.iteration_ = 0
    · rw [TrustRegionSearch.iterate_initialise x s h]
      refine ⟨_, rfl, by simp, by simp, ?_, ?_⟩
      · intro c
        simp
      · intro v c
        simp
    · have hr : x.isModelReady s.polymodel_ = false := by
        rcases hbranch with h0 | hr
        · exact absurd h0 h
        · exact hr
      rw [TrustRegionSearch.iterate_complete x s h hr]
      refine ⟨_, rfl, by simp, by simp, ?_, ?_⟩
      · intro c
        simp
      · intro v c
        simp

/-- Witness for C18: the ready example search fits and steps; the example
search whose model is not ready does neither. -/
theorem TrustRegionSearch.iterate_fits_only_when_ready_witness :
    (Examples.ready.iterate Examples.collaborators).calls_.length = 9 ∧
    (Examples.ready.iterate Examples.collaborators).polymodel_ =
      Examples.collaborators.addCenterPoint
        (Examples.collaborators.calculate_model_coeffs Examples.ready.polymodel_)
        (Examples.collaborators.applyNewTentativeBestCase
          Examples.ready.tentative_best_case_ Examples.ready.case_handler_) ∧
    ∃ calls, (Examples.not_ready.iterate Examples.collaborators).calls_
        = calls ++ Examples.not_ready.calls_ ∧
      Call.calculate_model_coeffs ∉ calls ∧
      Call.applyNewTentativeBestCase ∉ calls ∧
      (∀ c, Call.addCenterPoint c ∉ calls) ∧
      (∀ v c, Call.CaseFromPoint v c ∉ calls) :=
  ⟨by rw [((TrustRegionSearch.iterate_fits_only_when_ready Examples.collaborators
          Examples.ready).1 (by decide) (by decide)).1]
      rfl,
    ((TrustRegionSearch.iterate_fits_only_when_ready Examples.collaborators
        Examples.ready).1 (by decide) (by decide)).2,
    (TrustRegionSearch.iterate_fits_only_when_ready Examples.collaborators
        Examples.not_ready).2 (Or.inr (by decide))⟩

/-- What `step()` does, for every implementation of the methods it calls: it
calls CaseFromPoint (whose result is dropped), applyNewTentativeBestCase and
addCenterPoint, in this order, and no constructor; afterwards the incumbent is
the one applyNewTentativeBestCase yields and the model is what `addCenterPoint`
makes of the previous model and that incumbent. The radius, its floor, the case
store, the iteration counter and the budget are unchanged. What the model then
holds is decided by `PolyModel::addCenterPoint`, which is not among the
sources. -/
theorem TrustRegionSearch.step_adds_center_point (x : Collaborators) (s : TrustRegionSearch) :
    (s.step x).calls_ =
      [Call.addCenterPoint (x.applyNewTentativeBestCase s.tentative_best_case_ s.case_handler_),
        Call.applyNewTentativeBestCase,
        Call.CaseFromPoint s.tentative_best_case_.GetRealVarVector s.tentative_best_case_]
        ++ s.calls_ ∧
    (s.step x).tentative_best_case_ =
      x.applyNewTentativeBestCase s.tentative_best_case_ s.case_handler_ ∧
    (s.step x).polymodel_ =
      x.addCenterPoint s.polymodel_
        (x.applyNewTentativeBestCase s.tentative_best_case_ s.case_handler_) ∧
    (s.step x).radius_ = s.radius_ ∧
    (s.step x).minimum_radius_ = s.minimum_radius_ ∧
    (s.step x).case_handler_ = s.case_handler_ ∧
    (s.step x).iteration_ = s.iteration_ ∧
    (s.step x).max_evaluations_ = s.max_evaluations_ :=
  ⟨rfl, rfl, rfl, rfl, rfl, rfl, rfl, rfl⟩

/-! ## The radius during the iterations -/

theorem TrustRegionSearch.iterate_radius (x : Collaborators) (s : TrustRegionSearch) :
    (s.iterate x).radius_ = s.radius_ ∧ (s.iterate x).minimum_radius_ = s.minimum_radius_ := by
  by_cases h : s.iteration_ = 0
  · rw [TrustRegionSearch.iterate_initialise x s h]
    exact ⟨rfl, rfl⟩
  · by_cases hr : x.isModelReady s.polymodel_ = true
    · rw [TrustRegionSearch.iterate_step x s h hr]
      exact ⟨rfl, rfl⟩
    · have hr' : x.isModelReady s.polymodel_ = false := by simpa using hr
      rw [TrustRegionSearch.iterate_complete x s h hr']
      exact ⟨rfl, rfl⟩

theorem TrustRegionSearch.iterates_radius (x : Collaborators) (n : Nat)
    (s : TrustRegionSearch) :
    (s.iterates x n).radius_ = s.radius_ ∧
      (s.iterates x n).minimum_radius_ = s.minimum_radius_ := by
  induction n generalizing s with
  | zero => exact ⟨rfl, rfl⟩
  | succ n ih =>
    obtain ⟨h1, h2⟩ := ih (s.iterate x)
    obtain ⟨h3, h4⟩ := TrustRegionSearch.iterate_radius x s
    have e : s.iterates x (n + 1) = (s.iterate x).iterates x n := rfl
    rw [e]
    exact ⟨h1.trans h3, h2.trans h4⟩

/-- C25: `iterate()` leaves the radius and the minimum radius as they are, in
each of its three branches and for every implementation of the methods it
calls; so after any number of `iterate()` calls in a row both are what they
were, and from a state whose radius is at least the minimum radius
`IsFinished()` never becomes MINIMUM_STEP_LENGTH_REACHED. -/
theorem TrustRegionSearch.iterate_keeps_radius (x : Collaborators) (s : TrustRegionSearch)
    (n : Nat) :
    (s.iterate x).radius_ = s.radius_ ∧
    (s.iterate x).minimum_radius_ = s.minimum_radius_ ∧
    (s.iterates x n).radius_ = s.radius_ ∧
    (s.iterates x n).minimum_radius_ = s.minimum_radius_ ∧
    (s.minimum_radius_ ≤ s.radius_ →
      (s.iterates x n).IsFinished ≠ TerminationCondition.MINIMUM_STEP_LENGTH_REACHED) := by
  obtain ⟨h1, h2⟩ := TrustRegionSearch.iterate_radius x s
  obtain ⟨h3, h4⟩ := TrustRegionSearch.iterates_radius x n s
  refine ⟨h1, h2, h3, h4, ?_⟩
  intro hle
  have hnot : ¬ (s.iterates x n).radius_ < (s.iterates x n).minimum_radius_ := by
    rw [h3, h4]
    exact not_lt.mpr hle
  unfold TrustRegionSearch.IsFinished
  split
  · simp
  · simp [hnot]

/-- Witness for C25: three iterations of the example search, whose radius 1 is
above the floor 1/100. -/
theorem TrustRegionSearch.iterate_keeps_radius_witness :
    (Examples.start.iterates Examples.collaborators 3).radius_ = 1 ∧
    (Examples.start.iterates Examples.collaborators 3).IsFinished
      ≠ TerminationCondition.MINIMUM_STEP_LENGTH_REACHED :=
  ⟨(TrustRegionSearch.iterate_keeps_radius Examples.collaborators Examples.start 3).2.2.1,
    (TrustRegionSearch.iterate_keeps_radius Examples.collaborators Examples.start 3).2.2.2.2
      (by norm_num [Examples.start])⟩

end Optimizers

end Optimization

namespace Settings

/-! ## The well type -/

theorem DeckParser.wellTypeLoop_closed (p : DeckParser) (w : Opm.Well) (t n : Nat)
    (a b : Bool) (warns : List String) (hs : w.getStatus t ≠ Opm.StatusEnum.OPEN) :
    DeckParser.wellTypeLoop p w t (n + 1) a b warns
      = DeckParser.wellTypeLoop p w (t + 1) n a b warns := by
  rw [DeckParser.wellTypeLoop]
  exact if_pos hs

theorem DeckParser.wellTypeLoop_injector (p : DeckParser) (w : Opm.Well) (t n : Nat)
    (warns : List String) :
    ∃ ws, DeckParser.wellTypeLoop p w t n true false warns = (true, false, ws) := by
  induction n generalizing t warns with
  | zero => exact ⟨warns, rfl⟩
  | succ n ih =>
    by_cases hs : w.getStatus t ≠ Opm.StatusEnum.OPEN
    · rw [DeckParser.wellTypeLoop_closed p w t n true false warns hs]
      exact ih (t + 1) warns
    · by_cases hp : w.isProducer t = true
      · exact ⟨p.alternatingWarning "Injector" :: warns,
          by simp [DeckParser.wellTypeLoop, hs, DeckParser.injectorStep, hp]⟩
      · obtain ⟨ws, hws⟩ := ih (t + 1) warns
        exact ⟨ws, by simp [DeckParser.wellTypeLoop, hs, DeckParser.injectorStep, hp, hws]⟩

theorem DeckParser.wellTypeLoop_producer (p : DeckParser) (w : Opm.Well) (t n : Nat)
    (warns : List String) :
    ∃ ws, DeckParser.wellTypeLoop p w t n false true warns = (false, true, ws) := by
  induction n generalizing t warns with
  | zero => exact ⟨warns, rfl⟩
  | succ n ih =>
    by_cases hs : w.getStatus t ≠ Opm.StatusEnum.OPEN
    · rw [DeckParser.wellTypeLoop_closed p w t n false true warns hs]
      exact ih (t + 1) warns
    · by_cases hi : w.isInjector t = true
      · exact ⟨p.alternatingWarning "Producer" :: warns,
          by simp [DeckParser.wellTypeLoop, hs, DeckParser.injectorStep, hi]⟩
      · obtain ⟨ws, hws⟩ := ih (t + 1) warns
        exact ⟨ws, by simp [DeckParser.wellTypeLoop, hs, DeckParser.injectorStep, hi, hws]⟩

theorem DeckParser.wellTypeLoop_open (p : DeckParser) (w : Opm.Well) (t n : Nat)
    (warns : List String) (hs : w.getStatus t = Opm.StatusEnum.OPEN)
    (hflag : w.isInjector t = true ∨ w.isProducer t = true) :
    ∃ ws, DeckParser.wellTypeLoop p w t (n + 1) false false warns
      = (w.isInjector t, !w.isInjector t, ws) := by
  by_cases hi : w.isInjector t = true
  · by_cases hp : w.isProducer t = true
    · exact ⟨p.alternatingWarning "Injector" :: warns,
        by simp [DeckParser.wellTypeLoop, hs, DeckParser.injectorStep, hi, hp]⟩
    · obtain ⟨ws, hws⟩ := DeckParser.wellTypeLoop_injector p w (t + 1) n warns
      exact ⟨ws, by simp [DeckParser.wellTypeLoop, hs, DeckParser.injectorStep, hi, hp, hws]⟩
  · have hp : w.isProducer t = true := by
      rcases hflag with h | h
      · exact absurd h hi
      · exact h
    obtain ⟨ws, hws⟩ := DeckParser.wellTypeLoop_producer p w (t + 1) n warns
    exact ⟨ws, by simp [DeckParser.wellTypeLoop, hs, DeckParser.injectorStep, hi, hp, hws]⟩

theorem DeckParser.wellTypeLoop_idle (p : DeckParser) (w : Opm.Well) (t n : Nat)
    (warns : List String)
    (hno : ¬ (w.getStatus t = Opm.StatusEnum.OPEN ∧
          (w.isInjector t = true ∨ w.isProducer t = true))) :
    DeckParser.wellTypeLoop p w t (n + 1) false false warns
      = DeckParser.wellTypeLoop p w (t + 1) n false false warns := by
  by_cases hs : w.getStatus t ≠ Opm.StatusEnum.OPEN
  · exact DeckParser.wellTypeLoop_closed p w t n false false warns hs
  · have hs' : w.getStatus t = Opm.StatusEnum.OPEN := by simpa using hs
    have hi : w.isInjector t = false := by
      cases h : w.isInjector t
      · rfl
      · exact absurd ⟨hs', Or.inl h⟩ hno
    have hp : w.isProducer t = false := by
      cases h : w.isProducer t
      · rfl
      · exact absurd ⟨hs', Or.inr h⟩ hno
    simp [DeckParser.wellTypeLoop, hs', DeckParser.injectorStep, hi, hp]

theorem DeckParser.wellTypeLoop_skip (p : DeckParser) (w : Opm.Well) (t k n : Nat)
    (warns : List String)
    (hskip : ∀ u, t ≤ u → u < t + k →
      ¬ (w.getStatus u = Opm.StatusEnum.OPEN ∧
          (w.isInjector u = true ∨ w.isProducer u = true))) :
    DeckParser.wellTypeLoop p w t (k + n) false false warns
      = DeckParser.wellTypeLoop p w (t + k) n false false warns := by
  induction k generalizing t with
  | zero => simp
  | succ k ih =>
    have hrest := ih (t + 1) (fun u h1 h2 => hskip u (by omega) (by omega))
    have e1 : k + 1 + n = (k + n) + 1 := by omega
    have e2 : t + (k + 1) = t + 1 + k := by omega
    rw [e1, e2, ← hrest]
    exact DeckParser.wellTypeLoop_idle p w t (k + n) warns (hskip t (le_refl _) (by omega))

theorem DeckParser.wellTypeLoop_exclusive (p : DeckParser) (w : Opm.Well) (t n : Nat)
    (warns : List String) :
    ∃ a b ws, DeckParser.wellTypeLoop p w t n false false warns = (a, b, ws) ∧
      ¬ (a = true ∧ b = true) := by
  induction n generalizing t warns with
  | zero => exact ⟨false, false, warns, rfl, by simp⟩
  | succ n ih =>
    by_cases hq : w.getStatus t = Opm.StatusEnum.OPEN ∧
        (w.isInjector t = true ∨ w.isProducer t = true)
    · obtain ⟨ws, hws⟩ := DeckParser.wellTypeLoop_open p w t n warns hq.1 hq.2
      refine ⟨_, _, ws, hws, ?_⟩
      cases w.isInjector t <;> simp
    · rw [DeckParser.wellTypeLoop_idle p w t n warns hq]
      exact ih (t + 1) warns

/-- C21: let `t0` be the earliest timestep from the well's first timestep on,
below the number of timesteps, at which the well is OPEN and is an injector or
a producer. Then `determineWellType` returns Injector when the well is an
injector at `t0` and Producer otherwise, whatever the well is at later
timesteps. -/
theorem DeckParser.determineWellType_first_open (p : DeckParser) (w : Opm.Well) (t0 : Nat)
    (h1 : w.firstTimeStep ≤ t0) (h2 : t0 < p.num_timesteps_)
    (hopen : w.getStatus t0 = Opm.StatusEnum.OPEN)
    (hflag : w.isInjector t0 = true ∨ w.isProducer t0 = true)
    (hfirst : ∀ u, w.firstTimeStep ≤ u → u < t0 →
      ¬ (w.getStatus u = Opm.StatusEnum.OPEN ∧
          (w.isInjector u = true ∨ w.isProducer u = true))) :
    (w.isInjector t0 = true → (p.determineWellType w).1 = Model.WellType.Injector) ∧
    (w.isInjector t0 = false → (p.determineWellType w).1 = Model.WellType.Producer) := by
  have e : p.num_timesteps_ - w.firstTimeStep
      = (t0 - w.firstTimeStep) + ((p.num_timesteps_ - t0 - 1) + 1) := by omega
  have hskip := DeckParser.wellTypeLoop_skip p w w.firstTimeStep (t0 - w.firstTimeStep)
    ((p.num_timesteps_ - t0 - 1) + 1) []
    (fun u hu1 hu2 => hfirst u hu1 (by omega))
  have e0 : w.firstTimeStep + (t0 - w.firstTimeStep) = t0 := by omega
  rw [e0] at hskip
  obtain ⟨ws, hws⟩ := DeckParser.wellTypeLoop_open p w t0 (p.num_timesteps_ - t0 - 1) []
    hopen hflag
  have hloop : DeckParser.wellTypeLoop p w w.firstTimeStep
      (p.num_timesteps_ - w.firstTimeStep) false false []
      = (w.isInjector t0, !w.isInjector t0, ws) := by
    rw [e, hskip, hws]
  refine ⟨?_, ?_⟩
  · intro hi
    simp [DeckParser.determineWellType, DeckParser.wellTypeFlags, hloop, hi,
      DeckParser.wellTypeDefault, DeckParser.wellTypeSelect]
  · intro hi
    simp [DeckParser.determineWellType, DeckParser.wellTypeFlags, hloop, hi,
      DeckParser.wellTypeDefault, DeckParser.wellTypeSelect]

/-- Witness for C21: the example well is shut at its first timestep 1, an
open producer at timestep 2, and an injector at timestep 4; it is a
producer. -/
theorem DeckParser.determineWellType_first_open_witness :
    Examples.switching_well.isInjector 2 = false ∧
    Examples.switching_well.isInjector 4 = true ∧
    (Examples.parser.determineWellType Examples.switching_well).1
      = Model.WellType.Producer :=
  ⟨by decide, by decide,
    (DeckParser.determineWellType_first_open Examples.parser Examples.switching_well 2
      (by decide) (by decide) (by decide) (by decide)
      (by
        intro u hu1 hu2
        have e : u = 1 := by
          have : Examples.switching_well.firstTimeStep = 1 := rfl
          omega
        subst e
        decide)).2 (by decide)⟩

/-- C28: whatever the status and the injector and producer flags of a well are
at each timestep, when the final `if` chain of `determineWellType` is reached
exactly one of `is_injector` and `is_producer` is true; the result is Injector
or Producer, never UNKNOWN_TYPE, and the warning of the final branch is not
printed. -/
theorem DeckParser.determineWellType_never_unknown (p : DeckParser) (w : Opm.Well) :
    ((p.wellTypeFlags w).1 = true ∧ (p.wellTypeFlags w).2.1 = false ∨
      (p.wellTypeFlags w).1 = false ∧ (p.wellTypeFlags w).2.1 = true) ∧
    ((p.determineWellType w).1 = Model.WellType.Injector ∨
      (p.determineWellType w).1 = Model.WellType.Producer) ∧
    (p.determineWellType w).1 ≠ Model.WellType.UNKNOWN_TYPE ∧
    (p.determineWellType w).2 = (p.wellTypeFlags w).2.2 := by
  obtain ⟨a, b, ws, hloop, hex⟩ := DeckParser.wellTypeLoop_exclusive p w w.firstTimeStep
    (p.num_timesteps_ - w.firstTimeStep) []
  cases a <;> cases b
  · cases hd : w.isInjector w.firstTimeStep <;>
      simp [DeckParser.determineWellType, DeckParser.wellTypeFlags, hloop, hd,
        DeckParser.wellTypeDefault, DeckParser.wellTypeSelect]
  · simp [DeckParser.determineWellType, DeckParser.wellTypeFlags, hloop,
      DeckParser.wellTypeDefault, DeckParser.wellTypeSelect]
  · simp [DeckParser.determineWellType, DeckParser.wellTypeFlags, hloop,
      DeckParser.wellTypeDefault, DeckParser.wellTypeSelect]
  · exact absurd ⟨rfl, rfl⟩ hex

/-! ## Wellbore radius and well blocks -/

theorem DeckParser.radiiSum_eq (cs : List Opm.Completion) (radii_sum : ℚ) :
    DeckParser.radiiSum cs radii_sum
      = radii_sum + (cs.map (fun c => c.getDiameter / 2)).sum := by
  induction cs generalizing radii_sum with
  | nil => simp [DeckParser.radiiSum]
  | cons c cs ih =>
    simp only [DeckParser.radiiSum, List.map_cons, List.sum_cons]
    rw [ih]
    ring

/-- C24: for a well with at least one completion `determineWellboreRadius`
returns the sum over the completions of half the diameter, divided by the
number of completions. -/
theorem DeckParser.determineWellboreRadius_mean (w : Opm.Well)
    (h : w.getCompletions ≠ []) :
    DeckParser.determineWellboreRadius w
      = some ((w.getCompletions.map (fun c => c.getDiameter / 2)).sum
          / (w.getCompletions.length : ℚ)) := by
  have hlen : ¬ w.getCompletions.length = 0 := by
    intro e
    exact h (List.length_eq_zero.mp e)
  simp only [DeckParser.determineWellboreRadius, hlen, if_false]
  rw [DeckParser.radiiSum_eq]
  simp

/-- Witness for C24: completions of diameter 1/5 and 3/10 give the radius
1/8. -/
theorem DeckParser.determineWellboreRadius_mean_witness :
    DeckParser.determineWellboreRadius Examples.gibberish_well = some (1 / 8) := by
  rw [DeckParser.determineWellboreRadius_mean Examples.gibberish_well (by decide)]
  norm_num [Examples.gibberish_well]

/-- C22, evaluated on the code: for the example well, whose first completion
was parsed with the index -1 and whose head is (5, 6), `opmToWellBlocks`
returns one block, the one of the second completion at (5, 6, 2): the first
block is deleted, not given the head indices and the layer below. -/
theorem DeckParser.opmToWellBlocks_deletes_first :
    (Examples.parser.opmToWellBlocks Examples.metric Examples.gibberish_well).map
        (fun r => (r.1.map (fun b => (b.i, b.j, b.k)), r.2))
      = some ([(5, 6, 2)],
          ["Invalid i, j or k index detected for the first well block. Deleting it. " ++
            "(0, 4, 10)"]) ∧
    Examples.gibberish_well.getCompletions.length = 2 := by
  decide

/-! ## Rates and pressures -/

/-- C29: for a well that is not an injector at the timestep, `determineRate`
returns the converted oil rate when it is strictly greater than the liquid
rate and the reservoir-volume rate, the converted liquid rate when that is
strictly greater than the two others, and the converted reservoir-volume rate
in every other case; so with equal oil and liquid rates the result is the
reservoir-volume rate, also when it is the smallest of the three. -/
theorem DeckParser.determineRate_producer (units : Opm.Metric) (w : Opm.Well) (t : Nat)
    (hprod : w.isInjector t = false) :
    ((w.getProductionProperties t).OilRate > (w.getProductionProperties t).LiquidRate →
      (w.getProductionProperties t).OilRate > (w.getProductionProperties t).ResVRate →
      DeckParser.determineRate units w t
        = Opm.unit.convert.to (w.getProductionProperties t).OilRate
            units.LiquidSurfaceVolume) ∧
    ((w.getProductionProperties t).LiquidRate > (w.getProductionProperties t).OilRate →
      (w.getProductionProperties t).LiquidRate > (w.getProductionProperties t).ResVRate →
      DeckParser.determineRate units w t
        = Opm.unit.convert.to (w.getProductionProperties t).LiquidRate
            units.LiquidSurfaceVolume) ∧
    (¬ ((w.getProductionProperties t).OilRate > (w.getProductionProperties t).LiquidRate ∧
        (w.getProductionProperties t).OilRate > (w.getProductionProperties t).ResVRate) →
      ¬ ((w.getProductionProperties t).LiquidRate > (w.getProductionProperties t).OilRate ∧
        (w.getProductionProperties t).LiquidRate > (w.getProductionProperties t).ResVRate) →
      DeckParser.determineRate units w t
        = Opm.unit.convert.to (w.getProductionProperties t).ResVRate
            units.ReservoirVolume) ∧
    ((w.getProductionProperties t).OilRate = (w.getProductionProperties t).LiquidRate →
      DeckParser.determineRate units w t
        = Opm.unit.convert.to (w.getProductionProperties t).ResVRate
            units.ReservoirVolume) := by
  refine ⟨?_, ?_, ?_, ?_⟩
  · intro h1 h2
    simp [DeckParser.determineRate, hprod, h1, h2]
  · intro h1 h2
    have h3 : ¬ (w.getProductionProperties t).LiquidRate
        < (w.getProductionProperties t).OilRate := not_lt.mpr (le_of_lt h1)
    simp [DeckParser.determineRate, hprod, h1, h2, h3]
  · intro h1 h2
    simp only [DeckParser.determineRate, hprod, gt_iff_lt] at h1 h2 ⊢
    simp [h1, h2]
  · intro heq
    have h1 : ¬ (w.getProductionProperties t).LiquidRate
        < (w.getProductionProperties t).OilRate := by
      rw [heq]
      exact lt_irrefl _
    have h2 : ¬ (w.getProductionProperties t).OilRate
        < (w.getProductionProperties t).LiquidRate := by
      rw [heq]
      exact lt_irrefl _
    simp [DeckParser.determineRate, hprod, h1, h2]

/-- Witness for C29: the example producer has oil and liquid rate 100 and
reservoir-volume rate 40, and its rate is 40. -/
theorem DeckParser.determineRate_producer_witness :
    DeckParser.determineRate Examples.metric Examples.producer 1 = 40 := by
  rw [(DeckParser.determineRate_producer Examples.metric Examples.producer 1 rfl).2.2.2 rfl]
  norm_num [Examples.producer, Examples.metric, Opm.unit.convert.to]

/-- C30: `determineBhp` returns the converted smaller one of the BHP limit and
the THP limit, of the injection properties for an injector and of the
production properties otherwise; with a positive pressure unit the result
exceeds neither converted limit. -/
theorem DeckParser.determineBhp_min (units : Opm.Metric) (w : Opm.Well) (t : Nat) :
    (w.isInjector t = true →
      DeckParser.determineBhp units w t
        = Opm.unit.convert.to
            (min (w.getInjectionProperties t).BHPLimit (w.getInjectionProperties t).THPLimit)
            units.Pressure ∧
      (0 < units.Pressure →
        DeckParser.determineBhp units w t
          ≤ Opm.unit.convert.to (w.getInjectionProperties t).BHPLimit units.Pressure ∧
        DeckParser.determineBhp units w t
          ≤ Opm.unit.convert.to (w.getInjectionProperties t).THPLimit units.Pressure)) ∧
    (w.isInjector t = false →
      DeckParser.determineBhp units w t
        = Opm.unit.convert.to
            (min (w.getProductionProperties t).BHPLimit (w.getProductionProperties t).THPLimit)
            units.Pressure ∧
      (0 < units.Pressure →
        DeckParser.determineBhp units w t
          ≤ Opm.unit.convert.to (w.getProductionProperties t).BHPLimit units.Pressure ∧
        DeckParser.determineBhp units w t
          ≤ Opm.unit.convert.to (w.getProductionProperties t).THPLimit units.Pressure)) := by
  have key : ∀ a b : ℚ,
      (if a > b then Opm.unit.convert.to b units.Pressure
        else Opm.unit.convert.to a units.Pressure)
        = Opm.unit.convert.to (min a b) units.Pressure := by
    intro a b
    by_cases hab : a > b
    · rw [if_pos hab, min_eq_right (le_of_lt hab)]
    · rw [if_neg hab, min_eq_left (not_lt.mp hab)]
  have mono : ∀ a b : ℚ, 0 < units.Pressure → a ≤ b →
      Opm.unit.convert.to a units.Pressure ≤ Opm.unit.convert.to b units.Pressure := by
    intro a b hp hab
    unfold Opm.unit.convert.to
    exact div_le_div_of_nonneg_right hab (le_of_lt hp)
  refine ⟨?_, ?_⟩
  · intro hi
    have e : DeckParser.determineBhp units w t
        = Opm.unit.convert.to
            (min (w.getInjectionProperties t).BHPLimit (w.getInjectionProperties t).THPLimit)
            units.Pressure := by
      simp only [DeckParser.determineBhp, hi, if_true]
      exact key _ _
    refine ⟨e, ?_⟩
    intro hp
    rw [e]
    exact ⟨mono _ _ hp (min_le_left _ _), mono _ _ hp (min_le_right _ _)⟩
  · intro hi
    have e : DeckParser.determineBhp units w t
        = Opm.unit.convert.to
            (min (w.getProductionProperties t).BHPLimit (w.getProductionProperties t).THPLimit)
            units.Pressure := by
      simp only [DeckParser.determineBhp, hi]
      exact key _ _
    refine ⟨e, ?_⟩
    intro hp
    rw [e]
    exact ⟨mono _ _ hp (min_le_left _ _), mono _ _ hp (min_le_right _ _)⟩

/-- Witness for C30: with a pressure limit of 200 bar and a tubing-head limit
of 150 bar the example producer gets 150 bar. -/
theorem DeckParser.determineBhp_min_witness :
    DeckParser.determineBhp Examples.metric Examples.producer 1 = 150 := by
  rw [((DeckParser.determineBhp_min Examples.metric Examples.producer 1).2 rfl).1]
  norm_num [Examples.producer, Examples.metric, Opm.unit.convert.to]

/-! ## Control entries -/

theorem DeckParser.controlEntriesLoop_spec (p : DeckParser) (units : Opm.Metric)
    (isDifferent : Model.Well.ControlEntry → Model.Well.ControlEntry → Bool)
    (ce0 : Model.Well.ControlEntry) (w : Opm.Well) (first last t n : Nat)
    (acc : List Model.Well.ControlEntry) (ht : first ≤ t) (hn : t + n = last)
    (hchain : List.Chain'
      (fun a b => isDifferent a { b with name := ce0.name } = true) acc)
    (hmem : ∀ e ∈ acc, ∃ u, first ≤ u ∧ u < last ∧
      DeckParser.determineWellControlMode w u ≠ Model.ControlMode.UNKNOWN_CONTROL ∧
      e = { DeckParser.controlEntryAt p units ce0 w u with
            name := p.controlEntryName (DeckParser.controlEntryAt p units ce0 w u) u }) :
    List.Chain' (fun a b => isDifferent a { b with name := ce0.name } = true)
        (DeckParser.controlEntriesLoop p units isDifferent ce0 w t n acc) ∧
      ∀ e ∈ DeckParser.controlEntriesLoop p units isDifferent ce0 w t n acc,
        ∃ u, first ≤ u ∧ u < last ∧
          DeckParser.determineWellControlMode w u ≠ Model.ControlMode.UNKNOWN_CONTROL ∧
          e = { DeckParser.controlEntryAt p units ce0 w u with
                name := p.controlEntryName (DeckParser.controlEntryAt p units ce0 w u) u } := by
  induction n generalizing t acc with
  | zero => exact ⟨hchain, hmem⟩
  | succ n ih =>
    by_cases hmode :
        DeckParser.determineWellControlMode w t ≠ Model.ControlMode.UNKNOWN_CONTROL
    · by_cases hadd : (match acc.getLast? with
          | none => true
          | some l => isDifferent l (DeckParser.controlEntryAt p units ce0 w t)) = true
      · have hstep : DeckParser.controlEntriesLoop p units isDifferent ce0 w t (n + 1) acc
            = DeckParser.controlEntriesLoop p units isDifferent ce0 w (t + 1) n
                (acc ++ [{ DeckParser.controlEntryAt p units ce0 w t with
                  name := p.controlEntryName (DeckParser.controlEntryAt p units ce0 w t) t }]) := by
          rw [DeckParser.controlEntriesLoop, if_pos hmode, if_pos hadd]
        rw [hstep]
        apply ih (t + 1) _ (by omega) (by omega)
        · apply List.Chain'.append hchain (List.chain'_singleton _)
          intro x hx y hy
          simp only [List.head?_cons, Option.mem_def, Option.some.injEq] at hy
          subst hy
          have hx' : acc.getLast? = some x := hx
          rw [hx'] at hadd
          exact hadd
        · intro e he
          rcases List.mem_append.mp he with he | he
          · exact hmem e he
          · simp only [List.mem_singleton] at he
            exact ⟨t, ht, by omega, hmode, he⟩
      · have hstep : DeckParser.controlEntriesLoop p units isDifferent ce0 w t (n + 1) acc
            = DeckParser.controlEntriesLoop p units isDifferent ce0 w (t + 1) n acc := by
          rw [DeckParser.controlEntriesLoop, if_pos hmode, if_neg hadd]
        rw [hstep]
        exact ih (t + 1) acc (by omega) (by omega) hchain hmem
    · have hstep : DeckParser.controlEntriesLoop p units isDifferent ce0 w t (n + 1) acc
          = DeckParser.controlEntriesLoop p units isDifferent ce0 w (t + 1) n acc := by
        rw [DeckParser.controlEntriesLoop, if_neg hmode]
      rw [hstep]
      exact ih (t + 1) acc (by omega) (by omega) hchain hmem

/-- C23: in the list `opmToControlEntries` returns, every entry was found
different, by `isDifferent` called on the entry before it, at the moment it was
added, that is before its name was set; so for an `isDifferent` that does not
read the name of its argument every entry is different from the entry before
it. Every entry belongs to a timestep of the well, from its first timestep on,
whose control mode is not UNKNOWN_CONTROL, and carries that mode. -/
theorem DeckParser.opmToControlEntries_differ (p : DeckParser) (units : Opm.Metric)
    (isDifferent : Model.Well.ControlEntry → Model.Well.ControlEntry → Bool)
    (ce0 : Model.Well.ControlEntry) (w : Opm.Well) :
    List.Chain' (fun a b => isDifferent a { b with name := ce0.name } = true)
      (p.opmToControlEntries units isDifferent ce0 w) ∧
    ((∀ a b n, isDifferent a { b with name := n } = isDifferent a b) →
      List.Chain' (fun a b => isDifferent a b = true)
        (p.opmToControlEntries units isDifferent ce0 w)) ∧
    (∀ e ∈ p.opmToControlEntries units isDifferent ce0 w,
      e.control_mode ≠ Model.ControlMode.UNKNOWN_CONTROL ∧
      ∃ t, p.current_well_first_time_step_ ≤ t ∧ t < p.num_timesteps_ ∧
        DeckParser.determineWellControlMode w t ≠ Model.ControlMode.UNKNOWN_CONTROL ∧
        e = { DeckParser.controlEntryAt p units ce0 w t with
              name := p.controlEntryName (DeckParser.controlEntryAt p units ce0 w t) t }) := by
  by_cases hle : p.current_well_first_time_step_ ≤ p.num_timesteps_
  · obtain ⟨hchain, hmem⟩ := DeckParser.controlEntriesLoop_spec p units isDifferent ce0 w
      p.current_well_first_time_step_ p.num_timesteps_ p.current_well_first_time_step_
      (p.num_timesteps_ - p.current_well_first_time_step_) [] (le_refl _) (by omega)
      List.chain'_nil (by simp)
    refine ⟨hchain, ?_, ?_⟩
    · intro hname
      refine List.Chain'.imp ?_ hchain
      intro a b hab
      rw [← hname a b ce0.name]
      exact hab
    · intro e he
      obtain ⟨t, h1, h2, h3, h4⟩ := hmem e he
      refine ⟨?_, t, h1, h2, h3, h4⟩
      rw [h4]
      exact h3
  · have hzero : p.num_timesteps_ - p.current_well_first_time_step_ = 0 := by omega
    have hnil : p.opmToControlEntries units isDifferent ce0 w = [] := by
      simp [DeckParser.opmToControlEntries, hzero, DeckParser.controlEntriesLoop]
    rw [hnil]
    exact ⟨List.chain'_nil, fun _ => List.chain'_nil, by simp⟩

/-- Witness for C23: the example producer keeps its controls from timestep 1
to 4, with an undefined control mode at timestep 3; one entry is made, at
timestep 1. -/
theorem DeckParser.opmToControlEntries_differ_witness :
    (Examples.parser.opmToControlEntries Examples.metric Examples.isDifferent
      Examples.default_entry Examples.producer).map (fun e => e.name) = ["Rate#W1#1"] ∧
    List.Chain' (fun a b => Examples.isDifferent a b = true)
      (Examples.parser.opmToControlEntries Examples.metric Examples.isDifferent
        Examples.default_entry Examples.producer) :=
  ⟨by decide!,
    (DeckParser.opmToControlEntries_differ Examples.parser Examples.metric
      Examples.isDifferent Examples.default_entry Examples.producer).2.1
      (fun _ _ _ => rfl)⟩

end Settings


namespace Optimization

namespace Objective

/-! ## The discounted components of the net present value -/

/-- The hydraulic efficiency is positive for per-pump rates between 0 and 1. -/
theorem carbondioxidenpv.calcEffHydraulic_pos (q : ℚ) (h0 : 0 ≤ q) (h1 : q ≤ 1) :
    0 < carbondioxidenpv.calcEffHydraulic q := by
  have h2 : q ^ 2 ≤ 1 := pow_le_one₀ h0 h1
  have h4 : q ^ 4 ≤ 1 := pow_le_one₀ h0 h1
  have h3 : 0 ≤ q ^ 3 := pow_nonneg h0 3
  unfold carbondioxidenpv.calcEffHydraulic
  norm_num
  linarith

/-- The hydraulic efficiency is negative for per-pump rates from 10000 on. -/
theorem carbondioxidenpv.calcEffHydraulic_neg (q : ℚ) (h : 10000 ≤ q) :
    carbondioxidenpv.calcEffHydraulic q < 0 := by
  have h0 : 0 ≤ q := le_trans (by norm_num) h
  have h1 : 0 ≤ q ^ 3 * (q - 10000) := mul_nonneg (pow_nonneg h0 3) (by linarith)
  have h2 : (10000 : ℚ) ^ 3 ≤ q ^ 3 := pow_le_pow_left₀ (by norm_num) h 3
  have h3 : 0 ≤ q * (q - 10000) := mul_nonneg h0 (by linarith)
  unfold carbondioxidenpv.calcEffHydraulic
  norm_num
  nlinarith [h1, h2, h3, h0]

/-- An entry read with `value(i)` from a list of rates between 0 and 1 is
between 0 and 1, also past the end. -/
theorem carbondioxidenpv.value_unit (l : List ℚ) (i : Nat)
    (h : ∀ q ∈ l, 0 ≤ q ∧ q ≤ 1) : 0 ≤ l.getD i 0 ∧ l.getD i 0 ≤ 1 := by
  by_cases hi : i < l.length
  · rw [List.getD_eq_getElem l 0 hi]
    exact h _ (List.getElem_mem hi)
  · rw [List.getD_eq_default l 0 (not_lt.mp hi)]
    exact ⟨le_refl 0, zero_le_one⟩

/-- The first inner loop reads `FWIR` inside its bounds when the report times
are no more than the rates. -/
theorem carbondioxidenpv.pumpRatesLoop_defined (FWIR : List ℚ) (k : ℚ) :
    ∀ (n i : Nat) (lists : List ℚ × List ℚ), i + n ≤ FWIR.length →
      ∃ r, carbondioxidenpv.pumpRatesLoop FWIR k i n lists = some r := by
  intro n
  induction n with
  | zero =>
    intro i lists _
    exact ⟨lists, by rw [carbondioxidenpv.pumpRatesLoop]⟩
  | succ n ih =>
    intro i lists h
    obtain ⟨qs, effs⟩ := lists
    have hi : i < FWIR.length := by omega
    rw [carbondioxidenpv.pumpRatesLoop, List.get?_eq_get hi]
    dsimp only
    split
    · exact ih (i + 1) _ (by omega)
    · exact ih (i + 1) _ (by omega)

/-- With a pump count at least as large as every rate, the first inner loop
only produces per-pump rates between 0 and 1 and positive efficiencies. -/
theorem carbondioxidenpv.pumpRatesLoop_positive (FWIR : List ℚ) (k : ℚ) (hk : 0 < k)
    (hbound : ∀ x ∈ FWIR, x ≤ k) :
    ∀ (n i : Nat) (qs effs : List ℚ), i + n ≤ FWIR.length →
      (∀ q ∈ qs, 0 ≤ q ∧ q ≤ 1) → (∀ e ∈ effs, 0 < e) →
      ∃ qs2 effs2, carbondioxidenpv.pumpRatesLoop FWIR k i n (qs, effs) = some (qs2, effs2) ∧
        ∀ e ∈ effs2, 0 < e := by
  intro n
  induction n with
  | zero =>
    intro i qs effs _ _ he
    exact ⟨qs, effs, by rw [carbondioxidenpv.pumpRatesLoop], he⟩
  | succ n ih =>
    intro i qs effs h hq he
    have hi : i < FWIR.length := by omega
    rw [carbondioxidenpv.pumpRatesLoop, List.get?_eq_get hi]
    dsimp only
    split
    · rename_i hpos
      have hx : FWIR.get ⟨i, hi⟩ ≤ k := hbound _ (List.get_mem _ _ _)
      have hq2 : ∀ q ∈ qs ++ [FWIR.get ⟨i, hi⟩ / k], 0 ≤ q ∧ q ≤ 1 := by
        intro q hmem
        rcases List.mem_append.mp hmem with hmem | hmem
        · exact hq q hmem
        · rw [List.mem_singleton] at hmem
          subst hmem
          exact ⟨div_nonneg (le_of_lt hpos) (le_of_lt hk), (div_le_one hk).mpr hx⟩
      refine ih (i + 1) _ _ (by omega) hq2 ?_
      intro e hmem
      rcases List.mem_append.mp hmem with hmem | hmem
      · exact he e hmem
      · rw [List.mem_singleton] at hmem
        subst hmem
        exact carbondioxidenpv.calcEffHydraulic_pos _
          (carbondioxidenpv.value_unit _ i hq2).1 (carbondioxidenpv.value_unit _ i hq2).2
    · exact ih (i + 1) qs effs (by omega) hq he

/-- Once `temp_feasable` is false the second inner loop leaves it false. -/
theorem carbondioxidenpv.feasableLoop_false (effs : List ℚ) :
    carbondioxidenpv.feasableLoop effs false = false := by
  induction effs with
  | nil => rfl
  | cons e rest ih => simp [carbondioxidenpv.feasableLoop, ih]

/-- The second inner loop leaves `temp_feasable` true exactly when every
efficiency is positive. -/
theorem carbondioxidenpv.feasableLoop_iff (effs : List ℚ) :
    carbondioxidenpv.feasableLoop effs true = true ↔ ∀ e ∈ effs, 0 < e := by
  induction effs with
  | nil => simp [carbondioxidenpv.feasableLoop]
  | cons e rest ih =>
    by_cases he : e ≤ 0
    · simp [carbondioxidenpv.feasableLoop, he, carbondioxidenpv.feasableLoop_false]
    · simp [carbondioxidenpv.feasableLoop, he, ih, not_le.mp he]

/-- The search entered with `k` pumps, when `k + d` pumps are feasible and
`k + d` is at most 2^53, leaves within `d + 1` passes with a feasible count
between `k` and `k + d`. -/
theorem carbondioxidenpv.pumpSearch_finds (FWIR : List ℚ) (size : Nat)
    (h : size ≤ FWIR.length) :
    ∀ (d : Nat) (k : ℚ), k + (d : ℚ) ≤ 2 ^ 53 →
      (∃ qs effs, carbondioxidenpv.pumpRatesLoop FWIR (k + d) 0 size ([], []) = some (qs, effs) ∧
        ∀ e ∈ effs, 0 < e) →
      ∃ m : Nat, m ≤ d ∧
        carbondioxidenpv.pumpSearch FWIR size (d + 1) k = some (some (k + m)) ∧
        ∃ qs effs, carbondioxidenpv.pumpRatesLoop FWIR (k + m) 0 size ([], []) = some (qs, effs) ∧
          ∀ e ∈ effs, 0 < e := by
  intro d
  induction d with
  | zero =>
    intro k _ hfeas
    obtain ⟨qs, effs, hloop, hpos⟩ := hfeas
    refine ⟨0, le_refl 0, ?_, qs, effs, hloop, hpos⟩
    simp only [Nat.cast_zero, add_zero] at hloop ⊢
    rw [carbondioxidenpv.pumpSearch, hloop]
    simp [(carbondioxidenpv.feasableLoop_iff effs).mpr hpos]
  | succ d ih =>
    intro k hle hfeas
    obtain ⟨⟨qs, effs⟩, hloop⟩ :=
      carbondioxidenpv.pumpRatesLoop_defined FWIR k size 0 ([], []) (by omega)
    by_cases hf : carbondioxidenpv.feasableLoop effs true = true
    · refine ⟨0, Nat.zero_le _, ?_, qs, effs, by simpa using hloop,
        (carbondioxidenpv.feasableLoop_iff effs).mp hf⟩
      rw [carbondioxidenpv.pumpSearch, hloop]
      simp [hf]
    · have hcast0 : k + 1 + (d : ℚ) = k + ((d + 1 : Nat) : ℚ) := by push_cast; ring
      have hd : (0 : ℚ) ≤ (d : ℚ) := Nat.cast_nonneg d
      have hlt : k < 2 ^ 53 := by
        rw [← hcast0] at hle
        linarith
      have hadd : carbondioxidenpv.addOne k = k + 1 := by
        unfold carbondioxidenpv.addOne
        rw [if_pos hlt]
      have hnext : ∃ qs effs, carbondioxidenpv.pumpRatesLoop FWIR (k + 1 + d) 0 size ([], []) =
          some (qs, effs) ∧ ∀ e ∈ effs, 0 < e := by
        rw [hcast0]
        exact hfeas
      obtain ⟨m, hm, hsearch, hres⟩ := ih (k + 1) (by rw [hcast0]; exact hle) hnext
      have hcast : k + 1 + (m : ℚ) = k + ((m + 1 : Nat) : ℚ) := by push_cast; ring
      refine ⟨m + 1, Nat.succ_le_succ hm, ?_, ?_⟩
      · rw [carbondioxidenpv.pumpSearch, hloop]
        simp only [hf, Bool.false_eq_true, if_false]
        rw [hadd, hsearch, hcast]
      · rw [← hcast]
        exact hres

/-- On the rate 10^20 the search is still running after any number of passes,
from every pump count between 1 and 2^53 + 1. -/
theorem carbondioxidenpv.pumpSearch_huge_rate :
    ∀ (fuel : Nat) (k : ℚ), 1 ≤ k → k ≤ 2 ^ 53 + 1 →
      carbondioxidenpv.pumpSearch Examples.huge_rate 1 fuel k = some none := by
  intro fuel
  induction fuel with
  | zero =>
    intro k _ _
    rfl
  | succ fuel ih =>
    intro k h1 h2
    have hk : 0 < k := by linarith
    have hq : (10000 : ℚ) ≤ 10 ^ 20 / k := by
      rw [le_div_iff₀ hk]
      norm_num at h2 ⊢
      linarith
    have hneg := carbondioxidenpv.calcEffHydraulic_neg _ hq
    have hloop : carbondioxidenpv.pumpRatesLoop Examples.huge_rate k 0 1 ([], [])
        = some ([10 ^ 20 / k], [carbondioxidenpv.calcEffHydraulic (10 ^ 20 / k)]) := by
      simp [carbondioxidenpv.pumpRatesLoop, Examples.huge_rate]
    have hnext : 1 ≤ carbondioxidenpv.addOne k ∧ carbondioxidenpv.addOne k ≤ 2 ^ 53 + 1 := by
      unfold carbondioxidenpv.addOne
      split
      · constructor <;> linarith
      · exact ⟨h1, h2⟩
    rw [carbondioxidenpv.pumpSearch, hloop]
    simp only [carbondioxidenpv.feasableLoop, le_of_lt hneg, if_true, Bool.false_eq_true,
      if_false]
    exact ih _ hnext.1 hnext.2

/-- C27 as stated fails: with one report time and the injection rate 10^20
the pump search never leaves. The counter `temp_n_pump` stops advancing at
2^53, and at every count from 1 to 2^53 the per-pump rate is above 10000, where
the hydraulic efficiency is negative; so after any number of passes the loop is
still running, and no number of passes ends it. -/
theorem carbondioxidenpv.pumpSearch_never_leaves :
    (1 ≤ Examples.huge_rate.length ∧
      carbondioxidenpv.addOne (2 ^ 53) = 2 ^ 53 ∧
      ∀ k : ℚ, 1 ≤ k → k ≤ 2 ^ 53 → carbondioxidenpv.calcEffHydraulic (10 ^ 20 / k) < 0) ∧
    (∀ fuel : Nat,
      carbondioxidenpv.pumpSearch Examples.huge_rate 1 fuel carbondioxidenpv.npump_wi_
        = some none) ∧
    ¬ ∃ (fuel : Nat) (n : ℚ),
      carbondioxidenpv.pumpSearch Examples.huge_rate 1 fuel carbondioxidenpv.npump_wi_
        = some (some n) := by
  have hall : ∀ fuel : Nat,
      carbondioxidenpv.pumpSearch Examples.huge_rate 1 fuel carbondioxidenpv.npump_wi_
        = some none := fun fuel =>
    carbondioxidenpv.pumpSearch_huge_rate fuel carbondioxidenpv.npump_wi_
      (by norm_num [carbondioxidenpv.npump_wi_]) (by norm_num [carbondioxidenpv.npump_wi_])
  refine ⟨⟨by decide, by norm_num [carbondioxidenpv.addOne], ?_⟩, hall, ?_⟩
  · intro k h1 h2
    have hk : 0 < k := by linarith
    apply carbondioxidenpv.calcEffHydraulic_neg
    rw [le_div_iff₀ hk]
    norm_num at h2 ⊢
    linarith
  · rintro ⟨fuel, n, hn⟩
    rw [hall fuel] at hn
    exact Option.noConfusion (Option.some.inj hn)

/-- Claim C27, amended: the pump-count search of `resolveCarbonDioxideCost`
terminates for every vector `FWIR` of rates at least as long as the report
times whose rates are at most 2^53: entered with `npump_wi_ = 1` it leaves
after finitely many passes with a whole pump count `1 + m` of at most 2^53, and
at that count every hydraulic efficiency the loop evaluates is strictly
positive; `calcEffHydraulic(0)` is positive. -/
theorem carbondioxidenpv.pumpSearch_terminates (FWIR : List ℚ) (report_times_size : Nat)
    (h : report_times_size ≤ FWIR.length) (hbound : ∀ x ∈ FWIR, x ≤ 2 ^ 53) :
    0 < carbondioxidenpv.calcEffHydraulic 0 ∧
      ∃ (fuel m : Nat),
        carbondioxidenpv.pumpSearch FWIR report_times_size fuel carbondioxidenpv.npump_wi_ =
          some (some (1 + (m : ℚ))) ∧
        1 + (m : ℚ) ≤ 2 ^ 53 ∧
        ∃ qs effs,
          carbondioxidenpv.pumpRatesLoop FWIR (1 + (m : ℚ)) 0 report_times_size ([], []) =
            some (qs, effs) ∧
          ∀ e ∈ effs, 0 < e := by
  refine ⟨carbondioxidenpv.calcEffHydraulic_pos 0 (le_refl 0) zero_le_one, ?_⟩
  have hcast : (1 : ℚ) + ((2 ^ 53 - 1 : Nat) : ℚ) = 2 ^ 53 := by norm_num
  obtain ⟨m, hm, hsearch, hres⟩ :=
    carbondioxidenpv.pumpSearch_finds FWIR report_times_size h (2 ^ 53 - 1) 1
      (le_of_eq hcast)
      (by
        rw [hcast]
        exact carbondioxidenpv.pumpRatesLoop_positive FWIR _ (by norm_num) hbound
          report_times_size 0 [] [] (by omega) (by simp) (by simp))
  refine ⟨2 ^ 53 - 1 + 1, m, hsearch, ?_, hres⟩
  have hm2 : (m : ℚ) ≤ ((2 ^ 53 - 1 : Nat) : ℚ) := by exact_mod_cast hm
  rw [← hcast]
  linarith

/-- Witness for C27: on the example rates over their three report times the
search leaves with four pumps, after three infeasible passes. -/
theorem carbondioxidenpv.pumpSearch_terminates_witness :
    carbondioxidenpv.pumpSearch Examples.FWIR 3 4 carbondioxidenpv.npump_wi_ = some (some 4) ∧
      (0 < carbondioxidenpv.calcEffHydraulic 0 ∧
        ∃ (fuel m : Nat),
          carbondioxidenpv.pumpSearch Examples.FWIR 3 fuel carbondioxidenpv.npump_wi_ =
            some (some (1 + (m : ℚ))) ∧
          1 + (m : ℚ) ≤ 2 ^ 53 ∧
          ∃ qs effs,
            carbondioxidenpv.pumpRatesLoop Examples.FWIR (1 + (m : ℚ)) 0 3 ([], []) =
              some (qs, effs) ∧
            ∀ e ∈ effs, 0 < e) :=
  ⟨by
    norm_num [carbondioxidenpv.pumpSearch, carbondioxidenpv.pumpRatesLoop,
      carbondioxidenpv.feasableLoop, carbondioxidenpv.calcEffHydraulic,
      carbondioxidenpv.addOne, carbondioxidenpv.npump_wi_, Examples.FWIR],
    carbondioxidenpv.pumpSearch_terminates Examples.FWIR 3 (by decide)
      (by
        intro x hx
        simp only [Examples.FWIR, List.mem_cons, List.mem_singleton, List.not_mem_nil,
          or_false] at hx
        rcases hx with rfl | rfl | rfl <;> norm_num)⟩

end Objective

end Optimization
